import Mathlib

/-! # swrv: request pipeline and server aggregator

A shallow embedding of `pkg/swrv` (controller.go, server.go, response.go,
response-headers.go, response-helpers.go, serial-default.go, serial-json.go,
controller-spec.go, controller-error-spec.go) together with the facts proved
about it.

Conventions of the embedding:

* Go byte strings and byte streams are Lean `String`s: a character stands for
  the byte that has its code (ASCII text stands for itself), so the length of a
  string is its number of bytes.
* A Go `map` is an association list; the list order stands for the (unspecified)
  iteration order of the map, so a statement proved for every list holds for
  every iteration order.
* User code (filters, handlers) may write to the request it is handed (its
  context map), so a call takes the request and returns it as the call left it.
* Every call the pipeline makes on a filter, handler or serializer is recorded,
  in order, in a call log.
* Logging is left out, except that `Fatalln` ends the process.
-/

namespace Swrv

/-! ## Header maps (net/http `Header`, net/textproto) -/

/-- Go `http.Header`, that is `map[string][]string`. -/
abbrev Header := List (String × List String)

/-- Go `textproto.validHeaderFieldByte`: the bytes allowed in an HTTP token,
given by their codes (letters, digits and the punctuation of RFC 7230). -/
def validHeaderFieldByte (c : Char) : Bool :=
  let n := c.toNat
  n == 33 || (35 ≤ n && n ≤ 39) || n == 42 || n == 43 || n == 45 || n == 46 ||
  (48 ≤ n && n ≤ 57) || (65 ≤ n && n ≤ 90) || (94 ≤ n && n ≤ 122) ||
  n == 124 || n == 126

/-- One step of the canonicalisation loop of Go `textproto.canonicalMIMEHeaderKey`:
upper-case a letter that starts the key or follows a hyphen, lower-case the
other letters. -/
def canonByte (upper : Bool) (c : Char) : Char :=
  if upper && 97 ≤ c.toNat && c.toNat ≤ 122 then Char.ofNat (c.toNat - 32)
  else if !upper && 65 ≤ c.toNat && c.toNat ≤ 90 then Char.ofNat (c.toNat + 32)
  else c

/-- The canonicalisation loop of Go `textproto.canonicalMIMEHeaderKey`. -/
def canonLoop : Bool → List Char → List Char
  | _, [] => []
  | upper, c :: rest =>
    let c1 := canonByte upper c
    c1 :: canonLoop (c1 == '-') rest

/-- Go `textproto.CanonicalMIMEHeaderKey`: a key holding a byte that is not a
token byte (a space included) is returned unchanged, any other key is
canonicalised. -/
def CanonicalMIMEHeaderKey (s : String) : String :=
  if s.data.all validHeaderFieldByte then String.mk (canonLoop true s.data) else s

/-- Go map read `h[key]` with the comma-ok result. -/
def Header.get (h : Header) (key : String) : Option (List String) :=
  match h with
  | [] => none
  | (k, vs) :: rest => if k = key then some vs else Header.get rest key

/-- Go map write `h[key] = vs`. -/
def Header.put (h : Header) (key : String) (vs : List String) : Header :=
  match h with
  | [] => [(key, vs)]
  | (k, old) :: rest =>
    if k = key then (k, vs) :: rest else (k, old) :: Header.put rest key vs

/-- Go `http.Header.Add`: `key = CanonicalMIMEHeaderKey(key); h[key] = append(h[key], value)`. -/
def Header.Add (h : Header) (key value : String) : Header :=
  let k := CanonicalMIMEHeaderKey key
  h.put k ((h.get k).getD [] ++ [value])

/-- Go `http.Header.Set`: `h[CanonicalMIMEHeaderKey(key)] = []string{value}`. -/
def Header.Set (h : Header) (key value : String) : Header :=
  h.put (CanonicalMIMEHeaderKey key) [value]

/-- Modelled from the spec: the constant `HeaderContentType` is used by
controller.go but declared in a file that is not part of the sources; it is
the name of the content-type header in its canonical spelling. -/
def HeaderContentType : String := "Content-Type"

/-- The constant `ContentTypeApplicationJSON` of content-types.go. -/
def ContentTypeApplicationJSON : String := "application/json"

/-- The constant `ContentTypeTextPlain` of content-types.go. -/
def ContentTypeTextPlain : String := "text/plain"

/-! ## response-headers.go -/

/-- The type `responseHeaders`: a wrapper around an `http.Header`. -/
structure responseHeaders where
  head : Header
deriving DecidableEq, Repr

/-- The loop `for _, val := range values { r.head.Add(header, val) }`. -/
def addAll (h : Header) (header : String) : List String → Header
  | [] => h
  | val :: rest => addAll (h.Add header val) header rest

/-- The method `responseHeaders.Set`. -/
def responseHeaders.Set (r : responseHeaders) (header value : String)
    (values : List String) : responseHeaders :=
  { head := addAll (r.head.Set header value) header values }

/-- The method `responseHeaders.Append`. -/
def responseHeaders.Append (r : responseHeaders) (header value : String)
    (values : List String) : responseHeaders :=
  { head := addAll (r.head.Add header value) header values }

/-- The method `responseHeaders.GetAll`. -/
def responseHeaders.GetAll (r : responseHeaders) (header : String) : List String × Bool :=
  match r.head.get header with
  | some found => (found, true)
  | none => ([], false)

/-- The method `responseHeaders.GetFirst`. -/
def responseHeaders.GetFirst (r : responseHeaders) (header : String) : String × Bool :=
  match r.head.get header with
  | some found =>
    match found with
    | [] => ("", true)
    | first :: _ => (first, true)
  | none => ("", false)

/-! ## response.go, response-helpers.go -/

/-- A Go `io.Reader` value, given by the bytes it yields; `readCloser` is a
reader that also has a `Close` method. -/
inductive Stream where
  | reader (data : String)
  | readCloser (data : String)
deriving DecidableEq, Repr

/-- The bytes a stream yields. -/
def Stream.data : Stream → String
  | .reader d => d
  | .readCloser d => d

/-- A response body, a Go `any`: nil, a byte stream, or any other value. -/
inductive Body (V : Type) where
  | nil
  | stream (s : Stream)
  | value (v : V)
deriving DecidableEq, Repr

/-- The struct `response` behind the `Response` interface. -/
structure Response (V : Type) where
  code : Int
  body : Body V
  headers : responseHeaders
deriving DecidableEq, Repr

/-- The function `NewResponse`. -/
def NewResponse {V : Type} : Response V :=
  { code := 200, body := Body.nil, headers := { head := [] } }

/-- The method `response.WithCode`. -/
def Response.WithCode {V : Type} (r : Response V) (code : Int) : Response V :=
  { r with code := code }

/-- The method `response.WithBody`. -/
def Response.WithBody {V : Type} (r : Response V) (body : Body V) : Response V :=
  { r with body := body }

/-- The method `response.WithHeader`. -/
def Response.WithHeader {V : Type} (r : Response V) (header value : String)
    (values : List String) : Response V :=
  { r with headers := r.headers.Set header value values }

/-- The function `newEmptyResponseError`; `strings.NewReader` gives a reader
that has no `Close`. -/
def newEmptyResponseError {V : Type} (error : String) : Response V :=
  (NewResponse.WithCode 500).WithBody (Body.stream (Stream.reader error))

/-! ## request-filter.go, response-filter.go, request-handler.go, serial*.go -/

/-- The interface `RequestFilter`: returns a response to halt the request, or
nil; the second component is the request as the call left it. -/
structure RequestFilter (V Rq : Type) where
  FilterRequest : Rq → Option (Response V) × Rq

/-- The interface `ResponseFilter`. -/
structure ResponseFilter (V Rq : Type) where
  FilterResponse : Rq → Response V → Option (Response V) × Rq

/-- The interface `RequestHandler`. -/
structure RequestHandler (V Rq : Type) where
  HandleRequest : Rq → Option (Response V) × Rq

/-- The interface `ObjectSerializer`; `Serialize` returns the pair
`(io.Reader, error)`, either of which may be nil. -/
structure ObjectSerializer (V : Type) where
  Matches : V → Bool
  Serialize : V → Option Stream × Option String
  ContentType : String

/-- What Go `fmt.Sprint` makes of a body value. -/
class GoValue (V : Type) where
  Sprint : V → String

/-- What Go `encoding/json` makes of a body value: its JSON encoding, or an
error for a value that cannot be encoded. -/
class GoJSON (V : Type) where
  Marshal : V → Except String String

/-- The type `defaultObjectSerializer`. -/
def defaultObjectSerializer {V : Type} [GoValue V] : ObjectSerializer V :=
  { Matches := fun _ => true
    Serialize := fun object => (some (Stream.reader (GoValue.Sprint object)), none)
    ContentType := ContentTypeTextPlain }

/-- Go `json.Encoder.Encode` on a fresh buffer: the encoding of the value
followed by a newline is written to the buffer; on an encoding error nothing
is written and the error is returned. The result is the buffer's content and
the error. -/
def jsonEncode {V : Type} [GoJSON V] (object : V) : String × Option String :=
  match GoJSON.Marshal object with
  | .ok bytes => (bytes ++ "\n", none)
  | .error e => ("", some e)

/-- The function `defaultMatcher`. -/
def defaultMatcher {V : Type} (_ : V) : Bool := true

/-- The type `jsonObjectSerializer` built by `NewJSONObjectSerializer`; a
`*bytes.Buffer` is a reader without `Close`. -/
def NewJSONObjectSerializer {V : Type} [GoJSON V] (fn : V → Bool) : ObjectSerializer V :=
  { Matches := fun object => fn object
    Serialize := fun object =>
      let (buffer, err) := jsonEncode object
      (some (Stream.reader buffer), err)
    ContentType := ContentTypeApplicationJSON }

/-- The function `NewDefaultJSONObjectSerializer`. -/
def NewDefaultJSONObjectSerializer {V : Type} [GoJSON V] : ObjectSerializer V :=
  NewJSONObjectSerializer defaultMatcher

/-! ## controller.go -/

/-- A call made by the pipeline on user-supplied or built-in code. Filters and
serializers are named by their position in the controller's lists; `none`
names the built-in default serializer. -/
inductive Call (V : Type) where
  | FilterRequest (i : Nat)
  | HandleRequest
  | FilterResponse (i : Nat) (response : Response V)
  | Matches (i : Nat)
  | ContentType (i : Option Nat)
  | Serialize (i : Option Nat)
  | Close
deriving DecidableEq, Repr

/-- The transport side, a Go `http.ResponseWriter` that behaves as the response
writers of net/http do: the header map, the `WriteHeader` calls received so
far, the body bytes handed to the writer so far (through its `Write` or its
`ReadFrom`; what the writer does with them is not part of the state), whether
the header has been written, and whether the writer is also an `io.ReaderFrom`
(the writer of the net/http server is one; `httptest.ResponseRecorder` and a
writer wrapped by middleware usually are not). -/
structure ResponseWriter where
  header : Header
  status : List Int
  body : String
  wroteHeader : Bool
  readerFrom : Bool
deriving DecidableEq, Repr

/-- Go net/http: the informational status codes, after which a writer still
takes a status: 100 to 199 without `101 Switching Protocols`. -/
def informational (code : Int) : Bool :=
  decide (100 ≤ code) && decide (code ≤ 199) && decide (code ≠ 101)

/-- The call `writer.WriteHeader(code)`, after `response.WriteHeader` of
net/http: once the header has been written the call is logged as superfluous
and changes nothing but the record of calls; otherwise `checkWriteHeaderCode`
panics for a code outside 100..999 (the result `none`), and a code that is not
informational writes the header. -/
def ResponseWriter.WriteHeader (w : ResponseWriter) (code : Int) : Option ResponseWriter :=
  if w.wroteHeader then some { w with status := w.status ++ [code] }
  else if code < 100 ∨ 999 < code then none
  else some { w with status := w.status ++ [code], wroteHeader := !informational code }

/-- The call `writer.Header().Set(key, value)`. -/
def ResponseWriter.SetHeader (w : ResponseWriter) (key value : String) : ResponseWriter :=
  { w with header := w.header.Set key value }

/-- Go `bufio.defaultBufSize`, the buffer size of `bufio.NewWriter`. -/
def defaultBufSize : Nat := 4096

/-- The bytes that a new `bufio.Writer` of the default size has passed on to
the writer below it when its `ReadFrom` has read `data` to the end and the
writer below is not an `io.ReaderFrom`: the buffer is written out each time it
is full, so these are the whole blocks of `data`; what is left stays in the
buffer until a `Flush`. -/
def flushedBlocks (data : String) : String :=
  String.mk (data.data.take (data.length / defaultBufSize * defaultBufSize))

/-- The call `bufio.NewWriter(writer).ReadFrom(reader)` of controller.go, whose
buffered writer is dropped without a `Flush`. When the transport is an
`io.ReaderFrom` the buffered writer, being empty, hands the reader over to it
and every byte is handed to the transport. Otherwise only the blocks that
filled the buffer are, and the rest is lost with the buffer. A transport that
is handed bytes writes its header first. -/
def ResponseWriter.ReadFrom (w : ResponseWriter) (reader : Stream) : ResponseWriter :=
  let handed := if w.readerFrom then reader.data else flushedBlocks reader.data
  { w with body := w.body ++ handed, wroteHeader := w.wroteHeader || decide (handed ≠ "") }

/-- The struct `controller`. The two filter sequences are type parameters: a
controller under construction holds slices, a controller that serves ranges
over what the slices hold. -/
structure controller (Ins Outs H S : Type) where
  inFilters : Ins
  outFilters : Outs
  handler : H
  serializers : List S

/-- The function `newController` (without the logger). -/
def newController {Ins Outs H S : Type} (inF : Ins) (out : Outs) (hand : H)
    (serial : List S) : controller Ins Outs H S :=
  { inFilters := inF, outFilters := out, handler := hand, serializers := serial }

/-- A controller as `ServeHTTP` sees it; the handler is an interface value and
may be nil. -/
abbrev Pipeline (V Rq : Type) :=
  controller (List (RequestFilter V Rq)) (List (ResponseFilter V Rq))
    (Option (RequestHandler V Rq)) (ObjectSerializer V)

/-- What serving one request did: the transport, the request object, the calls
made in order, and whether the goroutine panicked. -/
structure Outcome (V Rq : Type) where
  writer : ResponseWriter
  request : Rq
  calls : List (Call V)
  panicked : Bool

/-- A `WriteHeader` call of the pipeline: when it panics the goroutine unwinds
with the transport as it is and the calls made so far, otherwise the pipeline
goes on as `next` on the transport after the call. -/
def afterWriteHeader {V Rq : Type} (writer : ResponseWriter) (code : Int) (request : Rq)
    (calls : List (Call V)) (next : ResponseWriter → Outcome V Rq) : Outcome V Rq :=
  match writer.WriteHeader code with
  | none => { writer := writer, request := request, calls := calls, panicked := true }
  | some writer1 => next writer1

/-- The deferred `reader.Close()` of a stream body: the call it makes when the
stream can be closed. -/
def closeCalls {V : Type} : Stream → List (Call V)
  | Stream.readCloser _ => [Call.Close]
  | Stream.reader _ => []

/-- The step `if response == nil { response = newEmptyResponseError(...) }` of
the response-filter loop. -/
def orEmptyResponseError {V : Type} (returned : Option (Response V)) : Response V :=
  match returned with
  | some response => response
  | none => newEmptyResponseError "response filter did not return a response"

/-- The response-filter loop of `handleResponse`; `i` is the position of the
head of `outs` in the controller's list. -/
def filterResponses {V Rq : Type} (outs : List (ResponseFilter V Rq)) (i : Nat)
    (request : Rq) (response : Response V) : Response V × Rq × List (Call V) :=
  match outs with
  | [] => (response, request, [])
  | out :: rest =>
    let (returned, request1) := out.FilterResponse request response
    let (final, request2, calls) :=
      filterResponses rest (i + 1) request1 (orEmptyResponseError returned)
    (final, request2, Call.FilterResponse i response :: calls)

/-- The inner loop of the header callback of `handleResponse`: the values of
one header, with the flag `setContentType` and the transport header map. -/
def applyValues (header : String) (values : List String) (acc : Bool × Header) :
    Bool × Header :=
  match values with
  | [] => acc
  | val :: rest =>
    let setContentType := if header = HeaderContentType then true else acc.1
    applyValues header rest (setContentType, acc.2.Add header val)

/-- The call `response.GetHeaders().ForEach(...)` of `handleResponse`. -/
def applyHeaders (head : Header) (acc : Bool × Header) : Bool × Header :=
  match head with
  | [] => acc
  | (header, values) :: rest => applyHeaders rest (applyValues header values acc)

/-- The serializer lookup loop of `handleResponse`: the first serializer whose
`Matches` is true, with its position, and the `Matches` calls made. -/
def lookupSerializer {V : Type} (serials : List (ObjectSerializer V)) (i : Nat)
    (body : V) : Option (Nat × ObjectSerializer V) × List (Call V) :=
  match serials with
  | [] => (none, [])
  | serial :: rest =>
    if serial.Matches body then (some (i, serial), [Call.Matches i])
    else
      let (found, calls) := lookupSerializer rest (i + 1) body
      (found, Call.Matches i :: calls)

/-- The step `if serializer == nil { serializer = defaultObjectSerializer{} }`
of `handleResponse`. -/
def orDefault {V : Type} [GoValue V] (found : Option (Nat × ObjectSerializer V)) :
    ObjectSerializer V :=
  match found with
  | some (_, serial) => serial
  | none => defaultObjectSerializer

/-- The step `if !setContentType { writer.Header().Set(HeaderContentType,
serializer.ContentType()) }` of `handleResponse`: the transport. -/
def setSerializerType (setContentType : Bool) (writer : ResponseWriter)
    (contentType : String) : ResponseWriter :=
  if setContentType then writer else writer.SetHeader HeaderContentType contentType

/-- The step `if !setContentType { ... serializer.ContentType() ... }` of
`handleResponse`: the call it makes on the serializer `which`. -/
def typeCalls {V : Type} (setContentType : Bool) (which : Option Nat) : List (Call V) :=
  if setContentType then [] else [Call.ContentType which]

/-- The step `if err != nil { ... }` of `handleResponse`, followed by the copy
`next` of the reader it leaves in `serialized`. -/
def onSerializeError {V Rq : Type} (writer : ResponseWriter) (serialized : Option Stream)
    (err : Option String) (request : Rq) (calls : List (Call V))
    (next : ResponseWriter → Option Stream → Outcome V Rq) : Outcome V Rq :=
  match err with
  | some _ =>
    afterWriteHeader writer 500 request calls (fun writer1 =>
      next (writer1.SetHeader HeaderContentType ContentTypeTextPlain)
        (some (Stream.reader "response body serialization failed!")))
  | none => next writer serialized

/-- The last step of `handleResponse`: copy the serialized reader to the
transport and close it when it can be closed; reading from a nil reader panics. -/
def copySerialized {V Rq : Type} (writer : ResponseWriter) (serialized : Option Stream)
    (request : Rq) (calls : List (Call V)) : Outcome V Rq :=
  match serialized with
  | none => { writer := writer, request := request, calls := calls, panicked := true }
  | some (Stream.readCloser data) =>
    { writer := writer.ReadFrom (Stream.readCloser data), request := request,
      calls := calls ++ [Call.Close], panicked := false }
  | some (Stream.reader data) =>
    { writer := writer.ReadFrom (Stream.reader data), request := request,
      calls := calls, panicked := false }

/-- The part of `handleResponse` that follows the choice of the serializer:
`serializer` is the chosen one and `which` its position (`none` for the
built-in default). -/
def serializeWith {V Rq : Type} (serializer : ObjectSerializer V) (which : Option Nat)
    (setContentType : Bool) (writer : ResponseWriter) (request : Rq) (code : Int)
    (body : V) (calls : List (Call V)) : Outcome V Rq :=
  let writer1 := setSerializerType setContentType writer serializer.ContentType
  afterWriteHeader writer1 code request (calls ++ typeCalls setContentType which)
    (fun writer2 =>
      let result := serializer.Serialize body
      onSerializeError writer2 result.1 result.2 request
        (calls ++ (typeCalls setContentType which ++ [Call.Serialize which]))
        (fun writer3 serialized =>
          copySerialized writer3 serialized request
            (calls ++ (typeCalls setContentType which ++ [Call.Serialize which]))))

/-- The tail of `handleResponse` for a body that is neither nil nor a stream. -/
def serializeBody {V Rq : Type} [GoValue V] (serials : List (ObjectSerializer V))
    (setContentType : Bool) (writer : ResponseWriter) (request : Rq) (code : Int)
    (body : V) (calls : List (Call V)) : Outcome V Rq :=
  let found := lookupSerializer serials 0 body
  serializeWith (orDefault found.1) (found.1.map Prod.fst) setContentType writer request
    code body (calls ++ found.2)

/-- The method `controller.handleResponse`. -/
def controller.handleResponse {V Rq : Type} [GoValue V] (c : Pipeline V Rq)
    (writer : ResponseWriter) (request : Rq) (response : Response V) : Outcome V Rq :=
  let (response1, request1, calls) := filterResponses c.outFilters 0 request response
  let (setContentType, header) := applyHeaders response1.headers.head (false, writer.header)
  let writer1 := { writer with header := header }
  match response1.body with
  | Body.nil =>
    afterWriteHeader writer1 response1.code request1 calls (fun writer2 =>
      { writer := writer2, request := request1, calls := calls, panicked := false })
  | Body.stream (Stream.readCloser data) =>
    afterWriteHeader writer1 response1.code request1 calls (fun writer2 =>
      { writer := writer2.ReadFrom (Stream.readCloser data), request := request1,
        calls := calls ++ [Call.Close], panicked := false })
  | Body.stream (Stream.reader data) =>
    afterWriteHeader writer1 response1.code request1 calls (fun writer2 =>
      { writer := writer2.ReadFrom (Stream.reader data), request := request1, calls := calls,
        panicked := false })
  | Body.value body =>
    serializeBody c.serializers setContentType writer1 request1 response1.code body calls

/-- The request-filter loop of `ServeHTTP`: the response of the first filter
that returns one, the request, and the `FilterRequest` calls made. -/
def filterRequests {V Rq : Type} (ins : List (RequestFilter V Rq)) (i : Nat)
    (request : Rq) : Option (Response V) × Rq × List (Call V) :=
  match ins with
  | [] => (none, request, [])
  | f :: rest =>
    match f.FilterRequest request with
    | (some response, request1) => (some response, request1, [Call.FilterRequest i])
    | (none, request1) =>
      let (halted, request2, calls) := filterRequests rest (i + 1) request1
      (halted, request2, Call.FilterRequest i :: calls)

/-- An outcome with earlier calls put in front of its call log. -/
def Outcome.after {V Rq : Type} (o : Outcome V Rq) (earlier : List (Call V)) : Outcome V Rq :=
  { o with calls := earlier ++ o.calls }

/-- The method `controller.ServeHTTP`; `request` is the result of
`WrapRequest(r)`. Calling `HandleRequest` on a nil handler panics. The deferred
close of the request body does not touch the transport and is left out. -/
def controller.ServeHTTP {V Rq : Type} [GoValue V] (c : Pipeline V Rq)
    (writer : ResponseWriter) (request : Rq) : Outcome V Rq :=
  match filterRequests c.inFilters 0 request with
  | (some response, request1, calls) =>
    (c.handleResponse writer request1 response).after calls
  | (none, request1, calls) =>
    match c.handler with
    | none => { writer := writer, request := request1, calls := calls, panicked := true }
    | some handler =>
      match handler.HandleRequest request1 with
      | (some response, request2) =>
        (c.handleResponse writer request2 response).after (calls ++ [Call.HandleRequest])
      | (none, request2) =>
        (c.handleResponse writer request2
          (newEmptyResponseError
            "request handler did not return a response, returning 500 error")).after
          (calls ++ [Call.HandleRequest])

/-! ## Go slices

The filter lists of the server and of the controller specifications are Go
slices that are appended to while pipelines are built, and `append` writes into
the backing array of its first argument when the capacity allows it. The
backing arrays are kept in a heap, and a slice is a view of one of them. -/

/-- A Go slice header: the backing array (by its place in the heap), the length
and the capacity. All slices here start at the first slot of their array. -/
structure Slice where
  arr : Nat
  len : Nat
  cap : Nat
deriving DecidableEq, Repr

/-- The nil slice. -/
def Slice.nil : Slice := { arr := 0, len := 0, cap := 0 }

/-- The backing arrays, each given by the slots written so far. -/
abbrev Heap (α : Type) := List (List α)

/-- The elements a slice holds. -/
def Heap.read {α : Type} (h : Heap α) (s : Slice) : List α :=
  (h.getD s.arr []).take s.len

/-- The capacity the Go runtime gives a slice that has to grow. -/
class GoRuntime where
  growslice : Nat → Nat → Nat

/-- The loop of Go `runtime.growslice` for slices of 256 elements or more:
grow by a quarter (and a bit) until the capacity suffices. -/
def growLoop (newLen : Nat) : Nat → Nat → Nat
  | 0, newcap => newcap
  | fuel + 1, newcap =>
    let newcap1 := newcap + (newcap + 3 * 256) / 4
    if newLen ≤ newcap1 then newcap1 else growLoop newLen fuel newcap1

/-- Go `runtime.growslice` (Go 1.18 and later): the needed length when it is
more than twice the old capacity, else twice the old capacity for slices under
256 elements, else the result of the loop. The rounding up to an allocation
size class is left out; for slices of interface values it changes no capacity
up to 16. -/
def goGrowslice (oldCap newLen : Nat) : Nat :=
  if oldCap + oldCap < newLen then newLen
  else if oldCap < 256 then oldCap + oldCap
  else growLoop newLen newLen oldCap

/-- The Go runtime. -/
instance goRuntime : GoRuntime where
  growslice := goGrowslice

/-- Go `append(s, xs...)`: when the capacity suffices the elements are written
into the backing array of `s` behind its length, else a new array is
allocated that holds the elements of `s` followed by `xs`. -/
def Heap.append {α : Type} [GoRuntime] (h : Heap α) (s : Slice) (xs : List α) :
    Heap α × Slice :=
  if s.len + xs.length ≤ s.cap then
    (h.set s.arr
        ((h.getD s.arr []).take s.len ++ xs ++ (h.getD s.arr []).drop (s.len + xs.length)),
      { s with len := s.len + xs.length })
  else
    (h ++ [h.read s ++ xs],
      { arr := h.length, len := s.len + xs.length,
        cap := GoRuntime.growslice s.cap (s.len + xs.length) })

/-! ## controller-spec.go, controller-error-spec.go -/

/-- The struct `controllerSpec`; the field `in` of the source is `in_` here. The
map `headers` is an association list. -/
structure controllerSpec (H : Type) where
  path : String
  methods : List String
  in_ : Slice
  out : Slice
  handler : H
  headers : List (String × String)

/-- The struct `errorControllerSpec`. -/
structure errorControllerSpec (H : Type) where
  in_ : Slice
  out : Slice
  handler : H

/-! ## server.go -/

/-- The struct `serverExtras`; the durations are in nanoseconds. -/
structure serverExtras where
  readTimeout : Int
  writeTimeout : Int
  host : String
  port : Nat
  useFilt404 : Bool
  useFilt405 : Bool
deriving DecidableEq, Repr

/-- The struct `server` (without the logger). Controller specifications are
held by address, `extras` is a pointer that may be nil. -/
structure server (S : Type) where
  started : Bool
  inFilters : Slice
  outFilters : Slice
  controllers : List Nat
  serializers : List S
  handler404 : Option Nat
  handler405 : Option Nat
  extras : Option serverExtras

/-- The memory of a program that sets up one server: the backing arrays of the
request-filter and response-filter slices, the controller specifications and
error-controller specifications it has made (a specification's address is its
place in the list), and the server. -/
structure World (RF PF H S : Type) where
  ins : Heap RF
  outs : Heap PF
  specs : List (controllerSpec H)
  errorSpecs : List (errorControllerSpec H)
  srv : server S

/-- How a process ends when it does not go on: a `Fatalln` of the logger, or a
panic. -/
inductive Exit where
  | fatal (message : String)
  | panic
deriving DecidableEq, Repr

/-- A route registered with the router (gorilla/mux): the path, the methods
and header pairs it is restricted to, and its handler. -/
structure Route (H S : Type) where
  path : String
  methods : List String
  headers : List String
  handler : controller Slice Slice H S

/-- The router (gorilla/mux): the routes in registration order and the two
error-handler slots. -/
structure Router (H S : Type) where
  routes : List (Route H S)
  NotFoundHandler : Option (controller Slice Slice H S)
  MethodNotAllowedHandler : Option (controller Slice Slice H S)

/-- Go `mux.NewRouter()`. -/
def NewRouter {H S : Type} : Router H S :=
  { routes := [], NotFoundHandler := none, MethodNotAllowedHandler := none }

/-- The function `NewServer`, in a memory that holds nothing else. -/
def NewServer {RF PF H S : Type} (host : String) (port : Nat) : World RF PF H S :=
  { ins := [], outs := [], specs := [], errorSpecs := []
    srv :=
      { started := false, inFilters := Slice.nil, outFilters := Slice.nil, controllers := []
        serializers := [], handler404 := none, handler405 := none
        extras := some
          { readTimeout := 30000000000, writeTimeout := 30000000000, host := host
            port := port, useFilt404 := false, useFilt405 := false } } }

/-- The function `NewController`: the new specification is put in memory; its
address is the number of specifications made before. -/
def NewController {RF PF H S : Type} (w : World RF PF H S) (path : String) (handler : H) :
    World RF PF H S :=
  { w with
    specs := w.specs ++
      [{ path := path, methods := [], in_ := Slice.nil, out := Slice.nil, handler := handler
         headers := [] }] }

/-- The function `NewErrorController`. -/
def NewErrorController {RF PF H S : Type} (w : World RF PF H S) (handler : H) :
    World RF PF H S :=
  { w with
    errorSpecs := w.errorSpecs ++ [{ in_ := Slice.nil, out := Slice.nil, handler := handler }] }

/-- The method `controllerSpec.WithRequestFilters`, on the specification held
at `spec`: the memory after the call and the pointer the call returns
(`return c`). -/
def controllerSpec.WithRequestFilters {RF PF H S : Type} [GoRuntime] (w : World RF PF H S)
    (spec : Nat) (filters : List RF) : Except Exit (World RF PF H S × Nat) :=
  match w.specs.get? spec with
  | none => .error Exit.panic
  | some c =>
    .ok ({ w with
      ins := (w.ins.append c.in_ filters).1
      specs := w.specs.set spec { c with in_ := (w.ins.append c.in_ filters).2 } }, spec)

/-- The method `controllerSpec.WithResponseFilters`, with the pointer it returns. -/
def controllerSpec.WithResponseFilters {RF PF H S : Type} [GoRuntime] (w : World RF PF H S)
    (spec : Nat) (filters : List PF) : Except Exit (World RF PF H S × Nat) :=
  match w.specs.get? spec with
  | none => .error Exit.panic
  | some c =>
    .ok ({ w with
      outs := (w.outs.append c.out filters).1
      specs := w.specs.set spec { c with out := (w.outs.append c.out filters).2 } }, spec)

/-- The method `controllerSpec.ForMethods`, with the pointer it returns. -/
def controllerSpec.ForMethods {RF PF H S : Type} (w : World RF PF H S) (spec : Nat)
    (methods : List String) : Except Exit (World RF PF H S × Nat) :=
  match w.specs.get? spec with
  | none => .error Exit.panic
  | some c => .ok ({ w with specs := w.specs.set spec { c with methods := c.methods ++ methods } }, spec)

/-- Go map write `m[key] = value` on a `map[string]string`. -/
def putString (m : List (String × String)) (key value : String) : List (String × String) :=
  match m with
  | [] => [(key, value)]
  | (k, v) :: rest => if k = key then (k, value) :: rest else (k, v) :: putString rest key value

/-- The method `controllerSpec.WithRequiredHeader`, with the pointer it returns. -/
def controllerSpec.WithRequiredHeader {RF PF H S : Type} (w : World RF PF H S) (spec : Nat)
    (header value : String) : Except Exit (World RF PF H S × Nat) :=
  match w.specs.get? spec with
  | none => .error Exit.panic
  | some c =>
    .ok ({ w with specs := w.specs.set spec { c with headers := putString c.headers header value } }, spec)

/-- The method `errorControllerSpec.WithRequestFilters`, with the pointer it returns. -/
def errorControllerSpec.WithRequestFilters {RF PF H S : Type} [GoRuntime]
    (w : World RF PF H S) (spec : Nat) (filters : List RF) : Except Exit (World RF PF H S × Nat) :=
  match w.errorSpecs.get? spec with
  | none => .error Exit.panic
  | some c =>
    .ok ({ w with
      ins := (w.ins.append c.in_ filters).1
      errorSpecs := w.errorSpecs.set spec { c with in_ := (w.ins.append c.in_ filters).2 } }, spec)

/-- The method `errorControllerSpec.WithResponseFilters`, with the pointer it returns. -/
def errorControllerSpec.WithResponseFilters {RF PF H S : Type} [GoRuntime]
    (w : World RF PF H S) (spec : Nat) (filters : List PF) : Except Exit (World RF PF H S × Nat) :=
  match w.errorSpecs.get? spec with
  | none => .error Exit.panic
  | some c =>
    .ok ({ w with
      outs := (w.outs.append c.out filters).1
      errorSpecs := w.errorSpecs.set spec { c with out := (w.outs.append c.out filters).2 } }, spec)

/-- The method `server.WithControllers`. -/
def server.WithControllers {RF PF H S : Type} (w : World RF PF H S) (controller : Nat) :
    Except Exit (World RF PF H S) :=
  if w.srv.started then
    .error (Exit.fatal "cannot add controllers to a server after it has started")
  else .ok { w with srv := { w.srv with controllers := w.srv.controllers ++ [controller] } }

/-- The method `server.WithRequestFilters`. -/
def server.WithRequestFilters {RF PF H S : Type} [GoRuntime] (w : World RF PF H S)
    (filters : List RF) : Except Exit (World RF PF H S) :=
  if w.srv.started then
    .error (Exit.fatal "cannot add request filters to a server after it has started")
  else
    .ok { w with
      ins := (w.ins.append w.srv.inFilters filters).1
      srv := { w.srv with inFilters := (w.ins.append w.srv.inFilters filters).2 } }

/-- The method `server.WithResponseFilters`. -/
def server.WithResponseFilters {RF PF H S : Type} [GoRuntime] (w : World RF PF H S)
    (filters : List PF) : Except Exit (World RF PF H S) :=
  if w.srv.started then
    .error (Exit.fatal "cannot add response filters to a server after it has started")
  else
    .ok { w with
      outs := (w.outs.append w.srv.outFilters filters).1
      srv := { w.srv with outFilters := (w.outs.append w.srv.outFilters filters).2 } }

/-- The method `server.WithObjectSerializers`. -/
def server.WithObjectSerializers {RF PF H S : Type} (w : World RF PF H S)
    (serializers : List S) : Except Exit (World RF PF H S) :=
  if w.srv.started then
    .error (Exit.fatal "cannot set an object serializer on a server after it has started")
  else .ok { w with srv := { w.srv with serializers := w.srv.serializers ++ serializers } }

/-- The method `server.WithReadTimeout`; `s.extras` is dereferenced. -/
def server.WithReadTimeout {RF PF H S : Type} (w : World RF PF H S) (timeout : Int) :
    Except Exit (World RF PF H S) :=
  match w.srv.extras with
  | none => .error Exit.panic
  | some e => .ok { w with srv := { w.srv with extras := some { e with readTimeout := timeout } } }

/-- The method `server.WithWriteTimeout`. -/
def server.WithWriteTimeout {RF PF H S : Type} (w : World RF PF H S) (timeout : Int) :
    Except Exit (World RF PF H S) :=
  match w.srv.extras with
  | none => .error Exit.panic
  | some e => .ok { w with srv := { w.srv with extras := some { e with writeTimeout := timeout } } }

/-- The method `server.With404Controller`; the controller may be nil. -/
def server.With404Controller {RF PF H S : Type} (w : World RF PF H S)
    (useGlobalFilters : Bool) (controller : Option Nat) : Except Exit (World RF PF H S) :=
  match w.srv.extras with
  | none => .error Exit.panic
  | some e =>
    .ok { w with
      srv := { w.srv with
        handler404 := controller
        extras := some { e with useFilt404 := useGlobalFilters } } }

/-- The method `server.With405Controller`. -/
def server.With405Controller {RF PF H S : Type} (w : World RF PF H S)
    (useGlobalFilters : Bool) (controller : Option Nat) : Except Exit (World RF PF H S) :=
  match w.srv.extras with
  | none => .error Exit.panic
  | some e =>
    .ok { w with
      srv := { w.srv with
        handler405 := controller
        extras := some { e with useFilt405 := useGlobalFilters } } }

/-- The loop of `buildController` that flattens the required headers into the
argument list of `route.Headers`. -/
def headerPairs : List (String × String) → List String
  | [] => []
  | (head, value) :: rest => head :: value :: headerPairs rest

/-- The method `server.buildController`, for the specification held at `spec`:
the memory after the two `append` calls and the router with the new route. -/
def server.buildController {RF PF H S : Type} [GoRuntime] (w : World RF PF H S)
    (spec : Nat) (router : Router H S) : Except Exit (World RF PF H S × Router H S) :=
  match w.specs.get? spec with
  | none => .error Exit.panic
  | some c =>
    let inFilters := w.ins.append w.srv.inFilters (w.ins.read c.in_)
    let outFilters := w.outs.append c.out (w.outs.read w.srv.outFilters)
    if c.path.length = 0 then .error (Exit.fatal "controller has an empty path")
    else
      .ok ({ w with ins := inFilters.1, outs := outFilters.1 },
        { router with
          routes := router.routes ++
            [{ path := c.path
               methods := if c.methods.length > 0 then c.methods else []
               headers := if c.headers.length > 0 then headerPairs c.headers else []
               handler := newController inFilters.2 outFilters.2 c.handler
                 w.srv.serializers }] })

/-- The loop of `server.build` over the registered controllers. -/
def server.buildAll {RF PF H S : Type} [GoRuntime] (w : World RF PF H S)
    (controllers : List Nat) (router : Router H S) :
    Except Exit (World RF PF H S × Router H S) :=
  match controllers with
  | [] => .ok (w, router)
  | spec :: rest =>
    match server.buildController w spec router with
    | .error e => .error e
    | .ok (w1, router1) => server.buildAll w1 rest router1

/-- The method `server.build`. -/
def server.build {RF PF H S : Type} [GoRuntime] (w : World RF PF H S)
    (router : Router H S) : Except Exit (World RF PF H S × Router H S) :=
  if w.srv.controllers.length = 0 then
    .error (Exit.fatal "attempted to start a server with no controllers registered")
  else server.buildAll w w.srv.controllers router

/-- The method `server.clear`. -/
def server.clear {RF PF H S : Type} (w : World RF PF H S) : World RF PF H S :=
  { w with
    srv := { w.srv with
      inFilters := Slice.nil, outFilters := Slice.nil, controllers := [], serializers := []
      handler405 := none, handler404 := none, extras := none } }

/-- The two handler slots of the router that `buildErrorController` can fill. -/
inductive Slot where
  | NotFoundHandler
  | MethodNotAllowedHandler
deriving DecidableEq, Repr

/-- The method `server.buildErrorController`, for the error specification held
at `spec`. -/
def server.buildErrorController {RF PF H S : Type} [GoRuntime] (w : World RF PF H S)
    (appendGlobals : Bool) (spec : Nat) (slot : Slot) (router : Router H S) :
    Except Exit (World RF PF H S × Router H S) :=
  match w.errorSpecs.get? spec with
  | none => .error Exit.panic
  | some e =>
    let inFilters :=
      if appendGlobals then w.ins.append w.srv.inFilters (w.ins.read e.in_) else (w.ins, e.in_)
    let outFilters :=
      if appendGlobals then w.outs.append e.out (w.outs.read w.srv.outFilters)
      else (w.outs, e.out)
    let built := newController inFilters.2 outFilters.2 e.handler w.srv.serializers
    .ok ({ w with ins := inFilters.1, outs := outFilters.1 },
      match slot with
      | Slot.NotFoundHandler => { router with NotFoundHandler := some built }
      | Slot.MethodNotAllowedHandler => { router with MethodNotAllowedHandler := some built })

/-- The state in which `Start` calls `ListenAndServe`: the memory, and the
`http.Server` it has made. -/
structure Serving (RF PF H S : Type) where
  world : World RF PF H S
  Addr : String
  Handler : Router H S
  ReadTimeout : Int
  WriteTimeout : Int

/-- The step of `Start` that registers one of the two error controllers, when
it is set. -/
def server.startErrorController {RF PF H S : Type} [GoRuntime]
    (state : World RF PF H S × Router H S) (handler : Option Nat)
    (useFilt : serverExtras → Bool) (slot : Slot) :
    Except Exit (World RF PF H S × Router H S) :=
  match handler with
  | none => .ok state
  | some spec =>
    match state.1.srv.extras with
    | none => .error Exit.panic
    | some e => server.buildErrorController state.1 (useFilt e) spec slot state.2

/-- The method `server.Start`, up to the call of `ListenAndServe`, which blocks.
A nil router is replaced by a new one. -/
def server.Start {RF PF H S : Type} [GoRuntime] (w : World RF PF H S)
    (router : Option (Router H S)) : Except Exit (Serving RF PF H S) :=
  match server.build w (router.getD NewRouter) with
  | .error e => .error e
  | .ok built =>
    match server.startErrorController built built.1.srv.handler404
        serverExtras.useFilt404 Slot.NotFoundHandler with
    | .error e => .error e
    | .ok built404 =>
      match server.startErrorController built404 built404.1.srv.handler405
          serverExtras.useFilt405 Slot.MethodNotAllowedHandler with
      | .error e => .error e
      | .ok built405 =>
        match built405.1.srv.extras with
        | none => .error Exit.panic
        | some e =>
          .ok { world := server.clear built405.1
                Addr := e.host ++ ":" ++ toString e.port
                Handler := built405.2
                ReadTimeout := e.readTimeout
                WriteTimeout := e.writeTimeout }

/-- A built controller as it serves: its two filter slices read from memory. -/
def controller.load {RF PF H S : Type} (c : controller Slice Slice H S) (ins : Heap RF)
    (outs : Heap PF) : controller (List RF) (List PF) H S :=
  { inFilters := ins.read c.inFilters, outFilters := outs.read c.outFilters
    handler := c.handler, serializers := c.serializers }

/-! ## Programs that set up a server -/

/-- A call of the configuration interface of the package; specifications are
named by their address. -/
inductive Action (RF PF H S : Type) where
  | NewController (path : String) (handler : H)
  | NewErrorController (handler : H)
  | SpecWithRequestFilters (spec : Nat) (filters : List RF)
  | SpecWithResponseFilters (spec : Nat) (filters : List PF)
  | ForMethods (spec : Nat) (methods : List String)
  | WithRequiredHeader (spec : Nat) (header value : String)
  | ErrorWithRequestFilters (spec : Nat) (filters : List RF)
  | ErrorWithResponseFilters (spec : Nat) (filters : List PF)
  | WithControllers (spec : Nat)
  | WithRequestFilters (filters : List RF)
  | WithResponseFilters (filters : List PF)
  | WithObjectSerializers (serializers : List S)
  | WithReadTimeout (timeout : Int)
  | WithWriteTimeout (timeout : Int)
  | With404Controller (useGlobalFilters : Bool) (spec : Option Nat)
  | With405Controller (useGlobalFilters : Bool) (spec : Option Nat)

/-- The memory after a builder call whose result is not looked at. -/
def memoryAfter {RF PF H S : Type} (result : Except Exit (World RF PF H S × Nat)) :
    Except Exit (World RF PF H S) :=
  match result with
  | .ok (w, _) => .ok w
  | .error e => .error e

/-- The effect of one call on the memory. -/
def Action.run {RF PF H S : Type} [GoRuntime] (w : World RF PF H S) :
    Action RF PF H S → Except Exit (World RF PF H S)
  | Action.NewController path handler => .ok (Swrv.NewController w path handler)
  | Action.NewErrorController handler => .ok (Swrv.NewErrorController w handler)
  | Action.SpecWithRequestFilters spec filters =>
    memoryAfter (controllerSpec.WithRequestFilters w spec filters)
  | Action.SpecWithResponseFilters spec filters =>
    memoryAfter (controllerSpec.WithResponseFilters w spec filters)
  | Action.ForMethods spec methods => memoryAfter (controllerSpec.ForMethods w spec methods)
  | Action.WithRequiredHeader spec header value =>
    memoryAfter (controllerSpec.WithRequiredHeader w spec header value)
  | Action.ErrorWithRequestFilters spec filters =>
    memoryAfter (errorControllerSpec.WithRequestFilters w spec filters)
  | Action.ErrorWithResponseFilters spec filters =>
    memoryAfter (errorControllerSpec.WithResponseFilters w spec filters)
  | Action.WithControllers spec => server.WithControllers w spec
  | Action.WithRequestFilters filters => server.WithRequestFilters w filters
  | Action.WithResponseFilters filters => server.WithResponseFilters w filters
  | Action.WithObjectSerializers serializers => server.WithObjectSerializers w serializers
  | Action.WithReadTimeout timeout => server.WithReadTimeout w timeout
  | Action.WithWriteTimeout timeout => server.WithWriteTimeout w timeout
  | Action.With404Controller useGlobalFilters spec =>
    server.With404Controller w useGlobalFilters spec
  | Action.With405Controller useGlobalFilters spec =>
    server.With405Controller w useGlobalFilters spec

/-- The effect of a sequence of calls, made in order. -/
def setup {RF PF H S : Type} [GoRuntime] (w : World RF PF H S) :
    List (Action RF PF H S) → Except Exit (World RF PF H S)
  | [] => .ok w
  | action :: rest =>
    match action.run w with
    | .error e => .error e
    | .ok w1 => setup w1 rest

/-- A program: `NewServer(host, port)`, a sequence of configuration calls, and
`Start(nil)`. -/
def program {RF PF H S : Type} [GoRuntime] (host : String) (port : Nat)
    (actions : List (Action RF PF H S)) : Except Exit (Serving RF PF H S) :=
  match setup (NewServer host port) actions with
  | .error e => .error e
  | .ok w => server.Start w none

/-- The request-filter chains of the registered routes as they are when the
server serves, in registration order. -/
def Serving.requestChains {RF PF H S : Type} (s : Serving RF PF H S) : List (List RF) :=
  s.Handler.routes.map (fun route => s.world.ins.read route.handler.inFilters)

/-- The response-filter chains of the registered routes as they are when the
server serves, in registration order. -/
def Serving.responseChains {RF PF H S : Type} (s : Serving RF PF H S) : List (List PF) :=
  s.Handler.routes.map (fun route => s.world.outs.read route.handler.outFilters)

/-- Filters, handlers and serializers given by name only, for programs whose
pipelines are inspected but not run. -/
abbrev Named := Action String String String String

/-- A program with three global request filters, registered by three calls, and
two controllers that have one request filter each. -/
def twoControllers : List Named :=
  [ Action.WithRequestFilters ["global1"],
    Action.WithRequestFilters ["global2"],
    Action.WithRequestFilters ["global3"],
    Action.NewController "/a" "handlerA",
    Action.SpecWithRequestFilters 0 ["authA"],
    Action.NewController "/b" "handlerB",
    Action.SpecWithRequestFilters 1 ["authB"],
    Action.WithControllers 0,
    Action.WithControllers 1 ]

/-- The configuration calls on pipelines that can be run. -/
abbrev Runnable (V Rq : Type) :=
  Action (RequestFilter V Rq) (ResponseFilter V Rq) (Option (RequestHandler V Rq))
    (ObjectSerializer V)

/-! ## Notions used to state the properties -/

/-- The slice lies within the slots written of its backing array. -/
def Heap.InBounds {α : Type} (h : Heap α) (s : Slice) : Prop :=
  s.len = 0 ∨ (s.arr < h.length ∧ s.len ≤ (h.getD s.arr []).length)

/-- Nothing is written in the backing array behind the length of the slice;
the nil slice is of this kind. -/
def Heap.Tight {α : Type} (h : Heap α) (s : Slice) : Prop :=
  (s.cap = 0 ∧ s.len = 0) ∨ (s.arr < h.length ∧ (h.getD s.arr []).length = s.len)

/-- Two slices that cannot write into each other: one is empty without
capacity, or their backing arrays differ. -/
def Slice.Apart (s t : Slice) : Prop :=
  (s.cap = 0 ∧ s.len = 0) ∨ (t.cap = 0 ∧ t.len = 0) ∨ s.arr ≠ t.arr

/-- Every backing array of `h` is still there in `g` and has only grown at its
end. -/
def Heap.Extends {α : Type} (h g : Heap α) : Prop :=
  h.length ≤ g.length ∧ ∀ i, i < h.length → h.getD i [] <+: g.getD i []

/-- Every backing array of `h` is in `g` either as it was or with `xs` written
behind it. -/
def Heap.Grown {α : Type} (h : Heap α) (xs : List α) (g : Heap α) : Prop :=
  h.length ≤ g.length ∧
    ∀ i, i < h.length → g.getD i [] = h.getD i [] ∨ g.getD i [] = h.getD i [] ++ xs

/-- The memory `w` has the specifications and the server of `w0`: only backing
arrays differ. -/
def World.SameConfig {RF PF H S : Type} (w w0 : World RF PF H S) : Prop :=
  w.specs = w0.specs ∧ w.errorSpecs = w0.errorSpecs ∧ w.srv = w0.srv

/-- The route was built for the specification held at `spec` in `w0`, and in
the heap `h` its response-filter chain is the specification's own response
filters followed by the global ones, as `w0` has them. -/
def BuiltFor {RF PF H S : Type} (w0 : World RF PF H S) (h : Heap PF) (spec : Nat)
    (route : Route H S) : Prop :=
  ∃ c, w0.specs.get? spec = some c ∧ h.InBounds route.handler.outFilters ∧
    h.read route.handler.outFilters = w0.outs.read c.out ++ w0.outs.read w0.srv.outFilters

/-- The holders of a response-filter slice: the server, a controller
specification, an error-controller specification. -/
inductive Owner where
  | server
  | spec (address : Nat)
  | errorSpec (address : Nat)
deriving DecidableEq, Repr

/-- The response-filter slice of a holder, when the holder exists. -/
def World.outSlice {RF PF H S : Type} (w : World RF PF H S) : Owner → Option Slice
  | Owner.server => some w.srv.outFilters
  | Owner.spec address => (w.specs.get? address).map (fun c => c.out)
  | Owner.errorSpec address => (w.errorSpecs.get? address).map (fun c => c.out)

/-- The response filters a call hands to a holder. -/
def Action.responseFilters {RF PF H S : Type} : Action RF PF H S → Owner → List PF
  | Action.WithResponseFilters filters, Owner.server => filters
  | Action.SpecWithResponseFilters spec filters, Owner.spec address =>
    if spec = address then filters else []
  | Action.ErrorWithResponseFilters spec filters, Owner.errorSpec address =>
    if spec = address then filters else []
  | _, _ => []

/-- The response filters a sequence of calls hands to a holder, in the order
of the calls. -/
def responseFiltersOf {RF PF H S : Type} (actions : List (Action RF PF H S))
    (owner : Owner) : List PF :=
  match actions with
  | [] => []
  | action :: rest => action.responseFilters owner ++ responseFiltersOf rest owner

/-- The state of the response-filter slices while a server is set up: every
holder's slice is tight and holds the filters in `content`, the slices of two
holders are apart, and a holder that does not exist yet has no content. -/
def OutInv {RF PF H S : Type} (w : World RF PF H S) (content : Owner → List PF) : Prop :=
  (∀ o s, w.outSlice o = some s → w.outs.Tight s ∧ w.outs.read s = content o) ∧
    (∀ o1 o2 s1 s2, o1 ≠ o2 → w.outSlice o1 = some s1 → w.outSlice o2 = some s2 →
      Slice.Apart s1 s2) ∧
    ∀ o, w.outSlice o = none → content o = []

/-- Every filter of `fs` returns nil when the filters are run in order from
`request`; the result is the request as the last filter left it. -/
def passesAll {V Rq : Type} (fs : List (RequestFilter V Rq)) (request : Rq) : Option Rq :=
  match fs with
  | [] => some request
  | f :: rest =>
    match f.FilterRequest request with
    | (none, request1) => passesAll rest request1
    | (some _, _) => none

/-- The calls of the response phase: everything but `FilterRequest` and
`HandleRequest`. -/
def Call.responsePhase {V : Type} : Call V → Prop
  | Call.FilterRequest _ => False
  | Call.HandleRequest => False
  | _ => True

/-- A Go `string` body value: `fmt.Sprint` of a string is the string. -/
instance : GoValue String where
  Sprint := fun s => s

/-- The Go value `struct{ X int }`. -/
structure StructX where
  X : Int
deriving DecidableEq, Repr

/-- Go `fmt.Sprint` of a `struct{ X int }` is the field value in braces. -/
instance : GoValue StructX where
  Sprint := fun v => "\x7b" ++ toString v.X ++ "\x7d"

/-- Go `json.Marshal` of a `struct{ X int }` is an object with the one key `X`. -/
instance : GoJSON StructX where
  Marshal := fun v => .ok ("\x7b\"X\":" ++ toString v.X ++ "\x7d")

/-- A call that sets headers on a response: `Response.WithHeader` and
`ResponseHeaders.Set` replace, `ResponseHeaders.Append` appends. -/
inductive HeaderOp where
  | Set (header value : String) (values : List String)
  | Append (header value : String) (values : List String)
deriving DecidableEq, Repr

/-- The header name a call is made with. -/
def HeaderOp.header : HeaderOp → String
  | HeaderOp.Set header _ _ => header
  | HeaderOp.Append header _ _ => header

/-- The effect of one header call on the headers of a response. -/
def HeaderOp.apply (r : responseHeaders) : HeaderOp → responseHeaders
  | HeaderOp.Set header value values => r.Set header value values
  | HeaderOp.Append header value values => r.Append header value values

/-- The headers of a response made by `NewResponse` after the given header
calls, in order. -/
def headersAfter (ops : List HeaderOp) : responseHeaders :=
  ops.foldl HeaderOp.apply { head := [] }

/-- Two header names that differ at most in the case of their letters. -/
def sameLetters (a b : String) : Prop :=
  a.data.map Char.toLower = b.data.map Char.toLower

/-- The keys of a header map are pairwise different, every key is in canonical
form and has at least one value. Header maps written only through `Set` and
`Add` are of this kind. -/
def Header.Canonical (h : Header) : Prop :=
  (h.map Prod.fst).Nodup ∧ ∀ kv ∈ h, CanonicalMIMEHeaderKey kv.1 = kv.1 ∧ kv.2 ≠ []

/-- The calls of the body-writing phase: calls on serializers and `Close`. -/
def Call.serialPhase {V : Type} : Call V → Prop
  | Call.Matches _ => True
  | Call.ContentType _ => True
  | Call.Serialize _ => True
  | Call.Close => True
  | _ => False

/-- The position of the response filter a call is made on, for a
`FilterResponse` call. -/
def Call.filterResponseIndex {V : Type} : Call V → Option Nat
  | Call.FilterResponse i _ => some i
  | _ => none

/-- The controller `c` with its response filters taken away. -/
def withoutOutFilters {V Rq : Type} (c : Pipeline V Rq) : Pipeline V Rq :=
  newController c.inFilters [] c.handler c.serializers

/-! ## Example pipelines

The request of the examples is a counter that the filters and handlers bump, so
that the order of the calls shows in it. -/

/-- A request filter that lets the request pass. -/
def passFilter : RequestFilter String Nat :=
  { FilterRequest := fun request => (none, request + 1) }

/-- A request filter that halts the request with the given status code. -/
def haltFilter (code : Int) : RequestFilter String Nat :=
  { FilterRequest := fun request => (some (NewResponse.WithCode code), request + 1) }

/-- A handler that answers 200 with the string body `pong`. -/
def pongHandler : RequestHandler String Nat :=
  { HandleRequest := fun request =>
      (some (NewResponse.WithBody (Body.value "pong")), request + 1) }

/-- A handler that returns nil. -/
def nilHandler : RequestHandler String Nat :=
  { HandleRequest := fun request => (none, request + 1) }

/-- A transport on which nothing has been written. -/
def freshWriter : ResponseWriter :=
  { header := [], status := [], body := "", wroteHeader := false, readerFrom := true }

/-- A transport on which nothing has been written and that is not an
`io.ReaderFrom`, as `httptest.ResponseRecorder` or a writer wrapped by
middleware. -/
def recorderWriter : ResponseWriter :=
  { header := [], status := [], body := "", wroteHeader := false, readerFrom := false }

/-- Scenario C of the spec, with a filter in front and one behind the filter
that rejects the request. -/
def rejectingPipeline : Pipeline String Nat :=
  newController [passFilter, haltFilter 401, haltFilter 403] [] (some pongHandler) []

/-- Scenario A of the spec, with one request filter that lets the request pass. -/
def pingPipeline : Pipeline String Nat :=
  newController [passFilter] [] (some pongHandler) []

/-- A response filter that returns nil. -/
def nilResponseFilter : ResponseFilter String Nat :=
  { FilterResponse := fun request _ => (none, request + 1) }

/-- A response filter that sets a header on the response and returns it. -/
def stampFilter : ResponseFilter String Nat :=
  { FilterResponse := fun request response =>
      (some (response.WithHeader "x-stamp" "1" []), request + 1) }

/-- A pipeline whose second response filter returns nil. -/
def filteringPipeline : Pipeline String Nat :=
  newController [] [stampFilter, nilResponseFilter, stampFilter] (some pongHandler) []

/-- A serializer that matches every body and turns it into the text `never`. -/
def matchAllSerializer : ObjectSerializer String :=
  { Matches := fun _ => true
    Serialize := fun _ => (some (Stream.reader "never"), none)
    ContentType := "application/x-never" }

/-- A serializer that matches no body. -/
def matchNoneSerializer : ObjectSerializer String :=
  { Matches := fun _ => false
    Serialize := fun _ => (some (Stream.reader "none"), none)
    ContentType := "application/x-none" }

/-- A handler that answers 200 with a closeable stream of the bytes `raw`. -/
def streamHandler : RequestHandler String Nat :=
  { HandleRequest := fun request =>
      (some (NewResponse.WithBody (Body.stream (Stream.readCloser "raw"))), request + 1) }

/-- A pipeline with a stream body and a serializer that matches everything. -/
def streamPipeline : Pipeline String Nat :=
  newController [] [] (some streamHandler) [matchAllSerializer]

/-- A pipeline whose second serializer is the first that matches. -/
def serializerPipeline : Pipeline String Nat :=
  newController [] [] (some pongHandler)
    [matchNoneSerializer, matchAllSerializer, matchNoneSerializer]

/-- Scenario B of the spec: the JSON serializer that matches everything is the
only registered serializer. -/
def jsonPipeline : Pipeline StructX Nat :=
  newController [] [] none [NewDefaultJSONObjectSerializer]

/-- A transport that already carries a content-type value. -/
def typedWriter : ResponseWriter :=
  { header := [("Content-Type", ["text/css"])], status := [], body := "", wroteHeader := false
    readerFrom := true }

/-- A response with the string body `pong` whose content type was set under a
lower-case spelling of the header name. -/
def htmlResponse : Response String :=
  (NewResponse.WithBody (Body.value "pong")).WithHeader "content-type" "text/html" []

/-- A program with one global response filter and one controller that has a
response filter of its own. -/
def stampingActions : List (Runnable String Nat) :=
  [ Action.WithResponseFilters [stampFilter],
    Action.NewController "/ping" (some pongHandler),
    Action.SpecWithResponseFilters 0 [nilResponseFilter],
    Action.WithControllers 0 ]

/-- The memory after the calls of `stampingActions`. -/
def stampingWorld :
    World (RequestFilter String Nat) (ResponseFilter String Nat)
      (Option (RequestHandler String Nat)) (ObjectSerializer String) :=
  match setup (NewServer "localhost" 8080) stampingActions with
  | .ok w => w
  | .error _ => NewServer "localhost" 8080

/-- The server of `stampingActions` as it serves. -/
def stampingServing :
    Serving (RequestFilter String Nat) (ResponseFilter String Nat)
      (Option (RequestHandler String Nat)) (ObjectSerializer String) :=
  match server.Start stampingWorld none with
  | .ok s => s
  | .error _ =>
    { world := stampingWorld, Addr := "", Handler := NewRouter, ReadTimeout := 0
      WriteTimeout := 0 }

/-- A pipeline without filters whose handler returns nil (scenario D of the spec). -/
def nilPipeline : Pipeline String Nat :=
  newController [] [] (some nilHandler) []

/-- The Go value `math.Inf(1)`: `fmt.Sprint` prints it as `+Inf`, and
`encoding/json` refuses it with an unsupported-value error. -/
inductive PosInf where
  | value
deriving DecidableEq, Repr

/-- Go `fmt.Sprint(math.Inf(1))`. -/
instance : GoValue PosInf where
  Sprint := fun _ => "+Inf"

/-- Go `json.Marshal(math.Inf(1))`. -/
instance : GoJSON PosInf where
  Marshal := fun _ => .error "json: unsupported value: +Inf"

/-- A pipeline whose only serializer is the JSON serializer, for a body that
JSON cannot encode. -/
def infPipeline : Pipeline PosInf Nat :=
  newController [] [] none [NewDefaultJSONObjectSerializer]

/-- A transport that already carries a value of the header the example below
sets, and a content type. -/
def stampedWriter : ResponseWriter :=
  { header := [("X-Stamp", ["0"]), ("Content-Type", ["text/css"])], status := [], body := ""
    wroteHeader := false, readerFrom := true }

/-- A response without body on which one header was set with two values. -/
def stampedResponse : Response String :=
  NewResponse.WithHeader "x-stamp" "1" ["2"]

/-! ## response-headers.go: `GetNth` -/

/-- The method `responseHeaders.GetNth`; `n` is a Go `int`. The guard is
`len(found) > n`, and the index expression `found[n]` panics when `n` is
negative or not below the length. -/
def responseHeaders.GetNth (r : responseHeaders) (header : String) (n : Int) :
    Except Exit (String × Bool) :=
  match r.head.get header with
  | some found =>
    if (found.length : Int) > n then
      match n with
      | Int.ofNat i =>
        match found.get? i with
        | some value => .ok (value, true)
        | none => .error Exit.panic
      | Int.negSucc _ => .error Exit.panic
    else .ok ("", false)
  | none => .ok ("", false)

/-- The header container of a new response after `Set("content-type",
"text/html", "charset")`. -/
def lowerCaseHeaders : responseHeaders :=
  ({ head := [] } : responseHeaders).Set "content-type" "text/html" ["charset"]

/-- The header container of a new response after `Set("X-Count", "one")`. -/
def countHeaders : responseHeaders :=
  ({ head := [] } : responseHeaders).Set "X-Count" "one" []

/-! ## Notions used to state the properties of `Start` -/

/-- The route was built for the specification held at `spec` in `w`: the
specification has a path, which is not empty, and the route has that path, the
methods, required headers and handler of the specification, and the
serializers of the server. -/
def RouteOf {RF PF H S : Type} (w : World RF PF H S) (spec : Nat) (route : Route H S) : Prop :=
  ∃ c, w.specs.get? spec = some c ∧ c.path ≠ "" ∧ route.path = c.path ∧
    route.methods = c.methods ∧ route.headers = headerPairs c.headers ∧
    route.handler.handler = c.handler ∧ route.handler.serializers = w.srv.serializers

/-- The request-filter chain of the 404 handler as it is when the server
serves, when one is registered. -/
def Serving.notFoundRequestChain {RF PF H S : Type} (s : Serving RF PF H S) :
    Option (List RF) :=
  s.Handler.NotFoundHandler.map (fun c => s.world.ins.read c.inFilters)

/-- The request-filter chain of the 405 handler as it is when the server
serves, when one is registered. -/
def Serving.methodNotAllowedRequestChain {RF PF H S : Type} (s : Serving RF PF H S) :
    Option (List RF) :=
  s.Handler.MethodNotAllowedHandler.map (fun c => s.world.ins.read c.inFilters)

/-- The memory `w` with the flag `started` of the server set. -/
def World.markStarted {RF PF H S : Type} (w : World RF PF H S) : World RF PF H S :=
  { w with srv := { w.srv with started := true } }

/-- A program that registers `NewController("/nil", nil)`. -/
def nilHandlerActions : List (Runnable String Nat) :=
  [ Action.NewController "/nil" none,
    Action.SpecWithRequestFilters 0 [passFilter],
    Action.WithControllers 0 ]

/-- The memory after the calls of `nilHandlerActions`. -/
def nilHandlerWorld :
    World (RequestFilter String Nat) (ResponseFilter String Nat)
      (Option (RequestHandler String Nat)) (ObjectSerializer String) :=
  match setup (NewServer "localhost" 8080) nilHandlerActions with
  | .ok w => w
  | .error _ => NewServer "localhost" 8080

/-- The server of `nilHandlerActions` as it serves. -/
def nilHandlerServing :
    Serving (RequestFilter String Nat) (ResponseFilter String Nat)
      (Option (RequestHandler String Nat)) (ObjectSerializer String) :=
  match server.Start nilHandlerWorld none with
  | .ok s => s
  | .error _ =>
    { world := nilHandlerWorld, Addr := "", Handler := NewRouter, ReadTimeout := 0
      WriteTimeout := 0 }

/-- A program that registers a controller with a path and then one with the
empty path. -/
def emptyPathActions : List Named :=
  [ Action.NewController "/a" "handlerA",
    Action.NewController "" "handlerB",
    Action.WithControllers 0,
    Action.WithControllers 1 ]

/-- The memory after the calls of `emptyPathActions`. -/
def emptyPathWorld : World String String String String :=
  match setup (NewServer "localhost" 8080) emptyPathActions with
  | .ok w => w
  | .error _ => NewServer "localhost" 8080

/-- A program with three global request filters, registered by three calls, one
controller, and a 404 and a 405 error controller that have one request filter
each and use the global filters. -/
def twoErrorControllers : List Named :=
  [ Action.WithRequestFilters ["global1"],
    Action.WithRequestFilters ["global2"],
    Action.WithRequestFilters ["global3"],
    Action.NewController "/a" "handlerA",
    Action.WithControllers 0,
    Action.NewErrorController "notFound",
    Action.ErrorWithRequestFilters 0 ["log404"],
    Action.NewErrorController "notAllowed",
    Action.ErrorWithRequestFilters 1 ["log405"],
    Action.With404Controller true (some 0),
    Action.With405Controller true (some 1) ]

/-! ## The builders of the specifications -/

/-- The method `controllerSpec.GetMethods`. -/
def controllerSpec.GetMethods {H : Type} (c : controllerSpec H) : List String := c.methods

/-- The method `controllerSpec.GetRequestFilters`. -/
def controllerSpec.GetRequestFilters {H : Type} (c : controllerSpec H) : Slice := c.in_

/-- The method `controllerSpec.GetResponseFilters`. -/
def controllerSpec.GetResponseFilters {H : Type} (c : controllerSpec H) : Slice := c.out

/-- The method `controllerSpec.GetRequiredHeaders`. -/
def controllerSpec.GetRequiredHeaders {H : Type} (c : controllerSpec H) :
    List (String × String) :=
  c.headers

/-- The method `errorControllerSpec.GetRequestFilters`. -/
def errorControllerSpec.GetRequestFilters {H : Type} (c : errorControllerSpec H) : Slice :=
  c.in_

/-- The method `errorControllerSpec.GetResponseFilters`. -/
def errorControllerSpec.GetResponseFilters {H : Type} (c : errorControllerSpec H) : Slice :=
  c.out

/-- Go map read `value, ok := m[key]` on a `map[string]string`. -/
def getString (m : List (String × String)) (key : String) : Option String :=
  match m with
  | [] => none
  | (k, v) :: rest => if k = key then some v else getString rest key

/-- The request-filter slice of a holder, when the holder exists. -/
def World.inSlice {RF PF H S : Type} (w : World RF PF H S) : Owner → Option Slice
  | Owner.server => some w.srv.inFilters
  | Owner.spec address => (w.specs.get? address).map (fun c => c.in_)
  | Owner.errorSpec address => (w.errorSpecs.get? address).map (fun c => c.in_)

/-- The request filters a call hands to a holder. -/
def Action.requestFilters {RF PF H S : Type} : Action RF PF H S → Owner → List RF
  | Action.WithRequestFilters filters, Owner.server => filters
  | Action.SpecWithRequestFilters spec filters, Owner.spec address =>
    if spec = address then filters else []
  | Action.ErrorWithRequestFilters spec filters, Owner.errorSpec address =>
    if spec = address then filters else []
  | _, _ => []

/-- The request filters a sequence of calls hands to a holder, in the order of
the calls. -/
def requestFiltersOf {RF PF H S : Type} (actions : List (Action RF PF H S))
    (owner : Owner) : List RF :=
  match actions with
  | [] => []
  | action :: rest => action.requestFilters owner ++ requestFiltersOf rest owner

/-- The methods a call hands to the specification at `address`. -/
def Action.methods {RF PF H S : Type} : Action RF PF H S → Nat → List String
  | Action.ForMethods spec methods, address => if spec = address then methods else []
  | _, _ => []

/-- The methods a sequence of calls hands to the specification at `address`, in
the order of the calls. -/
def methodsOf {RF PF H S : Type} (actions : List (Action RF PF H S)) (address : Nat) :
    List String :=
  match actions with
  | [] => []
  | action :: rest => action.methods address ++ methodsOf rest address

/-- The value a call requires of the header `name` on the specification at
`address`, when it is a `WithRequiredHeader` for that specification and header. -/
def Action.requiredHeader {RF PF H S : Type} :
    Action RF PF H S → Nat → String → Option String
  | Action.WithRequiredHeader spec header value, address, name =>
    if spec = address ∧ header = name then some value else none
  | _, _, _ => none

/-- The value that the last `WithRequiredHeader` call of a sequence for the
specification at `address` and the header `name` requires, when there is one. -/
def requiredHeaderOf {RF PF H S : Type} (actions : List (Action RF PF H S)) (address : Nat)
    (name : String) : Option String :=
  match actions with
  | [] => none
  | action :: rest =>
    (requiredHeaderOf rest address name).or (action.requiredHeader address name)

/-- The path and handler of the specification a call makes, when it is a
`NewController`. -/
def Action.made {RF PF H S : Type} : Action RF PF H S → Option (String × H)
  | Action.NewController path handler => some (path, handler)
  | _ => none

/-- The handler of the error specification a call makes, when it is a
`NewErrorController`. -/
def Action.madeError {RF PF H S : Type} : Action RF PF H S → Option H
  | Action.NewErrorController handler => some handler
  | _ => none

/-- The state of the specifications while a server is set up: the
specifications in memory are those in `made`, the error specifications those in
`madeError`, each specification has the methods `methods` gives its address and
the required headers `required` gives it, and a specification that does not
exist yet has neither. -/
def SpecInv {RF PF H S : Type} (w : World RF PF H S) (made : List (String × H))
    (madeError : List H) (methods : Nat → List String)
    (required : Nat → String → Option String) : Prop :=
  w.specs.map (fun c => (c.path, c.handler)) = made ∧
    w.errorSpecs.map (fun e => e.handler) = madeError ∧
    (∀ p c, w.specs.get? p = some c →
      c.methods = methods p ∧ ∀ name, getString c.headers name = required p name) ∧
    ∀ p, w.specs.get? p = none → methods p = [] ∧ ∀ name, required p name = none

/-- The specification with its two filter slices exchanged. -/
def controllerSpec.mirror {H : Type} (c : controllerSpec H) : controllerSpec H :=
  { c with in_ := c.out, out := c.in_ }

/-- The error specification with its two filter slices exchanged. -/
def errorControllerSpec.mirror {H : Type} (c : errorControllerSpec H) :
    errorControllerSpec H :=
  { c with in_ := c.out, out := c.in_ }

/-- The memory with the request side and the response side exchanged. -/
def World.mirror {RF PF H S : Type} (w : World RF PF H S) : World PF RF H S :=
  { ins := w.outs, outs := w.ins
    specs := w.specs.map controllerSpec.mirror
    errorSpecs := w.errorSpecs.map errorControllerSpec.mirror
    srv := { w.srv with inFilters := w.srv.outFilters, outFilters := w.srv.inFilters } }

/-- The call with the request side and the response side exchanged. -/
def Action.mirror {RF PF H S : Type} : Action RF PF H S → Action PF RF H S
  | Action.NewController path handler => Action.NewController path handler
  | Action.NewErrorController handler => Action.NewErrorController handler
  | Action.SpecWithRequestFilters spec filters => Action.SpecWithResponseFilters spec filters
  | Action.SpecWithResponseFilters spec filters => Action.SpecWithRequestFilters spec filters
  | Action.ForMethods spec methods => Action.ForMethods spec methods
  | Action.WithRequiredHeader spec header value => Action.WithRequiredHeader spec header value
  | Action.ErrorWithRequestFilters spec filters => Action.ErrorWithResponseFilters spec filters
  | Action.ErrorWithResponseFilters spec filters => Action.ErrorWithRequestFilters spec filters
  | Action.WithControllers spec => Action.WithControllers spec
  | Action.WithRequestFilters filters => Action.WithResponseFilters filters
  | Action.WithResponseFilters filters => Action.WithRequestFilters filters
  | Action.WithObjectSerializers serializers => Action.WithObjectSerializers serializers
  | Action.WithReadTimeout timeout => Action.WithReadTimeout timeout
  | Action.WithWriteTimeout timeout => Action.WithWriteTimeout timeout
  | Action.With404Controller useGlobalFilters spec =>
    Action.With404Controller useGlobalFilters spec
  | Action.With405Controller useGlobalFilters spec =>
    Action.With405Controller useGlobalFilters spec

/-- A program that requires two values of the header `X-Auth` in turn. -/
def twoRequirements : List Named :=
  [ Action.NewController "/a" "handlerA",
    Action.ForMethods 0 ["GET"],
    Action.WithRequiredHeader 0 "X-Auth" "alpha",
    Action.SpecWithRequestFilters 0 ["authA"],
    Action.ForMethods 0 ["POST", "PUT"],
    Action.WithRequiredHeader 0 "X-Auth" "beta",
    Action.SpecWithRequestFilters 0 ["traceA"],
    Action.SpecWithResponseFilters 0 ["stampA"] ]

/-- The memory after the calls of `twoRequirements`. -/
def twoRequirementsWorld : World String String String String :=
  match setup (NewServer "localhost" 8080) twoRequirements with
  | .ok w => w
  | .error _ => NewServer "localhost" 8080

/-- A later call of `NewServer` by the same program: the memory keeps its
backing arrays and specifications, and the server it holds from now on is the
new one. -/
def World.NewServer {RF PF H S : Type} (w : World RF PF H S) (host : String) (port : Nat) :
    World RF PF H S :=
  { w with srv := (Swrv.NewServer host port : World RF PF H S).srv }

/-- The response-filter chains of the routes of a serving server as they are in
the heap `outs` of a later memory, in registration order. -/
def Serving.responseChainsIn {RF PF H S : Type} (s : Serving RF PF H S) (outs : Heap PF) :
    List (List PF) :=
  s.Handler.routes.map (fun route => outs.read route.handler.outFilters)

/-- The calls that set up a first server: a controller with three response
filters of its own, given by three calls, and one global response filter. -/
def sharedFirst : List Named :=
  [ Action.NewController "/a" "handlerA",
    Action.SpecWithResponseFilters 0 ["f1"],
    Action.SpecWithResponseFilters 0 ["f2"],
    Action.SpecWithResponseFilters 0 ["f3"],
    Action.WithResponseFilters ["g1"],
    Action.WithControllers 0 ]

/-- The calls that set up a second server with the controller specification of
the first and a global response filter of its own. -/
def sharedSecond : List Named :=
  [ Action.WithResponseFilters ["g2"],
    Action.WithControllers 0 ]

/-- The first server of the example as it serves. -/
def sharedFirstServing : Except Exit (Serving String String String String) :=
  program "localhost" 8080 sharedFirst

/-- The second server of the example as it serves, made, set up and started in
the memory the first one serves in. -/
def sharedSecondServing : Except Exit (Serving String String String String) :=
  match sharedFirstServing with
  | .error e => .error e
  | .ok first =>
    match setup (first.world.NewServer "localhost" 8081) sharedSecond with
    | .error e => .error e
    | .ok w => server.Start w none

/-! # Theorems -/

/-! ## The request phase -/

theorem filterRequests_halt {V Rq : Type} (pre : List (RequestFilter V Rq))
    (f : RequestFilter V Rq) (post : List (RequestFilter V Rq)) (i : Nat)
    (request request1 request2 : Rq) (R : Response V)
    (hpre : passesAll pre request = some request1)
    (hf : f.FilterRequest request1 = (some R, request2)) :
    filterRequests (pre ++ f :: post) i request =
      (some R, request2, (List.range' i (pre.length + 1)).map Call.FilterRequest) := by
  induction pre generalizing i request with
  | nil =>
    simp only [passesAll, Option.some.injEq] at hpre
    subst hpre
    simp [filterRequests, hf]
  | cons g rest ih =>
    simp only [passesAll] at hpre
    rcases hg : g.FilterRequest request with ⟨r, q⟩
    rw [hg] at hpre
    cases r with
    | some r => simp at hpre
    | none =>
      simp only at hpre
      have h := ih (i + 1) q hpre
      rw [List.cons_append]
      simp only [filterRequests, hg, List.length_cons]
      rw [h]
      simp [List.range'_succ]

theorem filterRequests_pass {V Rq : Type} (fs : List (RequestFilter V Rq)) (i : Nat)
    (request request1 : Rq) (hfs : passesAll fs request = some request1) :
    filterRequests fs i request =
      (none, request1, (List.range' i fs.length).map Call.FilterRequest) := by
  induction fs generalizing i request with
  | nil =>
    simp only [passesAll, Option.some.injEq] at hfs
    subst hfs
    simp [filterRequests]
  | cons g rest ih =>
    simp only [passesAll] at hfs
    rcases hg : g.FilterRequest request with ⟨r, q⟩
    rw [hg] at hfs
    cases r with
    | some r => simp at hfs
    | none =>
      simp only at hfs
      have h := ih (i + 1) q hfs
      simp only [filterRequests, hg, List.length_cons]
      rw [h]
      simp [List.range'_succ]

theorem filterResponses_calls {V Rq : Type} (outs : List (ResponseFilter V Rq)) (i : Nat)
    (request : Rq) (response : Response V) :
    ∀ x ∈ (filterResponses outs i request response).2.2, Call.responsePhase x := by
  induction outs generalizing i request response with
  | nil => simp [filterResponses]
  | cons out rest ih =>
    intro x hx
    simp only [filterResponses, List.mem_cons] at hx
    rcases hx with hx | hx
    · subst hx; trivial
    · exact ih _ _ _ x hx

theorem copySerialized_calls {V Rq : Type} (writer : ResponseWriter)
    (serialized : Option Stream) (request : Rq) (calls : List (Call V)) :
    (copySerialized writer serialized request calls).calls = calls ∨
      (copySerialized writer serialized request calls).calls = calls ++ [Call.Close] := by
  unfold copySerialized
  split <;> simp

theorem copySerialized_after {V Rq : Type} (writer : ResponseWriter)
    (serialized : Option Stream) (request : Rq) (earlier calls : List (Call V)) :
    copySerialized writer serialized request (earlier ++ calls) =
      (copySerialized writer serialized request calls).after earlier := by
  unfold copySerialized Outcome.after
  split <;> simp

theorem afterWriteHeader_after {V Rq : Type} (writer : ResponseWriter) (code : Int)
    (request : Rq) (earlier calls : List (Call V)) (next next1 : ResponseWriter → Outcome V Rq)
    (h : ∀ w, next1 w = (next w).after earlier) :
    afterWriteHeader writer code request (earlier ++ calls) next1 =
      (afterWriteHeader writer code request calls next).after earlier := by
  unfold afterWriteHeader
  cases writer.WriteHeader code with
  | none => rfl
  | some w => exact h w

theorem afterWriteHeader_after_nil {V Rq : Type} (writer : ResponseWriter) (code : Int)
    (request : Rq) (calls : List (Call V)) (next next1 : ResponseWriter → Outcome V Rq)
    (h : ∀ w, next1 w = (next w).after calls) :
    afterWriteHeader writer code request calls next1 =
      (afterWriteHeader writer code request [] next).after calls := by
  unfold afterWriteHeader
  cases writer.WriteHeader code with
  | none => simp [Outcome.after]
  | some w => exact h w

theorem afterWriteHeader_forall {V Rq : Type} (P : Call V → Prop) (writer : ResponseWriter)
    (code : Int) (request : Rq) (calls : List (Call V)) (next : ResponseWriter → Outcome V Rq)
    (hcalls : ∀ x ∈ calls, P x) (hnext : ∀ w, ∀ x ∈ (next w).calls, P x) :
    ∀ x ∈ (afterWriteHeader writer code request calls next).calls, P x := by
  unfold afterWriteHeader
  cases writer.WriteHeader code with
  | none => exact hcalls
  | some w => exact hnext w

theorem afterWriteHeader_header {V Rq : Type} (writer : ResponseWriter) (code : Int)
    (request : Rq) (calls : List (Call V)) (next : ResponseWriter → Outcome V Rq) (h : Header)
    (hw : writer.header = h) (hnext : ∀ w, w.header = h → (next w).writer.header = h) :
    (afterWriteHeader writer code request calls next).writer.header = h := by
  unfold afterWriteHeader
  cases hc : writer.WriteHeader code with
  | none => exact hw
  | some w =>
    apply hnext
    unfold ResponseWriter.WriteHeader at hc
    split at hc
    · cases hc
      exact hw
    · split at hc
      · cases hc
      · cases hc
        exact hw

theorem WriteHeader_of_valid (writer : ResponseWriter) (code : Int)
    (hvalid : writer.wroteHeader = true ∨ (100 ≤ code ∧ code ≤ 999)) :
    ∃ flag, writer.WriteHeader code =
      some { writer with status := writer.status ++ [code], wroteHeader := flag } := by
  unfold ResponseWriter.WriteHeader
  by_cases hw : writer.wroteHeader = true
  · rw [if_pos hw]
    exact ⟨writer.wroteHeader, rfl⟩
  · rcases hvalid with h | h
    · exact absurd h hw
    · rw [if_neg hw, if_neg (by omega)]
      exact ⟨_, rfl⟩

theorem WriteHeader_of_invalid (writer : ResponseWriter) (code : Int)
    (hfresh : writer.wroteHeader = false) (hcode : code < 100 ∨ 999 < code) :
    writer.WriteHeader code = none := by
  unfold ResponseWriter.WriteHeader
  rw [hfresh]
  simp [hcode]

theorem WriteHeader_some (writer w1 : ResponseWriter) (code : Int)
    (h : writer.WriteHeader code = some w1) :
    w1.header = writer.header ∧ w1.status = writer.status ++ [code] ∧ w1.body = writer.body ∧
      w1.readerFrom = writer.readerFrom := by
  unfold ResponseWriter.WriteHeader at h
  split at h
  · cases h
    exact ⟨rfl, rfl, rfl, rfl⟩
  · split at h
    · cases h
    · cases h
      exact ⟨rfl, rfl, rfl, rfl⟩

theorem afterWriteHeader_of_valid {V Rq : Type} (writer : ResponseWriter) (code : Int)
    (request : Rq) (calls : List (Call V)) (next : ResponseWriter → Outcome V Rq)
    (hvalid : writer.wroteHeader = true ∨ (100 ≤ code ∧ code ≤ 999)) :
    ∃ w1, afterWriteHeader writer code request calls next = next w1 ∧
      w1.header = writer.header ∧ w1.status = writer.status ++ [code] ∧
      w1.body = writer.body ∧ w1.readerFrom = writer.readerFrom := by
  obtain ⟨flag, hw⟩ := WriteHeader_of_valid writer code hvalid
  refine ⟨_, ?_, WriteHeader_some writer _ code hw⟩
  unfold afterWriteHeader
  rw [hw]

theorem afterWriteHeader_of_invalid {V Rq : Type} (writer : ResponseWriter) (code : Int)
    (request : Rq) (calls : List (Call V)) (next : ResponseWriter → Outcome V Rq)
    (hfresh : writer.wroteHeader = false) (hcode : code < 100 ∨ 999 < code) :
    afterWriteHeader writer code request calls next =
      { writer := writer, request := request, calls := calls, panicked := true } := by
  unfold afterWriteHeader
  rw [WriteHeader_of_invalid writer code hfresh hcode]

theorem ReadFrom_body (w : ResponseWriter) (reader : Stream) :
    (w.ReadFrom reader).body =
      w.body ++ (if w.readerFrom then reader.data else flushedBlocks reader.data) := rfl

theorem ReadFrom_header (w : ResponseWriter) (reader : Stream) :
    (w.ReadFrom reader).header = w.header := rfl

theorem ReadFrom_status (w : ResponseWriter) (reader : Stream) :
    (w.ReadFrom reader).status = w.status := rfl

theorem flushedBlocks_small (data : String) (hsmall : data.length < defaultBufSize) :
    flushedBlocks data = "" := by
  unfold flushedBlocks
  rw [Nat.div_eq_of_lt hsmall]
  rfl

theorem onSerializeError_after {V Rq : Type} (writer : ResponseWriter)
    (serialized : Option Stream) (err : Option String) (request : Rq)
    (earlier calls : List (Call V)) (next next1 : ResponseWriter → Option Stream → Outcome V Rq)
    (h : ∀ w s, next1 w s = (next w s).after earlier) :
    onSerializeError writer serialized err request (earlier ++ calls) next1 =
      (onSerializeError writer serialized err request calls next).after earlier := by
  unfold onSerializeError
  cases err with
  | none => exact h _ _
  | some e => exact afterWriteHeader_after _ _ _ _ _ _ _ (fun w => h _ _)

theorem onSerializeError_forall {V Rq : Type} (P : Call V → Prop) (writer : ResponseWriter)
    (serialized : Option Stream) (err : Option String) (request : Rq) (calls : List (Call V))
    (next : ResponseWriter → Option Stream → Outcome V Rq)
    (hcalls : ∀ x ∈ calls, P x) (hnext : ∀ w s, ∀ x ∈ (next w s).calls, P x) :
    ∀ x ∈ (onSerializeError writer serialized err request calls next).calls, P x := by
  unfold onSerializeError
  cases err with
  | none => exact hnext _ _
  | some e => exact afterWriteHeader_forall P _ _ _ _ _ hcalls (fun w => hnext _ _)

theorem serializeWith_after {V Rq : Type} (serializer : ObjectSerializer V)
    (which : Option Nat) (set : Bool) (writer : ResponseWriter) (request : Rq) (code : Int)
    (body : V) (earlier calls : List (Call V)) :
    serializeWith serializer which set writer request code body (earlier ++ calls) =
      (serializeWith serializer which set writer request code body calls).after earlier := by
  unfold serializeWith
  simp only [List.append_assoc]
  refine afterWriteHeader_after _ _ _ _ _ _ _ (fun w => ?_)
  refine onSerializeError_after _ _ _ _ _ _ _ _ (fun w1 s => ?_)
  exact copySerialized_after _ _ _ _ _

theorem serializeBody_after {V Rq : Type} [GoValue V] (serials : List (ObjectSerializer V))
    (set : Bool) (writer : ResponseWriter) (request : Rq) (code : Int) (body : V)
    (calls : List (Call V)) :
    serializeBody serials set writer request code body calls =
      (serializeBody serials set writer request code body []).after calls := by
  unfold serializeBody
  simp only [List.nil_append]
  rw [serializeWith_after]

theorem typeCalls_serialPhase {V : Type} (set : Bool) (which : Option Nat) :
    ∀ x ∈ (typeCalls set which : List (Call V)), Call.serialPhase x := by
  intro x hx
  unfold typeCalls at hx
  split at hx
  · simp at hx
  · simp only [List.mem_singleton] at hx
    subst hx; trivial

theorem lookupSerializer_serialPhase {V : Type} (serials : List (ObjectSerializer V))
    (i : Nat) (body : V) : ∀ x ∈ (lookupSerializer serials i body).2, Call.serialPhase x := by
  induction serials generalizing i with
  | nil => simp [lookupSerializer]
  | cons s rest ih =>
    intro x hx
    simp only [lookupSerializer] at hx
    split at hx
    · simp only [List.mem_singleton] at hx
      subst hx; trivial
    · simp only [List.mem_cons] at hx
      rcases hx with hx | hx
      · subst hx; trivial
      · exact ih _ x hx

theorem serializeWith_serialPhase {V Rq : Type} (serializer : ObjectSerializer V)
    (which : Option Nat) (set : Bool) (writer : ResponseWriter) (request : Rq) (code : Int)
    (body : V) (calls : List (Call V)) (hcalls : ∀ x ∈ calls, Call.serialPhase x) :
    ∀ x ∈ (serializeWith serializer which set writer request code body calls).calls,
      Call.serialPhase x := by
  have key : ∀ x ∈ (calls ++ (typeCalls set which ++ [Call.Serialize which]) : List (Call V)),
      Call.serialPhase x := by
    intro x hx
    simp only [List.mem_append, List.mem_singleton] at hx
    rcases hx with hx | hx | hx
    · exact hcalls x hx
    · exact typeCalls_serialPhase _ _ x hx
    · subst hx; trivial
  have key0 : ∀ x ∈ (calls ++ typeCalls set which : List (Call V)), Call.serialPhase x := by
    intro x hx
    apply key
    simp only [List.mem_append] at hx ⊢
    rcases hx with hx | hx
    · exact Or.inl hx
    · exact Or.inr (Or.inl hx)
  unfold serializeWith
  refine afterWriteHeader_forall _ _ _ _ _ _ key0 (fun w => ?_)
  refine onSerializeError_forall _ _ _ _ _ _ _ key (fun w1 s => ?_)
  intro x hx
  rcases @copySerialized_calls V Rq w1 s request
    (calls ++ (typeCalls set which ++ [Call.Serialize which])) with h | h
  · rw [h] at hx
    exact key x hx
  · rw [h, List.mem_append, List.mem_singleton] at hx
    rcases hx with hx | hx
    · exact key x hx
    · subst hx; trivial

theorem serializeWith_forall {V Rq : Type} (P : Call V → Prop)
    (serializer : ObjectSerializer V) (which : Option Nat) (set : Bool)
    (writer : ResponseWriter) (request : Rq) (code : Int) (body : V) (calls : List (Call V))
    (hcalls : ∀ x ∈ (calls ++ (typeCalls set which ++ [Call.Serialize which]) : List (Call V)),
      P x)
    (hclose : P Call.Close) :
    ∀ x ∈ (serializeWith serializer which set writer request code body calls).calls, P x := by
  have key0 : ∀ x ∈ (calls ++ typeCalls set which : List (Call V)), P x := by
    intro x hx
    apply hcalls
    simp only [List.mem_append] at hx ⊢
    rcases hx with hx | hx
    · exact Or.inl hx
    · exact Or.inr (Or.inl hx)
  unfold serializeWith
  refine afterWriteHeader_forall _ _ _ _ _ _ key0 (fun w => ?_)
  refine onSerializeError_forall _ _ _ _ _ _ _ hcalls (fun w1 s => ?_)
  intro x hx
  rcases @copySerialized_calls V Rq w1 s request
    (calls ++ (typeCalls set which ++ [Call.Serialize which])) with h | h
  · rw [h] at hx
    exact hcalls x hx
  · rw [h, List.mem_append, List.mem_singleton] at hx
    rcases hx with hx | hx
    · exact hcalls x hx
    · subst hx
      exact hclose

theorem setSerializerType_fields (set : Bool) (writer : ResponseWriter) (contentType : String) :
    (setSerializerType set writer contentType).status = writer.status ∧
      (setSerializerType set writer contentType).body = writer.body ∧
      (setSerializerType set writer contentType).wroteHeader = writer.wroteHeader ∧
      (setSerializerType set writer contentType).readerFrom = writer.readerFrom := by
  unfold setSerializerType
  split <;> exact ⟨rfl, rfl, rfl, rfl⟩

theorem copySerialized_some {V Rq : Type} (writer : ResponseWriter) (reader : Stream)
    (request : Rq) (calls : List (Call V)) :
    copySerialized writer (some reader) request calls =
      { writer := writer.ReadFrom reader, request := request
        calls := calls ++ closeCalls reader, panicked := false } := by
  cases reader with
  | reader data => simp [copySerialized, closeCalls]
  | readCloser data => rfl

theorem serializeWith_ok {V Rq : Type} (serializer : ObjectSerializer V)
    (which : Option Nat) (set : Bool) (writer : ResponseWriter) (request : Rq) (code : Int)
    (body : V) (calls : List (Call V)) (reader : Stream)
    (hvalid : writer.wroteHeader = true ∨ (100 ≤ code ∧ code ≤ 999))
    (hser : serializer.Serialize body = (some reader, none)) :
    (serializeWith serializer which set writer request code body calls).writer.status =
        writer.status ++ [code] ∧
      (serializeWith serializer which set writer request code body calls).writer.header =
        (setSerializerType set writer serializer.ContentType).header ∧
      (serializeWith serializer which set writer request code body calls).writer.body =
        writer.body ++ (if writer.readerFrom then reader.data else flushedBlocks reader.data) ∧
      (serializeWith serializer which set writer request code body calls).panicked = false ∧
      (serializeWith serializer which set writer request code body calls).calls =
        calls ++ (typeCalls set which ++ [Call.Serialize which]) ++ closeCalls reader := by
  obtain ⟨hs, hb, hw, hr⟩ := setSerializerType_fields set writer serializer.ContentType
  unfold serializeWith
  simp only
  obtain ⟨w1, hw1, hheader, hstatus, hbody1, hrf⟩ := afterWriteHeader_of_valid
    (setSerializerType set writer serializer.ContentType) code request
    (calls ++ typeCalls set which)
    (fun writer2 =>
      onSerializeError writer2 (serializer.Serialize body).1 (serializer.Serialize body).2
        request (calls ++ (typeCalls set which ++ [Call.Serialize which]))
        (fun writer3 serialized =>
          (copySerialized writer3 serialized request
            (calls ++ (typeCalls set which ++ [Call.Serialize which])) : Outcome V Rq)))
    (by rw [hw]; exact hvalid)
  rw [hw1]
  simp only [hser, onSerializeError, copySerialized_some]
  refine ⟨?_, ?_, ?_, trivial, trivial⟩
  · rw [ReadFrom_status, hstatus, hs]
  · rw [ReadFrom_header, hheader]
  · rw [ReadFrom_body, hbody1, hrf, hb, hr]

theorem serializeWith_error {V Rq : Type} (serializer : ObjectSerializer V)
    (which : Option Nat) (set : Bool) (writer : ResponseWriter) (request : Rq) (code : Int)
    (body : V) (calls : List (Call V)) (e : String)
    (hvalid : writer.wroteHeader = true ∨ (100 ≤ code ∧ code ≤ 999))
    (hser : (serializer.Serialize body).2 = some e) :
    (serializeWith serializer which set writer request code body calls).writer.status =
        writer.status ++ [code, 500] ∧
      (serializeWith serializer which set writer request code body calls).writer.header =
        (setSerializerType set writer serializer.ContentType).header.Set HeaderContentType
          ContentTypeTextPlain ∧
      (serializeWith serializer which set writer request code body calls).writer.body =
        writer.body ++
          (if writer.readerFrom then "response body serialization failed!" else "") ∧
      (serializeWith serializer which set writer request code body calls).panicked = false ∧
      (serializeWith serializer which set writer request code body calls).calls =
        calls ++ (typeCalls set which ++ [Call.Serialize which]) := by
  obtain ⟨hs, hb, hw, hr⟩ := setSerializerType_fields set writer serializer.ContentType
  unfold serializeWith
  simp only
  obtain ⟨w1, hw1, hheader, hstatus, hbody1, hrf⟩ := afterWriteHeader_of_valid
    (setSerializerType set writer serializer.ContentType) code request
    (calls ++ typeCalls set which)
    (fun writer2 =>
      onSerializeError writer2 (serializer.Serialize body).1 (serializer.Serialize body).2
        request (calls ++ (typeCalls set which ++ [Call.Serialize which]))
        (fun writer3 serialized =>
          (copySerialized writer3 serialized request
            (calls ++ (typeCalls set which ++ [Call.Serialize which])) : Outcome V Rq)))
    (by rw [hw]; exact hvalid)
  rw [hw1]
  simp only [hser, onSerializeError]
  obtain ⟨w2, hw2, hheader2, hstatus2, hbody2, hrf2⟩ := afterWriteHeader_of_valid
    w1 500 request (calls ++ (typeCalls set which ++ [Call.Serialize which]))
    (fun writer1 =>
      (copySerialized (writer1.SetHeader HeaderContentType ContentTypeTextPlain)
        (some (Stream.reader "response body serialization failed!")) request
        (calls ++ (typeCalls set which ++ [Call.Serialize which])) : Outcome V Rq))
    (Or.inr (by decide))
  rw [hw2]
  simp only [copySerialized_some, closeCalls, List.append_nil]
  refine ⟨?_, ?_, ?_, trivial, trivial⟩
  · rw [ReadFrom_status]
    show w2.status = _
    rw [hstatus2, hstatus, hs, List.append_assoc]
    rfl
  · rw [ReadFrom_header]
    show w2.header.Set _ _ = _
    rw [hheader2, hheader]
  · rw [ReadFrom_body]
    show w2.body ++ (if w2.readerFrom then _ else _) = _
    rw [hbody2, hbody1, hb, hrf2, hrf, hr]
    rfl

theorem serializeBody_serialPhase {V Rq : Type} [GoValue V]
    (serials : List (ObjectSerializer V)) (set : Bool) (writer : ResponseWriter)
    (request : Rq) (code : Int) (body : V) :
    ∀ x ∈ (serializeBody serials set writer request code body []).calls,
      Call.serialPhase x := by
  unfold serializeBody
  simp only [List.nil_append]
  exact serializeWith_serialPhase _ _ _ _ _ _ _ _ (lookupSerializer_serialPhase serials 0 body)

theorem serialPhase_responsePhase {V : Type} (x : Call V) (h : Call.serialPhase x) :
    Call.responsePhase x := by
  cases x <;> trivial

theorem filterResponses_indices {V Rq : Type} (outs : List (ResponseFilter V Rq)) (i : Nat)
    (request : Rq) (response : Response V) :
    (filterResponses outs i request response).2.2.filterMap Call.filterResponseIndex =
      List.range' i outs.length := by
  induction outs generalizing i request response with
  | nil => simp [filterResponses]
  | cons out rest ih =>
    simp only [filterResponses, List.length_cons]
    rw [List.filterMap_cons]
    simp only [Call.filterResponseIndex, ih, List.range'_succ]

theorem filterResponses_append {V Rq : Type} (pre post : List (ResponseFilter V Rq))
    (i : Nat) (request : Rq) (response : Response V) :
    filterResponses (pre ++ post) i request response =
      ((filterResponses post (i + pre.length)
          (filterResponses pre i request response).2.1
          (filterResponses pre i request response).1).1,
       (filterResponses post (i + pre.length)
          (filterResponses pre i request response).2.1
          (filterResponses pre i request response).1).2.1,
       (filterResponses pre i request response).2.2 ++
        (filterResponses post (i + pre.length)
          (filterResponses pre i request response).2.1
          (filterResponses pre i request response).1).2.2) := by
  induction pre generalizing i request response with
  | nil => simp [filterResponses]
  | cons out rest ih =>
    rw [List.cons_append]
    simp only [filterResponses, List.length_cons]
    rw [ih]
    simp only [List.cons_append]
    have : i + 1 + rest.length = i + (rest.length + 1) := by omega
    rw [this]

theorem handleResponse_final {V Rq : Type} [GoValue V] (c : Pipeline V Rq)
    (writer : ResponseWriter) (request : Rq) (response : Response V) :
    c.handleResponse writer request response =
      ((withoutOutFilters c).handleResponse writer
          (filterResponses c.outFilters 0 request response).2.1
          (filterResponses c.outFilters 0 request response).1).after
        (filterResponses c.outFilters 0 request response).2.2 := by
  unfold controller.handleResponse
  simp only [withoutOutFilters, newController, filterResponses]
  split
  · exact afterWriteHeader_after_nil _ _ _ _ _ _ (fun w => by simp [Outcome.after])
  · exact afterWriteHeader_after_nil _ _ _ _ _ _ (fun w => by simp [Outcome.after])
  · exact afterWriteHeader_after_nil _ _ _ _ _ _ (fun w => by simp [Outcome.after])
  · rw [serializeBody_after]

theorem handleResponse_calls_split {V Rq : Type} [GoValue V] (c : Pipeline V Rq)
    (writer : ResponseWriter) (request : Rq) (response : Response V) :
    ∃ tail, (c.handleResponse writer request response).calls =
        (filterResponses c.outFilters 0 request response).2.2 ++ tail ∧
      ∀ x ∈ tail, Call.serialPhase x := by
  rw [handleResponse_final]
  refine ⟨_, rfl, ?_⟩
  unfold controller.handleResponse
  simp only [withoutOutFilters, newController, filterResponses]
  split
  · exact afterWriteHeader_forall _ _ _ _ _ _ (by simp) (fun w => by simp)
  · refine afterWriteHeader_forall _ _ _ _ _ _ (by simp) (fun w => ?_)
    intro x hx
    simp only [List.nil_append, List.mem_singleton] at hx
    subst hx; trivial
  · exact afterWriteHeader_forall _ _ _ _ _ _ (by simp) (fun w => by simp)
  · exact serializeBody_serialPhase _ _ _ _ _ _

theorem handleResponse_calls {V Rq : Type} [GoValue V] (c : Pipeline V Rq)
    (writer : ResponseWriter) (request : Rq) (response : Response V) :
    ∀ x ∈ (c.handleResponse writer request response).calls, Call.responsePhase x := by
  obtain ⟨tail, heq, htail⟩ := handleResponse_calls_split c writer request response
  intro x hx
  rw [heq, List.mem_append] at hx
  rcases hx with hx | hx
  · exact filterResponses_calls _ _ _ _ x hx
  · exact serialPhase_responsePhase x (htail x hx)

theorem ServeHTTP_of_pass {V Rq : Type} [GoValue V] (c : Pipeline V Rq)
    (writer : ResponseWriter) (request request1 : Rq) (h : RequestHandler V Rq)
    (hpass : passesAll c.inFilters request = some request1) (hh : c.handler = some h) :
    c.ServeHTTP writer request =
      (c.handleResponse writer (h.HandleRequest request1).2
        ((h.HandleRequest request1).1.getD
          (newEmptyResponseError
            "request handler did not return a response, returning 500 error"))).after
        ((List.range c.inFilters.length).map Call.FilterRequest ++ [Call.HandleRequest]) := by
  have hloop := filterRequests_pass c.inFilters 0 request request1 hpass
  unfold controller.ServeHTTP
  rw [hloop, hh, List.range_eq_range']
  simp only
  rcases hr : h.HandleRequest request1 with ⟨r, q⟩
  cases r <;> simp

/-- C1: when the request filters before `f` all return nil and `f` returns the
response `R`, serving the request is exactly running `handleResponse` on `R`
after the `FilterRequest` calls on the filters up to `f`: no later filter and no
handler is called. When every request filter returns nil, each filter is called
once, in order, then `HandleRequest` is called once, and the rest is
`handleResponse` on what the handler returned (or on the 500 response when it
returned nil). -/
theorem ServeHTTP_request_phase {V Rq : Type} [GoValue V] (c : Pipeline V Rq)
    (writer : ResponseWriter) (request : Rq) :
    (∀ (pre post : List (RequestFilter V Rq)) (f : RequestFilter V Rq) (R : Response V)
        (request1 request2 : Rq),
        c.inFilters = pre ++ f :: post →
        passesAll pre request = some request1 →
        f.FilterRequest request1 = (some R, request2) →
        c.ServeHTTP writer request =
            (c.handleResponse writer request2 R).after
              ((List.range (pre.length + 1)).map Call.FilterRequest) ∧
          Call.HandleRequest ∉ (c.ServeHTTP writer request).calls ∧
          (∀ j, pre.length < j → Call.FilterRequest j ∉ (c.ServeHTTP writer request).calls)) ∧
    (∀ (h : RequestHandler V Rq) (request1 : Rq),
        passesAll c.inFilters request = some request1 →
        c.handler = some h →
        c.ServeHTTP writer request =
            (c.handleResponse writer (h.HandleRequest request1).2
              ((h.HandleRequest request1).1.getD
                (newEmptyResponseError
                  "request handler did not return a response, returning 500 error"))).after
              ((List.range c.inFilters.length).map Call.FilterRequest ++ [Call.HandleRequest]) ∧
          ∀ x ∈ (c.handleResponse writer (h.HandleRequest request1).2
              ((h.HandleRequest request1).1.getD
                (newEmptyResponseError
                  "request handler did not return a response, returning 500 error"))).calls,
            x ≠ Call.HandleRequest ∧ ∀ j, x ≠ Call.FilterRequest j) := by
  constructor
  · intro pre post f R request1 request2 hsplit hpre hf
    have hloop := filterRequests_halt pre f post 0 request request1 request2 R hpre hf
    have heq : c.ServeHTTP writer request =
        (c.handleResponse writer request2 R).after
          ((List.range (pre.length + 1)).map Call.FilterRequest) := by
      unfold controller.ServeHTTP
      rw [hsplit, hloop, List.range_eq_range']
    refine ⟨heq, ?_, ?_⟩
    · rw [heq]
      intro hmem
      simp only [Outcome.after, List.mem_append, List.mem_map] at hmem
      rcases hmem with ⟨_, _, h⟩ | h
      · cases h
      · exact handleResponse_calls c writer request2 R _ h
    · intro j hj
      rw [heq]
      intro hmem
      simp only [Outcome.after, List.mem_append, List.mem_map, List.mem_range] at hmem
      rcases hmem with ⟨a, ha, h⟩ | h
      · injection h with h
        omega
      · exact handleResponse_calls c writer request2 R _ h
  · intro h request1 hpass hh
    constructor
    · exact ServeHTTP_of_pass c writer request request1 h hpass hh
    · intro x hx
      have hphase := handleResponse_calls c writer _ _ x hx
      constructor
      · intro hx1
        rw [hx1] at hphase
        exact hphase
      · intro j hx1
        rw [hx1] at hphase
        exact hphase

theorem ServeHTTP_request_phase_witness :
    ((rejectingPipeline.ServeHTTP freshWriter 0).calls =
        [Call.FilterRequest 0, Call.FilterRequest 1] ∧
      (rejectingPipeline.ServeHTTP freshWriter 0).writer.status = [401] ∧
      Call.HandleRequest ∉ (rejectingPipeline.ServeHTTP freshWriter 0).calls) ∧
    (pingPipeline.ServeHTTP freshWriter 0).calls.take 2 =
      [Call.FilterRequest 0, Call.HandleRequest] := by
  have h1 := (ServeHTTP_request_phase rejectingPipeline freshWriter 0).1
    [passFilter] [haltFilter 403] (haltFilter 401) (NewResponse.WithCode 401) 1 2 rfl rfl rfl
  have h2 := (ServeHTTP_request_phase pingPipeline freshWriter 0).2 pongHandler 1 rfl rfl
  refine ⟨⟨?_, ?_, h1.2.1⟩, ?_⟩
  · rw [h1.1]; rfl
  · rw [h1.1]; rfl
  · rw [h2.1]; rfl

/-! ## The response phase -/

theorem handleResponse_filter_order {V Rq : Type} [GoValue V] (c : Pipeline V Rq)
    (writer : ResponseWriter) (request : Rq) (response : Response V) :
    (c.handleResponse writer request response).calls.filterMap Call.filterResponseIndex =
      List.range c.outFilters.length := by
  obtain ⟨tail, heq, htail⟩ := handleResponse_calls_split c writer request response
  rw [heq, List.filterMap_append, filterResponses_indices, List.range_eq_range']
  have : tail.filterMap Call.filterResponseIndex = [] := by
    rw [List.filterMap_eq_nil_iff]
    intro x hx
    have := htail x hx
    cases x <;> first | rfl | exact this.elim
  rw [this, List.append_nil]

/-- C4: `handleResponse` calls every response filter once, in the order of the
chain, whatever the filters return. At each filter `g` of the chain, the
response handed to `g` is the working response left by the filters before it,
the filters after `g` are run on what `g` returned, or on a fresh response
with code 500 and the text body "response filter did not return a response"
when `g` returned nil, and the response that is written is the one the last
filter left. -/
theorem handleResponse_response_filters {V Rq : Type} [GoValue V] (c : Pipeline V Rq)
    (writer : ResponseWriter) (request request1 request2 : Rq)
    (response working : Response V) (returned : Option (Response V))
    (pre post : List (ResponseFilter V Rq)) (g : ResponseFilter V Rq) (calls : List (Call V))
    (hsplit : c.outFilters = pre ++ g :: post)
    (hpre : filterResponses pre 0 request response = (working, request1, calls))
    (hg : g.FilterResponse request1 working = (returned, request2)) :
    (c.handleResponse writer request response).calls.filterMap Call.filterResponseIndex =
        List.range c.outFilters.length ∧
      filterResponses c.outFilters 0 request response =
        ((filterResponses post (pre.length + 1) request2 (orEmptyResponseError returned)).1,
         (filterResponses post (pre.length + 1) request2 (orEmptyResponseError returned)).2.1,
         calls ++ Call.FilterResponse pre.length working ::
          (filterResponses post (pre.length + 1) request2
            (orEmptyResponseError returned)).2.2) ∧
      (returned = none → orEmptyResponseError returned =
        { code := 500
          body := Body.stream (Stream.reader "response filter did not return a response")
          headers := { head := [] } }) ∧
      c.handleResponse writer request response =
        ((withoutOutFilters c).handleResponse writer
            (filterResponses c.outFilters 0 request response).2.1
            (filterResponses c.outFilters 0 request response).1).after
          (filterResponses c.outFilters 0 request response).2.2 := by
  refine ⟨handleResponse_filter_order c writer request response, ?_, ?_,
    handleResponse_final c writer request response⟩
  · rw [hsplit, filterResponses_append, hpre]
    simp only [filterResponses, Nat.zero_add, hg]
  · intro hnone
    subst hnone
    rfl

theorem handleResponse_response_filters_witness :
    (filteringPipeline.handleResponse freshWriter 0 NewResponse).calls.filterMap
        Call.filterResponseIndex = [0, 1, 2] ∧
      (filterResponses filteringPipeline.outFilters 0 0 NewResponse).1 =
        (newEmptyResponseError "response filter did not return a response").WithHeader
          "X-Stamp" "1" [] ∧
      (filteringPipeline.handleResponse freshWriter 0 NewResponse).writer.status = [500] := by
  have h := handleResponse_response_filters filteringPipeline freshWriter 0 1 2 NewResponse
    (NewResponse.WithHeader "X-Stamp" "1" []) none [stampFilter] [stampFilter]
    nilResponseFilter [Call.FilterResponse 0 NewResponse] rfl rfl rfl
  refine ⟨h.1, ?_, ?_⟩
  · rw [h.2.1]; rfl
  · rw [h.2.2.2]; rfl

theorem filterResponses_unchanged {V Rq : Type} (outs : List (ResponseFilter V Rq)) (i : Nat)
    (request : Rq) (response : Response V)
    (hid : ∀ g ∈ outs, ∀ (q : Rq) (r : Response V), (g.FilterResponse q r).1 = some r) :
    (filterResponses outs i request response).1 = response := by
  induction outs generalizing i request with
  | nil => rfl
  | cons out rest ih =>
    simp only [filterResponses]
    have h := hid out (List.mem_cons_self _ _) request response
    rw [h]
    exact ih _ _ (fun g hg => hid g (List.mem_cons_of_mem _ hg))

theorem filterResponses_shape {V Rq : Type} (outs : List (ResponseFilter V Rq)) (i : Nat)
    (request : Rq) (response : Response V) :
    ∀ x ∈ (filterResponses outs i request response).2.2, ∃ j r, x = Call.FilterResponse j r := by
  induction outs generalizing i request response with
  | nil => simp [filterResponses]
  | cons out rest ih =>
    intro x hx
    simp only [filterResponses, List.mem_cons] at hx
    rcases hx with hx | hx
    · exact ⟨_, _, hx⟩
    · exact ih _ _ _ x hx

theorem handleResponse_stream {V Rq : Type} [GoValue V] (c : Pipeline V Rq)
    (writer : ResponseWriter) (request request1 : Rq) (response final : Response V)
    (calls : List (Call V)) (stream : Stream)
    (hfinal : filterResponses c.outFilters 0 request response = (final, request1, calls))
    (hbody : final.body = Body.stream stream) :
    c.handleResponse writer request response =
      afterWriteHeader
        { writer with header := (applyHeaders final.headers.head (false, writer.header)).2 }
        final.code request1 calls
        (fun writer2 =>
          { writer := writer2.ReadFrom stream, request := request1
            calls := calls ++ closeCalls stream, panicked := false }) := by
  unfold controller.handleResponse
  rw [hfinal]
  simp only [hbody]
  cases stream with
  | reader data => simp [closeCalls]
  | readCloser data => rfl

/-- On a transport that takes the status, a response with a stream body is
written as follows: `handleResponse` makes no `Matches`, `Serialize` or
`ContentType` call, whatever serializers are registered, makes one
`WriteHeader` call, with the code of the response, and hands the bytes of the
stream to a transport that is an `io.ReaderFrom`, and only the whole blocks of
them to another one. -/
theorem handleResponse_stream_body {V Rq : Type} [GoValue V] (c : Pipeline V Rq)
    (writer : ResponseWriter) (request request1 : Rq) (response final : Response V)
    (calls : List (Call V)) (stream : Stream)
    (hfinal : filterResponses c.outFilters 0 request response = (final, request1, calls))
    (hbody : final.body = Body.stream stream)
    (hvalid : writer.wroteHeader = true ∨ (100 ≤ final.code ∧ final.code ≤ 999)) :
    (∀ x ∈ (c.handleResponse writer request response).calls,
        (∀ i, x ≠ Call.Matches i) ∧ (∀ i, x ≠ Call.Serialize i) ∧
          (∀ i, x ≠ Call.ContentType i)) ∧
      (c.handleResponse writer request response).writer.status =
        writer.status ++ [final.code] ∧
      (c.handleResponse writer request response).writer.body =
        writer.body ++ (if writer.readerFrom then stream.data else flushedBlocks stream.data) ∧
      (c.handleResponse writer request response).panicked = false := by
  have hshape := filterResponses_shape c.outFilters 0 request response
  rw [hfinal] at hshape
  have hout : ∀ x ∈ calls ++ closeCalls stream,
      (∀ i, x ≠ Call.Matches i) ∧ (∀ i, x ≠ Call.Serialize i) ∧
        (∀ i, x ≠ Call.ContentType i) := by
    intro x hx
    rw [List.mem_append] at hx
    rcases hx with hx | hx
    · obtain ⟨j, r, hj⟩ := hshape x hx
      subst hj
      refine ⟨?_, ?_, ?_⟩ <;> intro _ h <;> cases h
    · cases stream with
      | reader data => cases hx
      | readCloser data =>
        simp only [closeCalls, List.mem_singleton] at hx
        subst hx
        refine ⟨?_, ?_, ?_⟩ <;> intro _ h <;> cases h
  rw [handleResponse_stream c writer request request1 response final calls stream hfinal hbody]
  obtain ⟨w1, hw1, _, hstatus, hbody1, hrf⟩ := afterWriteHeader_of_valid
    { writer with header := (applyHeaders final.headers.head (false, writer.header)).2 }
    final.code request1 calls
    (fun writer2 =>
      ({ writer := writer2.ReadFrom stream, request := request1
         calls := calls ++ closeCalls stream, panicked := false } : Outcome V Rq)) hvalid
  rw [hw1]
  refine ⟨hout, ?_, ?_, rfl⟩
  · rw [ReadFrom_status, hstatus]
  · rw [ReadFrom_body, hbody1, hrf]

/-- When every request filter returns nil, the handler returns nil and the
response filters return the response they are given, the pipeline makes one
`WriteHeader` call, with 500, leaves the transport headers as they were and
hands the text "request handler did not return a response, returning 500
error" to a transport that is an `io.ReaderFrom`, and nothing to another one. -/
theorem ServeHTTP_nil_handler {V Rq : Type} [GoValue V] (c : Pipeline V Rq)
    (writer : ResponseWriter) (request request1 : Rq) (h : RequestHandler V Rq)
    (hpass : passesAll c.inFilters request = some request1)
    (hh : c.handler = some h)
    (hnil : (h.HandleRequest request1).1 = none)
    (hid : ∀ g ∈ c.outFilters, ∀ (q : Rq) (r : Response V), (g.FilterResponse q r).1 = some r) :
    (c.ServeHTTP writer request).writer.status = writer.status ++ [500] ∧
      (c.ServeHTTP writer request).writer.body =
        writer.body ++
          (if writer.readerFrom then
            "request handler did not return a response, returning 500 error"
          else "") ∧
      (c.ServeHTTP writer request).writer.header = writer.header ∧
      (c.ServeHTTP writer request).panicked = false := by
  have hserve := ServeHTTP_of_pass c writer request request1 h hpass hh
  rw [hserve, hnil]
  simp only [Option.getD_none, Outcome.after]
  have hfinal := filterResponses_unchanged c.outFilters 0 (h.HandleRequest request1).2
    (newEmptyResponseError
      "request handler did not return a response, returning 500 error") hid
  have hstream := handleResponse_stream_body c writer (h.HandleRequest request1).2
    (filterResponses c.outFilters 0 (h.HandleRequest request1).2
      (newEmptyResponseError
        "request handler did not return a response, returning 500 error")).2.1
    (newEmptyResponseError "request handler did not return a response, returning 500 error")
    (filterResponses c.outFilters 0 (h.HandleRequest request1).2
      (newEmptyResponseError
        "request handler did not return a response, returning 500 error")).1
    (filterResponses c.outFilters 0 (h.HandleRequest request1).2
      (newEmptyResponseError
        "request handler did not return a response, returning 500 error")).2.2
    (Stream.reader "request handler did not return a response, returning 500 error")
    rfl (by rw [hfinal]; rfl)
    (Or.inr (by rw [hfinal]; show (100 : Int) ≤ 500 ∧ (500 : Int) ≤ 999; decide))
  have hhead := handleResponse_stream c writer (h.HandleRequest request1).2
    (filterResponses c.outFilters 0 (h.HandleRequest request1).2
      (newEmptyResponseError
        "request handler did not return a response, returning 500 error")).2.1
    (newEmptyResponseError "request handler did not return a response, returning 500 error")
    (filterResponses c.outFilters 0 (h.HandleRequest request1).2
      (newEmptyResponseError
        "request handler did not return a response, returning 500 error")).1
    (filterResponses c.outFilters 0 (h.HandleRequest request1).2
      (newEmptyResponseError
        "request handler did not return a response, returning 500 error")).2.2
    (Stream.reader "request handler did not return a response, returning 500 error")
    rfl (by rw [hfinal]; rfl)
  refine ⟨?_, ?_, ?_, hstream.2.2.2⟩
  · rw [hstream.2.1, hfinal]
    rfl
  · rw [hstream.2.2.1]
    rfl
  · rw [hhead]
    refine afterWriteHeader_header _ _ _ _ _ _ ?_ (fun w hw => hw)
    rw [hfinal]
    rfl

/-- C5 fails on the code: the body is copied with
`bufio.NewWriter(writer).ReadFrom(reader)` and the buffered writer is never
flushed. On a transport that is not an `io.ReaderFrom` the pipeline whose
handler returns nil makes the `WriteHeader` call with 500 and hands no byte of
the text to the transport; on one that is, the text arrives. -/
theorem ServeHTTP_nil_handler_unflushed :
    (nilPipeline.ServeHTTP recorderWriter 0).writer.status = [500] ∧
      (nilPipeline.ServeHTTP recorderWriter 0).writer.body = "" ∧
      (nilPipeline.ServeHTTP recorderWriter 0).panicked = false ∧
      (nilPipeline.ServeHTTP freshWriter 0).writer.body =
        "request handler did not return a response, returning 500 error" := by
  refine ⟨?_, ?_, ?_, ?_⟩ <;> decide

/-! ## Writing the body -/

/-- C6 fails on the code: the stream is copied with
`bufio.NewWriter(writer).ReadFrom(reader)` and the buffered writer is never
flushed. On a transport that is not an `io.ReaderFrom` the pipeline whose
handler returns the stream `raw` makes the `WriteHeader` call with 200, calls
no serializer, closes the stream and hands no byte of it to the transport; on
one that is, the bytes arrive. -/
theorem handleResponse_stream_body_unflushed :
    (streamPipeline.ServeHTTP recorderWriter 0).calls = [Call.HandleRequest, Call.Close] ∧
      (streamPipeline.ServeHTTP recorderWriter 0).writer.status = [200] ∧
      (streamPipeline.ServeHTTP recorderWriter 0).writer.body = "" ∧
      (streamPipeline.ServeHTTP recorderWriter 0).panicked = false ∧
      (streamPipeline.ServeHTTP freshWriter 0).writer.body = "raw" := by
  refine ⟨?_, ?_, ?_, ?_, ?_⟩ <;> decide

theorem lookupSerializer_first {V : Type} (pre post : List (ObjectSerializer V))
    (s : ObjectSerializer V) (i : Nat) (body : V)
    (hpre : ∀ t ∈ pre, t.Matches body = false) (hs : s.Matches body = true) :
    lookupSerializer (pre ++ s :: post) i body =
      (some (i + pre.length, s), (List.range' i (pre.length + 1)).map Call.Matches) := by
  induction pre generalizing i with
  | nil => simp [lookupSerializer, hs]
  | cons t rest ih =>
    rw [List.cons_append]
    simp only [lookupSerializer, hpre t (List.mem_cons_self _ _), List.length_cons]
    rw [ih (i + 1) (fun u hu => hpre u (List.mem_cons_of_mem _ hu))]
    simp only [Bool.false_eq_true, if_false, List.range'_succ, List.map_cons]
    have : i + 1 + rest.length = i + (rest.length + 1) := by omega
    rw [this]

theorem lookupSerializer_none {V : Type} (serials : List (ObjectSerializer V)) (i : Nat)
    (body : V) (hno : ∀ t ∈ serials, t.Matches body = false) :
    lookupSerializer serials i body =
      (none, (List.range' i serials.length).map Call.Matches) := by
  induction serials generalizing i with
  | nil => simp [lookupSerializer]
  | cons t rest ih =>
    simp only [lookupSerializer, hno t (List.mem_cons_self _ _), List.length_cons]
    rw [ih (i + 1) (fun u hu => hno u (List.mem_cons_of_mem _ hu))]
    simp [List.range'_succ]

theorem handleResponse_value {V Rq : Type} [GoValue V] (c : Pipeline V Rq)
    (writer : ResponseWriter) (request request1 : Rq) (response final : Response V)
    (calls : List (Call V)) (body : V)
    (hfinal : filterResponses c.outFilters 0 request response = (final, request1, calls))
    (hbody : final.body = Body.value body) :
    c.handleResponse writer request response =
      serializeBody c.serializers (applyHeaders final.headers.head (false, writer.header)).1
        { writer with header := (applyHeaders final.headers.head (false, writer.header)).2 }
        request1 final.code body calls := by
  unfold controller.handleResponse
  rw [hfinal]
  simp only [hbody]

theorem handleResponse_first_match {V Rq : Type} [GoValue V] (c : Pipeline V Rq)
    (writer : ResponseWriter) (request request1 : Rq) (response final : Response V)
    (calls : List (Call V)) (body : V) (pre post : List (ObjectSerializer V))
    (s : ObjectSerializer V)
    (hfinal : filterResponses c.outFilters 0 request response = (final, request1, calls))
    (hbody : final.body = Body.value body)
    (hsplit : c.serializers = pre ++ s :: post)
    (hpre : ∀ t ∈ pre, t.Matches body = false) (hs : s.Matches body = true) :
    c.handleResponse writer request response =
      serializeWith s (some pre.length)
        (applyHeaders final.headers.head (false, writer.header)).1
        { writer with
          header := (applyHeaders final.headers.head (false, writer.header)).2 }
        request1 final.code body
        (calls ++ (List.range (pre.length + 1)).map Call.Matches) := by
  have hval := handleResponse_value c writer request request1 response final calls body
    hfinal hbody
  have hlook := lookupSerializer_first pre post s 0 body hpre hs
  rw [hval]
  unfold serializeBody
  rw [hsplit, hlook, List.range_eq_range']
  simp [orDefault]

theorem handleResponse_no_match {V Rq : Type} [GoValue V] (c : Pipeline V Rq)
    (writer : ResponseWriter) (request request1 : Rq) (response final : Response V)
    (calls : List (Call V)) (body : V)
    (hfinal : filterResponses c.outFilters 0 request response = (final, request1, calls))
    (hbody : final.body = Body.value body)
    (hno : ∀ t ∈ c.serializers, t.Matches body = false) :
    c.handleResponse writer request response =
      serializeWith defaultObjectSerializer none
        (applyHeaders final.headers.head (false, writer.header)).1
        { writer with
          header := (applyHeaders final.headers.head (false, writer.header)).2 }
        request1 final.code body
        (calls ++ (List.range c.serializers.length).map Call.Matches) := by
  have hval := handleResponse_value c writer request request1 response final calls body
    hfinal hbody
  have hlook := lookupSerializer_none c.serializers 0 body hno
  rw [hval]
  unfold serializeBody
  rw [hlook, List.range_eq_range']
  simp [orDefault]

/-- C7: when the response left by the response filters has a body that is
neither nil nor a stream, the serializer used for the content type and for
`Serialize` is the first registered serializer whose `Matches` is true, and
`Matches` is called on the serializers up to that one and on no later one; when
no registered serializer matches, `Matches` is called on each of them and the
built-in default serializer is used. -/
theorem handleResponse_serializer_choice {V Rq : Type} [GoValue V] (c : Pipeline V Rq)
    (writer : ResponseWriter) (request request1 : Rq) (response final : Response V)
    (calls : List (Call V)) (body : V)
    (hfinal : filterResponses c.outFilters 0 request response = (final, request1, calls))
    (hbody : final.body = Body.value body) :
    (∀ (pre post : List (ObjectSerializer V)) (s : ObjectSerializer V),
        c.serializers = pre ++ s :: post →
        (∀ t ∈ pre, t.Matches body = false) →
        s.Matches body = true →
        c.handleResponse writer request response =
            serializeWith s (some pre.length)
              (applyHeaders final.headers.head (false, writer.header)).1
              { writer with
                header := (applyHeaders final.headers.head (false, writer.header)).2 }
              request1 final.code body
              (calls ++ (List.range (pre.length + 1)).map Call.Matches) ∧
          ∀ j, pre.length < j →
            Call.Matches j ∉ (c.handleResponse writer request response).calls) ∧
    ((∀ t ∈ c.serializers, t.Matches body = false) →
        c.handleResponse writer request response =
          serializeWith defaultObjectSerializer none
            (applyHeaders final.headers.head (false, writer.header)).1
            { writer with
              header := (applyHeaders final.headers.head (false, writer.header)).2 }
            request1 final.code body
            (calls ++ (List.range c.serializers.length).map Call.Matches)) := by
  constructor
  · intro pre post s hsplit hpre hs
    have heq := handleResponse_first_match c writer request request1 response final calls
      body pre post s hfinal hbody hsplit hpre hs
    refine ⟨heq, ?_⟩
    intro j hj hmem
    rw [heq] at hmem
    have hshape := filterResponses_shape c.outFilters 0 request response
    rw [hfinal] at hshape
    have hbase : Call.Matches j ∉ (calls ++ (List.range (pre.length + 1)).map Call.Matches ++
        (typeCalls (applyHeaders final.headers.head (false, writer.header)).1
          (some pre.length) ++ [Call.Serialize (some pre.length)]) : List (Call V)) := by
      intro hm
      simp only [List.mem_append, List.mem_map, List.mem_range, List.mem_singleton] at hm
      rcases hm with (hm | ⟨a, ha, hm⟩) | hm | hm
      · obtain ⟨k, r, hk⟩ := hshape _ hm
        cases hk
      · injection hm with hm
        omega
      · unfold typeCalls at hm
        split at hm
        · simp at hm
        · simp at hm
      · cases hm
    exact serializeWith_forall (fun x => x ≠ Call.Matches j) _ _ _ _ _ _ _ _
      (fun x hx hxj => hbase (hxj ▸ hx)) (fun h => by cases h) _ hmem rfl
  · intro hno
    exact handleResponse_no_match c writer request request1 response final calls body hfinal
      hbody hno

theorem handleResponse_serializer_choice_witness :
    ((serializerPipeline.handleResponse freshWriter 1
          (NewResponse.WithBody (Body.value "pong"))).calls =
        [Call.Matches 0, Call.Matches 1, Call.ContentType (some 1), Call.Serialize (some 1)] ∧
      (serializerPipeline.handleResponse freshWriter 1
          (NewResponse.WithBody (Body.value "pong"))).writer.body = "never") ∧
    (pingPipeline.handleResponse freshWriter 1
        (NewResponse.WithBody (Body.value "pong"))).calls =
      [Call.ContentType none, Call.Serialize none] := by
  have h1 := (handleResponse_serializer_choice serializerPipeline freshWriter 1 1
    (NewResponse.WithBody (Body.value "pong")) (NewResponse.WithBody (Body.value "pong")) []
    "pong" rfl rfl).1 [matchNoneSerializer] [matchNoneSerializer] matchAllSerializer rfl
    (fun t ht => by
      rw [List.mem_singleton] at ht
      subst ht
      rfl) rfl
  have h2 := (handleResponse_serializer_choice pingPipeline freshWriter 1 1
    (NewResponse.WithBody (Body.value "pong")) (NewResponse.WithBody (Body.value "pong")) []
    "pong" rfl rfl).2 (fun t ht => by cases ht)
  refine ⟨⟨?_, ?_⟩, ?_⟩
  · rw [h1.1]; rfl
  · rw [h1.1]; rfl
  · rw [h2]; rfl

theorem Header.get_put_same (h : Header) (key : String) (vs : List String) :
    (h.put key vs).get key = some vs := by
  induction h with
  | nil => simp [Header.put, Header.get]
  | cons kv rest ih =>
    rcases kv with ⟨k, old⟩
    by_cases hk : k = key
    · simp [Header.put, Header.get, hk]
    · simp [Header.put, Header.get, hk, ih]

theorem Header.get_put_other (h : Header) (key other : String) (vs : List String)
    (hne : other ≠ key) : (h.put key vs).get other = h.get other := by
  induction h with
  | nil =>
    simp only [Header.put, Header.get]
    rw [if_neg (fun hk => hne hk.symm)]
  | cons kv rest ih =>
    rcases kv with ⟨k, old⟩
    by_cases hk : k = key
    · subst hk
      simp only [Header.put, if_true, Header.get]
      rw [if_neg (fun hk => hne hk.symm), if_neg (fun hk => hne hk.symm)]
    · by_cases ho : k = other
      · simp only [Header.put, if_neg hk, Header.get, if_pos ho]
      · simp only [Header.put, if_neg hk, Header.get, if_neg ho, ih]

theorem canonical_HeaderContentType :
    CanonicalMIMEHeaderKey HeaderContentType = HeaderContentType := by
  decide

theorem applyValues_flag (header : String) (values : List String) (acc : Bool × Header)
    (hne : header ≠ HeaderContentType) : (applyValues header values acc).1 = acc.1 := by
  induction values generalizing acc with
  | nil => rfl
  | cons v rest ih =>
    simp only [applyValues, if_neg hne]
    rw [ih]

theorem applyHeaders_flag (head : Header) (acc : Bool × Header)
    (hno : ∀ kv ∈ head, kv.1 ≠ HeaderContentType) : (applyHeaders head acc).1 = acc.1 := by
  induction head generalizing acc with
  | nil => rfl
  | cons kv rest ih =>
    rcases kv with ⟨k, vs⟩
    simp only [applyHeaders]
    rw [ih _ (fun x hx => hno x (List.mem_cons_of_mem _ hx))]
    exact applyValues_flag k vs acc (hno (k, vs) (List.mem_cons_self _ _))

theorem setSerializerType_get (writer : ResponseWriter) (contentType : String) :
    (setSerializerType false writer contentType).header.get HeaderContentType =
      some [contentType] := by
  simp only [setSerializerType, Bool.false_eq_true, if_false, ResponseWriter.SetHeader]
  unfold Header.Set
  rw [canonical_HeaderContentType]
  exact Header.get_put_same _ _ _

/-- On a transport that takes the status, a response whose body is neither nil
nor a stream, none of whose headers is named `Content-Type` and whose body no
registered serializer matches is written as follows: `handleResponse` makes
one `WriteHeader` call, with the code of the response, leaves the transport
with the single content-type value `text/plain`, and hands `fmt.Sprint` of the
body to a transport that is an `io.ReaderFrom`, and only the whole blocks of
it to another one. -/
theorem handleResponse_default_serializer {V Rq : Type} [GoValue V] (c : Pipeline V Rq)
    (writer : ResponseWriter) (request request1 : Rq) (response final : Response V)
    (calls : List (Call V)) (body : V)
    (hfinal : filterResponses c.outFilters 0 request response = (final, request1, calls))
    (hbody : final.body = Body.value body)
    (htype : ∀ kv ∈ final.headers.head, kv.1 ≠ HeaderContentType)
    (hno : ∀ t ∈ c.serializers, t.Matches body = false)
    (hvalid : writer.wroteHeader = true ∨ (100 ≤ final.code ∧ final.code ≤ 999)) :
    (c.handleResponse writer request response).writer.status =
        writer.status ++ [final.code] ∧
      (c.handleResponse writer request response).writer.header.get HeaderContentType =
        some [ContentTypeTextPlain] ∧
      (c.handleResponse writer request response).writer.body =
        writer.body ++
          (if writer.readerFrom then GoValue.Sprint body
          else flushedBlocks (GoValue.Sprint body)) ∧
      (c.handleResponse writer request response).panicked = false := by
  have h := handleResponse_no_match c writer request request1 response final calls body
    hfinal hbody hno
  have hflag := applyHeaders_flag final.headers.head (false, writer.header) htype
  simp only at hflag
  rw [h, hflag]
  obtain ⟨hs, hh, hb, hp, _⟩ := serializeWith_ok (defaultObjectSerializer : ObjectSerializer V)
    none false
    { writer with header := (applyHeaders final.headers.head (false, writer.header)).2 }
    request1 final.code body (calls ++ (List.range c.serializers.length).map Call.Matches)
    (Stream.reader (GoValue.Sprint body)) hvalid rfl
  refine ⟨hs, ?_, hb, hp⟩
  rw [hh]
  exact setSerializerType_get _ _

/-- C8 fails on the code: the serialized body is copied with
`bufio.NewWriter(writer).ReadFrom(serialized)` and the buffered writer is never
flushed. On a transport that is not an `io.ReaderFrom` the pipeline of scenario
A makes the `WriteHeader` call with 200, sets the content type `text/plain`
and hands no byte of `pong` to the transport; on one that is, `pong` arrives. -/
theorem handleResponse_default_serializer_unflushed :
    (pingPipeline.ServeHTTP recorderWriter 0).writer.status = [200] ∧
      (pingPipeline.ServeHTTP recorderWriter 0).writer.header.get "Content-Type" =
        some ["text/plain"] ∧
      (pingPipeline.ServeHTTP recorderWriter 0).writer.body = "" ∧
      (pingPipeline.ServeHTTP recorderWriter 0).panicked = false ∧
      (pingPipeline.ServeHTTP freshWriter 0).writer.body = "pong" := by
  refine ⟨?_, ?_, ?_, ?_, ?_⟩ <;> decide

theorem toNat_ofNat_small (n : Nat) (h : n < 55296) : (Char.ofNat n).toNat = n := by
  unfold Char.ofNat
  have hv : n.isValidChar := Or.inl h
  rw [dif_pos hv]
  simp [Char.ofNatAux, Char.toNat, UInt32.toNat]

theorem canonByte_toLower (upper : Bool) (c : Char) :
    canonByte upper (Char.toLower c) = canonByte upper c := by
  unfold Char.toLower
  simp only
  split
  · rename_i h
    have h1 : (Char.ofNat (c.toNat + 32)).toNat = c.toNat + 32 :=
      toNat_ofNat_small _ (by omega)
    unfold canonByte
    rw [h1]
    cases upper
    · have e1 : (!false && decide (65 ≤ c.toNat + 32) && decide (c.toNat + 32 ≤ 90)) =
          false := by
        simp; omega
      have e2 : (!false && decide (65 ≤ c.toNat) && decide (c.toNat ≤ 90)) = true := by
        simp; omega
      simp only [Bool.false_and, Bool.false_eq_true, if_false, e1, e2, if_true]
    · have e1 : (true && decide (97 ≤ c.toNat + 32) && decide (c.toNat + 32 ≤ 122)) =
          true := by
        simp; omega
      have e2 : (true && decide (97 ≤ c.toNat) && decide (c.toNat ≤ 122)) = false := by
        simp; omega
      simp only [e1, e2, if_true, Bool.false_eq_true, if_false, Bool.not_true,
        Bool.false_and, Nat.add_sub_cancel, Char.ofNat_toNat]
  · rfl

theorem validHeaderFieldByte_toLower (c : Char) :
    validHeaderFieldByte (Char.toLower c) = validHeaderFieldByte c := by
  unfold Char.toLower
  simp only
  split
  · rename_i h
    have h1 : (Char.ofNat (c.toNat + 32)).toNat = c.toNat + 32 :=
      toNat_ofNat_small _ (by omega)
    have e1 : validHeaderFieldByte c = true := by
      unfold validHeaderFieldByte
      simp
      omega
    have e2 : validHeaderFieldByte (Char.ofNat (c.toNat + 32)) = true := by
      unfold validHeaderFieldByte
      rw [h1]
      simp
      omega
    rw [e1, e2]
  · rfl

theorem canonLoop_toLower (upper : Bool) (l : List Char) :
    canonLoop upper (l.map Char.toLower) = canonLoop upper l := by
  induction l generalizing upper with
  | nil => rfl
  | cons c rest ih =>
    simp only [List.map_cons, canonLoop, canonByte_toLower, ih]

theorem all_valid_toLower (l : List Char) :
    (l.map Char.toLower).all validHeaderFieldByte = l.all validHeaderFieldByte := by
  induction l with
  | nil => rfl
  | cons c rest ih =>
    simp only [List.map_cons, List.all_cons, validHeaderFieldByte_toLower, ih]

theorem canonical_of_sameLetters (key : String) (h : sameLetters key HeaderContentType) :
    CanonicalMIMEHeaderKey key = HeaderContentType := by
  unfold sameLetters at h
  unfold CanonicalMIMEHeaderKey
  rw [← all_valid_toLower, ← canonLoop_toLower, h]
  have hvalid : (HeaderContentType.data.map Char.toLower).all validHeaderFieldByte = true := by
    decide
  rw [if_pos hvalid]
  decide

theorem canonByte_idem (upper : Bool) (c : Char) :
    canonByte upper (canonByte upper c) = canonByte upper c := by
  unfold canonByte
  cases upper
  · simp only [Bool.false_and, Bool.false_eq_true, if_false, Bool.not_false, Bool.true_and]
    by_cases h : 65 ≤ c.toNat ∧ c.toNat ≤ 90
    · have h1 : (Char.ofNat (c.toNat + 32)).toNat = c.toNat + 32 :=
        toNat_ofNat_small _ (by omega)
      have e1 : (decide (65 ≤ c.toNat) && decide (c.toNat ≤ 90)) = true := by
        simp; omega
      have e2 : (decide (65 ≤ c.toNat + 32) && decide (c.toNat + 32 ≤ 90)) = false := by
        simp; omega
      simp only [e1, if_true, h1, e2, Bool.false_eq_true, if_false]
    · have e1 : (decide (65 ≤ c.toNat) && decide (c.toNat ≤ 90)) = false := by
        simp; omega
      simp only [e1, Bool.false_eq_true, if_false]
  · simp only [Bool.true_and, Bool.not_true, Bool.false_and, Bool.false_eq_true, if_false]
    by_cases h : 97 ≤ c.toNat ∧ c.toNat ≤ 122
    · have h1 : (Char.ofNat (c.toNat - 32)).toNat = c.toNat - 32 :=
        toNat_ofNat_small _ (by omega)
      have e1 : (decide (97 ≤ c.toNat) && decide (c.toNat ≤ 122)) = true := by
        simp; omega
      have e2 : (decide (97 ≤ c.toNat - 32) && decide (c.toNat - 32 ≤ 122)) = false := by
        simp; omega
      simp only [e1, if_true, h1, e2, Bool.false_eq_true, if_false]
    · have e1 : (decide (97 ≤ c.toNat) && decide (c.toNat ≤ 122)) = false := by
        simp; omega
      simp only [e1, Bool.false_eq_true, if_false]

theorem validHeaderFieldByte_canonByte (upper : Bool) (c : Char) :
    validHeaderFieldByte (canonByte upper c) = validHeaderFieldByte c := by
  unfold canonByte
  split
  · rename_i h
    simp only [Bool.and_eq_true, decide_eq_true_eq] at h
    have h1 : (Char.ofNat (c.toNat - 32)).toNat = c.toNat - 32 :=
      toNat_ofNat_small _ (by omega)
    have e1 : validHeaderFieldByte c = true := by
      unfold validHeaderFieldByte
      simp
      omega
    have e2 : validHeaderFieldByte (Char.ofNat (c.toNat - 32)) = true := by
      unfold validHeaderFieldByte
      rw [h1]
      simp
      omega
    rw [e1, e2]
  · split
    · rename_i h
      simp only [Bool.and_eq_true, decide_eq_true_eq] at h
      have h1 : (Char.ofNat (c.toNat + 32)).toNat = c.toNat + 32 :=
        toNat_ofNat_small _ (by omega)
      have e1 : validHeaderFieldByte c = true := by
        unfold validHeaderFieldByte
        simp
        omega
      have e2 : validHeaderFieldByte (Char.ofNat (c.toNat + 32)) = true := by
        unfold validHeaderFieldByte
        rw [h1]
        simp
        omega
      rw [e1, e2]
    · rfl

theorem canonLoop_idem (upper : Bool) (l : List Char) :
    canonLoop upper (canonLoop upper l) = canonLoop upper l := by
  induction l generalizing upper with
  | nil => rfl
  | cons c rest ih =>
    simp only [canonLoop, canonByte_idem, ih]

theorem all_valid_canonLoop (upper : Bool) (l : List Char) :
    (canonLoop upper l).all validHeaderFieldByte = l.all validHeaderFieldByte := by
  induction l generalizing upper with
  | nil => rfl
  | cons c rest ih =>
    simp only [canonLoop, List.all_cons, validHeaderFieldByte_canonByte, ih]

theorem canonical_idem (key : String) :
    CanonicalMIMEHeaderKey (CanonicalMIMEHeaderKey key) = CanonicalMIMEHeaderKey key := by
  by_cases h : key.data.all validHeaderFieldByte = true
  · have h1 : CanonicalMIMEHeaderKey key = String.mk (canonLoop true key.data) := by
      unfold CanonicalMIMEHeaderKey
      rw [if_pos h]
    rw [h1]
    unfold CanonicalMIMEHeaderKey
    simp only [all_valid_canonLoop, h, if_true, canonLoop_idem]
  · have h1 : CanonicalMIMEHeaderKey key = key := by
      unfold CanonicalMIMEHeaderKey
      rw [if_neg h]
    rw [h1, h1]

/-! ## Header maps -/

theorem Header.mem_put (h : Header) (key : String) (vs : List String)
    (kv : String × List String) (hmem : kv ∈ h.put key vs) : kv = (key, vs) ∨ kv ∈ h := by
  induction h with
  | nil =>
    simp only [Header.put, List.mem_singleton] at hmem
    exact Or.inl hmem
  | cons x rest ih =>
    rcases x with ⟨k, old⟩
    simp only [Header.put] at hmem
    split at hmem
    · rename_i hk
      simp only [List.mem_cons] at hmem
      rcases hmem with hmem | hmem
      · left; rw [hmem, hk]
      · right; exact List.mem_cons_of_mem _ hmem
    · simp only [List.mem_cons] at hmem
      rcases hmem with hmem | hmem
      · right; rw [hmem]; exact List.mem_cons_self _ _
      · rcases ih hmem with h1 | h1
        · left; exact h1
        · right; exact List.mem_cons_of_mem _ h1

theorem Header.keys_put (h : Header) (key : String) (vs : List String) :
    (h.put key vs).map Prod.fst =
      if key ∈ h.map Prod.fst then h.map Prod.fst else h.map Prod.fst ++ [key] := by
  induction h with
  | nil => simp [Header.put]
  | cons x rest ih =>
    rcases x with ⟨k, old⟩
    by_cases hk : k = key
    · subst hk
      simp [Header.put]
    · have hk1 : ¬ key = k := fun e => hk e.symm
      simp only [Header.put, if_neg hk, List.map_cons, ih, List.mem_cons, hk1, false_or]
      split <;> simp

theorem Header.canonical_put (h : Header) (key : String) (vs : List String)
    (hh : h.Canonical) (hkey : CanonicalMIMEHeaderKey key = key) (hvs : vs ≠ []) :
    (h.put key vs).Canonical := by
  constructor
  · rw [Header.keys_put]
    split
    · exact hh.1
    · rename_i hnot
      rw [List.nodup_append]
      refine ⟨hh.1, List.nodup_singleton _, ?_⟩
      intro a ha hb
      rw [List.mem_singleton] at hb
      subst hb
      exact hnot ha
  · intro kv hkv
    rcases Header.mem_put h key vs kv hkv with h1 | h1
    · rw [h1]
      exact ⟨hkey, hvs⟩
    · exact hh.2 kv h1

theorem Header.canonical_Add (h : Header) (key value : String) (hh : h.Canonical) :
    (h.Add key value).Canonical :=
  Header.canonical_put h _ _ hh (canonical_idem key) (by simp)

theorem Header.canonical_Set (h : Header) (key value : String) (hh : h.Canonical) :
    (h.Set key value).Canonical :=
  Header.canonical_put h _ _ hh (canonical_idem key) (by simp)

theorem canonical_addAll (h : Header) (key : String) (values : List String)
    (hh : h.Canonical) : (addAll h key values).Canonical := by
  induction values generalizing h with
  | nil => exact hh
  | cons v rest ih => exact ih _ (Header.canonical_Add h key v hh)

theorem canonical_apply (r : responseHeaders) (op : HeaderOp) (hr : r.head.Canonical) :
    (op.apply r).head.Canonical := by
  cases op with
  | Set header value values =>
    exact canonical_addAll _ _ _ (Header.canonical_Set _ _ _ hr)
  | Append header value values =>
    exact canonical_addAll _ _ _ (Header.canonical_Add _ _ _ hr)

theorem canonical_foldl (ops : List HeaderOp) (r : responseHeaders)
    (hr : r.head.Canonical) : (ops.foldl HeaderOp.apply r).head.Canonical := by
  induction ops generalizing r with
  | nil => exact hr
  | cons op rest ih => exact ih _ (canonical_apply r op hr)

theorem canonical_headersAfter (ops : List HeaderOp) : (headersAfter ops).head.Canonical :=
  canonical_foldl ops _ ⟨List.nodup_nil, fun _ h => by cases h⟩

theorem Header.get_put_isSome (h : Header) (key other : String) (vs : List String)
    (hsome : (h.get other).isSome = true) : ((h.put key vs).get other).isSome = true := by
  by_cases hk : other = key
  · subst hk
    rw [Header.get_put_same]
    rfl
  · rw [Header.get_put_other h key other vs hk]
    exact hsome

theorem addAll_get_isSome (h : Header) (key other : String) (values : List String)
    (hsome : (h.get other).isSome = true) : ((addAll h key values).get other).isSome = true := by
  induction values generalizing h with
  | nil => exact hsome
  | cons v rest ih => exact ih _ (Header.get_put_isSome h _ other _ hsome)

theorem apply_get_isSome (r : responseHeaders) (op : HeaderOp) (other : String)
    (hsome : (r.head.get other).isSome = true) :
    ((op.apply r).head.get other).isSome = true := by
  cases op with
  | Set header value values =>
    exact addAll_get_isSome _ _ _ _ (Header.get_put_isSome _ _ _ _ hsome)
  | Append header value values =>
    exact addAll_get_isSome _ _ _ _ (Header.get_put_isSome _ _ _ _ hsome)

theorem apply_get_own (r : responseHeaders) (op : HeaderOp) :
    ((op.apply r).head.get (CanonicalMIMEHeaderKey op.header)).isSome = true := by
  cases op with
  | Set header value values =>
    apply addAll_get_isSome
    simp only [Header.Set, HeaderOp.header, Header.get_put_same, Option.isSome_some]
  | Append header value values =>
    apply addAll_get_isSome
    simp only [Header.Add, HeaderOp.header, Header.get_put_same, Option.isSome_some]

theorem foldl_get_isSome (ops : List HeaderOp) (r : responseHeaders) (key : String)
    (h : (r.head.get key).isSome = true ∨ ∃ op ∈ ops, CanonicalMIMEHeaderKey op.header = key) :
    ((ops.foldl HeaderOp.apply r).head.get key).isSome = true := by
  induction ops generalizing r with
  | nil =>
    rcases h with h | ⟨op, hop, _⟩
    · exact h
    · cases hop
  | cons op rest ih =>
    simp only [List.foldl_cons]
    apply ih
    rcases h with h | ⟨op1, hop, hkey⟩
    · exact Or.inl (apply_get_isSome r op key h)
    · rw [List.mem_cons] at hop
      rcases hop with hop | hop
      · subst hop
        left
        rw [← hkey]
        exact apply_get_own r op1
      · exact Or.inr ⟨op1, hop, hkey⟩

theorem Header.mem_of_get (h : Header) (key : String) (vs : List String)
    (hget : h.get key = some vs) : (key, vs) ∈ h := by
  induction h with
  | nil => simp [Header.get] at hget
  | cons x rest ih =>
    rcases x with ⟨k, old⟩
    simp only [Header.get] at hget
    split at hget
    · rename_i hk
      simp only [Option.some.injEq] at hget
      rw [← hk, ← hget]
      exact List.mem_cons_self _ _
    · exact List.mem_cons_of_mem _ (ih hget)

theorem Header.get_none_of_not_mem (h : Header) (key : String)
    (hnot : key ∉ h.map Prod.fst) : h.get key = none := by
  induction h with
  | nil => rfl
  | cons x rest ih =>
    rcases x with ⟨k, old⟩
    simp only [List.map_cons, List.mem_cons, not_or] at hnot
    simp only [Header.get]
    rw [if_neg (fun e => hnot.1 e.symm)]
    exact ih hnot.2

theorem Header.get_of_mem (h : Header) (key : String) (vs : List String)
    (hnodup : (h.map Prod.fst).Nodup) (hmem : (key, vs) ∈ h) : h.get key = some vs := by
  induction h with
  | nil => cases hmem
  | cons x rest ih =>
    rcases x with ⟨k, old⟩
    simp only [List.map_cons, List.nodup_cons] at hnodup
    simp only [Header.get]
    rcases List.mem_cons.mp hmem with heq | hin
    · simp only [Prod.mk.injEq] at heq
      rw [if_pos heq.1.symm, heq.2]
    · have hne : k ≠ key := by
        intro e
        apply hnodup.1
        rw [e]
        exact List.mem_map_of_mem Prod.fst hin
      rw [if_neg hne]
      exact ih hnodup.2 hin

theorem Header.canonical_of_perm {h g : Header} (hperm : h.Perm g) (hh : h.Canonical) :
    g.Canonical :=
  ⟨(List.Perm.nodup_iff (hperm.map Prod.fst)).mp hh.1,
    fun kv hkv => hh.2 kv (hperm.symm.subset hkv)⟩

theorem addAll_get_other (h : Header) (key other : String) (values : List String)
    (hne : other ≠ CanonicalMIMEHeaderKey key) : (addAll h key values).get other = h.get other := by
  induction values generalizing h with
  | nil => rfl
  | cons v rest ih =>
    simp only [addAll]
    rw [ih]
    exact Header.get_put_other h _ other _ hne

theorem addAll_get_same (h : Header) (key value : String) (values : List String) :
    (addAll (h.Add key value) key values).get (CanonicalMIMEHeaderKey key) =
      some ((h.get (CanonicalMIMEHeaderKey key)).getD [] ++ value :: values) := by
  induction values generalizing h value with
  | nil => simp [addAll, Header.Add, Header.get_put_same]
  | cons v rest ih =>
    simp only [addAll]
    rw [ih]
    simp [Header.Add, Header.get_put_same]

theorem applyValues_snd (header : String) (values : List String) (acc : Bool × Header) :
    (applyValues header values acc).2 = addAll acc.2 header values := by
  induction values generalizing acc with
  | nil => rfl
  | cons v rest ih =>
    simp only [applyValues, addAll]
    rw [ih]

theorem applyValues_flag_mono (header : String) (values : List String) (acc : Bool × Header)
    (h : acc.1 = true) : (applyValues header values acc).1 = true := by
  induction values generalizing acc with
  | nil => exact h
  | cons v rest ih =>
    simp only [applyValues]
    apply ih
    simp only [h, ite_self]

theorem applyValues_flag_set (values : List String) (acc : Bool × Header)
    (hne : values ≠ []) : (applyValues HeaderContentType values acc).1 = true := by
  cases values with
  | nil => exact absurd rfl hne
  | cons v rest =>
    simp only [applyValues, if_true]
    exact applyValues_flag_mono _ _ _ rfl

theorem applyHeaders_flag_mono (head : Header) (acc : Bool × Header) (h : acc.1 = true) :
    (applyHeaders head acc).1 = true := by
  induction head generalizing acc with
  | nil => exact h
  | cons kv rest ih =>
    rcases kv with ⟨k, vs⟩
    simp only [applyHeaders]
    exact ih _ (applyValues_flag_mono k vs acc h)

theorem applyHeaders_flag_set (head : Header) (acc : Bool × Header) (vs : List String)
    (hget : head.get HeaderContentType = some vs) (hne : vs ≠ []) :
    (applyHeaders head acc).1 = true := by
  induction head generalizing acc with
  | nil => simp [Header.get] at hget
  | cons kv rest ih =>
    rcases kv with ⟨k, old⟩
    simp only [applyHeaders]
    simp only [Header.get] at hget
    split at hget
    · rename_i hk
      simp only [Option.some.injEq] at hget
      subst hk hget
      exact applyHeaders_flag_mono _ _ (applyValues_flag_set _ _ hne)
    · exact ih _ hget

theorem applyHeaders_get (head : Header) (acc : Bool × Header) (key : String)
    (hhead : head.Canonical) :
    (applyHeaders head acc).2.get key =
      match head.get key with
      | some vs => some ((acc.2.get key).getD [] ++ vs)
      | none => acc.2.get key := by
  induction head generalizing acc with
  | nil => rfl
  | cons kv rest ih =>
    rcases kv with ⟨k, vs⟩
    have hnodup := hhead.1
    simp only [List.map_cons, List.nodup_cons] at hnodup
    have hk := hhead.2 (k, vs) (List.mem_cons_self _ _)
    simp only at hk
    have hrest : Header.Canonical rest :=
      ⟨hnodup.2, fun x hx => hhead.2 x (List.mem_cons_of_mem _ hx)⟩
    simp only [applyHeaders]
    rw [ih _ hrest, applyValues_snd]
    by_cases hkey : k = key
    · subst hkey
      rw [Header.get_none_of_not_mem rest k hnodup.1]
      simp only [Header.get, if_true]
      cases vs with
      | nil => exact absurd rfl hk.2
      | cons v more =>
        simp only [addAll]
        have h := addAll_get_same acc.2 k v more
        rw [hk.1] at h
        exact h
    · simp only [Header.get, if_neg hkey]
      have hne : key ≠ CanonicalMIMEHeaderKey k := by
        rw [hk.1]
        exact fun e => hkey e.symm
      rw [addAll_get_other acc.2 k key vs hne]

theorem copySerialized_header {V Rq : Type} (writer : ResponseWriter)
    (serialized : Option Stream) (request : Rq) (calls : List (Call V)) :
    (copySerialized writer serialized request calls).writer.header = writer.header := by
  unfold copySerialized
  split <;> rfl

theorem serializeWith_header {V Rq : Type} (serializer : ObjectSerializer V)
    (which : Option Nat) (set : Bool) (writer : ResponseWriter) (request : Rq) (code : Int)
    (body : V) (calls : List (Call V)) (hok : (serializer.Serialize body).2 = none) :
    (serializeWith serializer which set writer request code body calls).writer.header =
      (setSerializerType set writer serializer.ContentType).header := by
  unfold serializeWith
  refine afterWriteHeader_header _ _ _ _ _ _ rfl (fun w hw => ?_)
  simp only [hok, onSerializeError]
  rw [copySerialized_header]
  exact hw

theorem lookupSerializer_shape {V : Type} (serials : List (ObjectSerializer V)) (i : Nat)
    (body : V) : ∀ x ∈ (lookupSerializer serials i body).2, ∃ j, x = Call.Matches j := by
  induction serials generalizing i with
  | nil => simp [lookupSerializer]
  | cons s rest ih =>
    intro x hx
    simp only [lookupSerializer] at hx
    split at hx
    · simp only [List.mem_singleton] at hx
      exact ⟨_, hx⟩
    · simp only [List.mem_cons] at hx
      rcases hx with hx | hx
      · exact ⟨_, hx⟩
      · exact ih _ x hx

/-- C9: when the response left by the response filters has a body that is
neither nil nor a stream, its headers were made by `WithHeader`, `Set` and
`Append` calls of which one named the content-type header in some letter case
(and are iterated in any order), and the chosen serializer returns no error,
the content-type values of the transport after `handleResponse` are the values
it carried before followed by the content-type values of the response, which
are not empty, and `ContentType` is called on no serializer. -/
theorem handleResponse_explicit_content_type {V Rq : Type} [GoValue V] (c : Pipeline V Rq)
    (writer : ResponseWriter) (request request1 : Rq) (response final : Response V)
    (calls : List (Call V)) (body : V) (ops : List HeaderOp)
    (hfinal : filterResponses c.outFilters 0 request response = (final, request1, calls))
    (hbody : final.body = Body.value body)
    (hops : final.headers.head.Perm (headersAfter ops).head)
    (hset : ∃ op ∈ ops, sameLetters op.header HeaderContentType)
    (hok : ((orDefault (lookupSerializer c.serializers 0 body).1).Serialize body).2 = none) :
    (c.handleResponse writer request response).writer.header.get HeaderContentType =
        some ((writer.header.get HeaderContentType).getD [] ++
          (final.headers.GetAll HeaderContentType).1) ∧
      (final.headers.GetAll HeaderContentType).2 = true ∧
      (final.headers.GetAll HeaderContentType).1 ≠ [] ∧
      ∀ which, Call.ContentType which ∉ (c.handleResponse writer request response).calls := by
  have hcanon : final.headers.head.Canonical :=
    Header.canonical_of_perm hops.symm (canonical_headersAfter ops)
  have hsome : ((headersAfter ops).head.get HeaderContentType).isSome = true := by
    obtain ⟨op, hop, hop1⟩ := hset
    exact foldl_get_isSome ops _ _ (Or.inr ⟨op, hop, canonical_of_sameLetters _ hop1⟩)
  obtain ⟨vs, hvs0⟩ := Option.isSome_iff_exists.mp hsome
  have hvs : final.headers.head.get HeaderContentType = some vs :=
    Header.get_of_mem _ _ _ hcanon.1 (hops.symm.subset (Header.mem_of_get _ _ _ hvs0))
  have hne : vs ≠ [] := (hcanon.2 _ (Header.mem_of_get _ _ _ hvs)).2
  have hflag := applyHeaders_flag_set final.headers.head (false, writer.header) vs hvs hne
  have hget := applyHeaders_get final.headers.head (false, writer.header) HeaderContentType
    hcanon
  rw [hvs] at hget
  simp only at hget
  have hall : final.headers.GetAll HeaderContentType = (vs, true) := by
    unfold responseHeaders.GetAll
    rw [hvs]
  rw [hall]
  have hval := handleResponse_value c writer request request1 response final calls body
    hfinal hbody
  have hshape := filterResponses_shape c.outFilters 0 request response
  rw [hfinal] at hshape
  have hlook := lookupSerializer_shape c.serializers 0 body
  rw [hval]
  unfold serializeBody
  simp only [hflag]
  refine ⟨?_, trivial, hne, ?_⟩
  · rw [serializeWith_header _ _ _ _ _ _ _ _ hok]
    simp only [setSerializerType, if_true]
    exact hget
  · intro which hmem
    have hbase : Call.ContentType which ∉
        (calls ++ (lookupSerializer c.serializers 0 body).2 ++
          (typeCalls true ((lookupSerializer c.serializers 0 body).1.map Prod.fst) ++
            [Call.Serialize ((lookupSerializer c.serializers 0 body).1.map Prod.fst)]) :
          List (Call V)) := by
      intro hm
      simp only [typeCalls, if_true, List.nil_append, List.mem_append,
        List.mem_singleton] at hm
      rcases hm with (hm | hm) | hm
      · obtain ⟨j, r, hj⟩ := hshape _ hm
        cases hj
      · obtain ⟨j, hj⟩ := hlook _ hm
        cases hj
      · cases hm
    exact serializeWith_forall (fun x => x ≠ Call.ContentType which) _ _ _ _ _ _ _ _
      (fun x hx hxj => hbase (hxj ▸ hx)) (fun h => by cases h) _ hmem rfl

theorem handleResponse_explicit_content_type_witness :
    (pingPipeline.handleResponse typedWriter 1 htmlResponse).writer.header.get
        "Content-Type" = some ["text/css", "text/html"] := by
  have h := handleResponse_explicit_content_type pingPipeline typedWriter 1 1 htmlResponse
    htmlResponse [] "pong" [HeaderOp.Set "content-type" "text/html" []] rfl rfl
    (List.Perm.refl _) ⟨_, List.mem_singleton.mpr rfl, by unfold sameLetters; decide⟩ rfl
  exact h.1

/-! ## Slices and their backing arrays -/

theorem Heap.getD_set_same {α : Type} (h : Heap α) (i : Nat) (a : List α) (hi : i < h.length) :
    (h.set i a).getD i [] = a := by
  simp [List.getD_eq_getElem?_getD, List.getElem?_set_self hi]

theorem Heap.getD_set_ne {α : Type} (h : Heap α) (i j : Nat) (a : List α) (hij : i ≠ j) :
    (h.set i a).getD j [] = h.getD j [] := by
  simp [List.getD_eq_getElem?_getD, List.getElem?_set_ne hij]

theorem Heap.getD_append_left {α : Type} (h g : Heap α) (i : Nat) (hi : i < h.length) :
    (h ++ g).getD i [] = h.getD i [] := by
  simp [List.getD_eq_getElem?_getD, List.getElem?_append_left hi]

theorem Heap.getD_append_length {α : Type} (h : Heap α) (a : List α) :
    (h ++ [a]).getD h.length [] = a := by
  simp [List.getD_eq_getElem?_getD]

theorem Heap.set_getD_self {α : Type} (h : Heap α) (i : Nat) : h.set i (h.getD i []) = h := by
  by_cases hi : i < h.length
  · apply List.ext_getElem?
    intro j
    by_cases hij : i = j
    · subst hij
      rw [List.getElem?_set_self hi, List.getD_eq_getElem?_getD,
        List.getElem?_eq_getElem hi]
      rfl
    · rw [List.getElem?_set_ne hij]
  · exact List.set_eq_of_length_le (by omega)

theorem Heap.Extends.refl {α : Type} (h : Heap α) : h.Extends h :=
  ⟨le_refl _, fun _ _ => List.prefix_refl _⟩

theorem Heap.Extends.trans {α : Type} {h g k : Heap α} (h1 : h.Extends g) (h2 : g.Extends k) :
    h.Extends k :=
  ⟨le_trans h1.1 h2.1, fun i hi =>
    List.IsPrefix.trans (h1.2 i hi) (h2.2 i (lt_of_lt_of_le hi h1.1))⟩

theorem Heap.read_of_extends {α : Type} {h g : Heap α} (s : Slice) (hext : h.Extends g)
    (hs : h.InBounds s) : g.read s = h.read s := by
  unfold Heap.read
  rcases hs with hs | ⟨harr, hlen⟩
  · rw [hs]
    simp
  · obtain ⟨t, ht⟩ := hext.2 s.arr harr
    rw [← ht, List.take_append_of_le_length hlen]

theorem Heap.inBounds_of_extends {α : Type} {h g : Heap α} (s : Slice) (hext : h.Extends g)
    (hs : h.InBounds s) : g.InBounds s := by
  rcases hs with hs | ⟨harr, hlen⟩
  · exact Or.inl hs
  · right
    refine ⟨lt_of_lt_of_le harr hext.1, ?_⟩
    exact le_trans hlen (List.IsPrefix.length_le (hext.2 s.arr harr))

theorem Heap.inBounds_of_tight {α : Type} {h : Heap α} (s : Slice) (hs : h.Tight s) :
    h.InBounds s := by
  rcases hs with ⟨_, hlen⟩ | ⟨harr, hlen⟩
  · exact Or.inl hlen
  · exact Or.inr ⟨harr, by omega⟩

theorem Heap.read_length_of_tight {α : Type} {h : Heap α} (s : Slice) (hs : h.Tight s) :
    (h.read s).length = s.len := by
  unfold Heap.read
  rcases hs with ⟨_, hlen⟩ | ⟨_, hlen⟩
  · rw [hlen]
    simp
  · rw [List.length_take, hlen]
    simp

theorem Heap.read_eq_of_tight {α : Type} {h : Heap α} (s : Slice)
    (hs : s.arr < h.length ∧ (h.getD s.arr []).length = s.len) :
    h.read s = h.getD s.arr [] := by
  unfold Heap.read
  rw [← hs.2]
  exact List.take_length _

theorem Heap.extends_of_grown {α : Type} {h g : Heap α} {xs : List α} (hg : h.Grown xs g) :
    h.Extends g := by
  refine ⟨hg.1, fun i hi => ?_⟩
  rcases hg.2 i hi with h1 | h1
  · rw [h1]
  · rw [h1]
    exact List.prefix_append _ _

theorem Heap.append_grown {α : Type} [GoRuntime] {h0 h : Heap α} (G : List α) (s : Slice)
    (hg : h0.Grown G h) (hs : h0.Tight s) :
    h0.Grown G (h.append s G).1 ∧ h.Extends (h.append s G).1 ∧
      (h.append s G).1.InBounds (h.append s G).2 ∧
      (h.append s G).1.read (h.append s G).2 = h0.read s ++ G := by
  have hext := Heap.extends_of_grown hg
  have hread : h.read s = h0.read s :=
    Heap.read_of_extends s hext (Heap.inBounds_of_tight s hs)
  have hlen : (h0.read s).length = s.len := Heap.read_length_of_tight s hs
  unfold Heap.append
  split
  · rename_i hle
    rcases hs with ⟨hcap, hlen0⟩ | ⟨harr, hfull⟩
    · have hG : G = [] := by
        apply List.eq_nil_of_length_eq_zero
        omega
      subst hG
      have hsame : h.set s.arr (List.take s.len (h.getD s.arr []) ++ [] ++
          List.drop (s.len + ([] : List α).length) (h.getD s.arr [])) = h := by
        simp only [List.append_nil, List.length_nil, Nat.add_zero, List.take_append_drop]
        exact Heap.set_getD_self h s.arr
      simp only [hsame]
      refine ⟨hg, Heap.Extends.refl h, Or.inl (by simp [hlen0]), ?_⟩
      simp [Heap.read, hlen0]
    · have harr1 : s.arr < h.length := lt_of_lt_of_le harr hg.1
      have h0read : h0.read s = h0.getD s.arr [] := Heap.read_eq_of_tight s ⟨harr, hfull⟩
      have hnew : List.take s.len (h.getD s.arr []) ++ G ++
          List.drop (s.len + G.length) (h.getD s.arr []) = h0.getD s.arr [] ++ G := by
        rcases hg.2 s.arr harr with hA | hA
        · rw [hA, ← hfull, List.take_length, List.drop_of_length_le (by omega)]
          simp
        · rw [hA, ← hfull, List.take_append_of_le_length (le_refl _), List.take_length,
            List.drop_of_length_le (by simp)]
          simp
      simp only [hnew]
      refine ⟨⟨?_, ?_⟩, ⟨?_, ?_⟩, ?_, ?_⟩
      · rw [List.length_set]
        exact hg.1
      · intro i hi
        by_cases hia : s.arr = i
        · subst hia
          right
          exact Heap.getD_set_same h s.arr _ harr1
        · rw [Heap.getD_set_ne h s.arr i _ hia]
          exact hg.2 i hi
      · rw [List.length_set]
      · intro i hi
        by_cases hia : s.arr = i
        · subst hia
          rw [Heap.getD_set_same h s.arr _ harr1]
          rcases hg.2 s.arr harr with hA | hA
          · rw [hA]
            exact List.prefix_append _ _
          · rw [hA]
        · rw [Heap.getD_set_ne h s.arr i _ hia]
      · right
        simp only [List.length_set]
        refine ⟨harr1, ?_⟩
        rw [Heap.getD_set_same h s.arr _ harr1, List.length_append, hfull]
      · unfold Heap.read
        simp only
        rw [Heap.getD_set_same h s.arr _ harr1, ← hfull, ← List.length_append,
          List.take_length, List.take_length]
  · refine ⟨⟨?_, ?_⟩, ⟨?_, ?_⟩, ?_, ?_⟩
    · rw [List.length_append]
      have := hg.1
      omega
    · intro i hi
      rw [Heap.getD_append_left h _ i (lt_of_lt_of_le hi hg.1)]
      exact hg.2 i hi
    · rw [List.length_append]
      omega
    · intro i hi
      rw [Heap.getD_append_left h _ i hi]
    · right
      simp only [List.length_append, List.length_singleton]
      refine ⟨by omega, ?_⟩
      rw [Heap.getD_append_length, List.length_append, hread, hlen]
    · unfold Heap.read at hread ⊢
      simp only
      rw [Heap.getD_append_length]
      have : s.len + G.length = (List.take s.len (h.getD s.arr []) ++ G).length := by
        rw [List.length_append, hread]
        unfold Heap.read at hlen
        rw [hlen]
      rw [this, List.take_length, hread]

/-! ## Building the pipelines: the response-filter chains -/

theorem BuiltFor.of_extends {RF PF H S : Type} {w0 : World RF PF H S} {h g : Heap PF}
    {spec : Nat} {route : Route H S} (hb : BuiltFor w0 h spec route) (hext : h.Extends g) :
    BuiltFor w0 g spec route := by
  obtain ⟨c, hc, hin, hread⟩ := hb
  exact ⟨c, hc, Heap.inBounds_of_extends _ hext hin,
    (Heap.read_of_extends _ hext hin).trans hread⟩

theorem buildController_out {RF PF H S : Type} [GoRuntime] (w0 w w1 : World RF PF H S)
    (spec : Nat) (router router1 : Router H S)
    (hcfg : w.SameConfig w0)
    (hg : w0.outs.Grown (w0.outs.read w0.srv.outFilters) w.outs)
    (htight : ∀ c ∈ w0.specs, w0.outs.Tight c.out)
    (hglobal : w0.outs.InBounds w0.srv.outFilters)
    (hbuild : server.buildController w spec router = .ok (w1, router1)) :
    w1.SameConfig w0 ∧ w0.outs.Grown (w0.outs.read w0.srv.outFilters) w1.outs ∧
      w.outs.Extends w1.outs ∧
      router1.NotFoundHandler = router.NotFoundHandler ∧
      router1.MethodNotAllowedHandler = router.MethodNotAllowedHandler ∧
      ∃ route, router1.routes = router.routes ++ [route] ∧ BuiltFor w0 w1.outs spec route := by
  unfold server.buildController at hbuild
  rcases hc : w.specs.get? spec with _ | c
  · rw [hc] at hbuild
    cases hbuild
  · rw [hc] at hbuild
    simp only at hbuild
    split at hbuild
    · cases hbuild
    · simp only [Except.ok.injEq, Prod.mk.injEq] at hbuild
      obtain ⟨hw1, hr1⟩ := hbuild
      subst hw1 hr1
      have hc0 : w0.specs.get? spec = some c := by
        rw [← hcfg.1]
        exact hc
      have hmem : c ∈ w0.specs := List.get?_mem hc0
      have hG : w.outs.read w.srv.outFilters = w0.outs.read w0.srv.outFilters := by
        rw [hcfg.2.2]
        exact Heap.read_of_extends _ (Heap.extends_of_grown hg) hglobal
      have hstep := Heap.append_grown (w0.outs.read w0.srv.outFilters) c.out hg
        (htight c hmem)
      rw [hG]
      refine ⟨⟨hcfg.1, hcfg.2.1, hcfg.2.2⟩, hstep.1, hstep.2.1, rfl, rfl, _, rfl, ?_⟩
      exact ⟨c, hc0, hstep.2.2.1, hstep.2.2.2⟩

theorem buildAll_out {RF PF H S : Type} [GoRuntime] (w0 : World RF PF H S)
    (controllers : List Nat) (w w1 : World RF PF H S) (router router1 : Router H S)
    (hcfg : w.SameConfig w0)
    (hg : w0.outs.Grown (w0.outs.read w0.srv.outFilters) w.outs)
    (htight : ∀ c ∈ w0.specs, w0.outs.Tight c.out)
    (hglobal : w0.outs.InBounds w0.srv.outFilters)
    (hbuild : server.buildAll w controllers router = .ok (w1, router1)) :
    w1.SameConfig w0 ∧ w0.outs.Grown (w0.outs.read w0.srv.outFilters) w1.outs ∧
      w.outs.Extends w1.outs ∧
      router1.NotFoundHandler = router.NotFoundHandler ∧
      router1.MethodNotAllowedHandler = router.MethodNotAllowedHandler ∧
      ∃ routes, router1.routes = router.routes ++ routes ∧
        List.Forall₂ (BuiltFor w0 w1.outs) controllers routes := by
  induction controllers generalizing w router with
  | nil =>
    simp only [server.buildAll, Except.ok.injEq, Prod.mk.injEq] at hbuild
    obtain ⟨hw, hr⟩ := hbuild
    subst hw hr
    exact ⟨hcfg, hg, Heap.Extends.refl _, rfl, rfl, [], by simp, List.Forall₂.nil⟩
  | cons spec rest ih =>
    simp only [server.buildAll] at hbuild
    rcases hone : server.buildController w spec router with e | ⟨w2, router2⟩
    · rw [hone] at hbuild
      cases hbuild
    · rw [hone] at hbuild
      simp only at hbuild
      obtain ⟨hcfg2, hg2, hext2, hnf2, hmna2, route, hroute, hbuilt⟩ :=
        buildController_out w0 w w2 spec router router2 hcfg hg htight hglobal hone
      obtain ⟨hcfg1, hg1, hext1, hnf1, hmna1, routes, hroutes, hall⟩ :=
        ih w2 router2 hcfg2 hg2 hbuild
      refine ⟨hcfg1, hg1, Heap.Extends.trans hext2 hext1, hnf1.trans hnf2,
        hmna1.trans hmna2, route :: routes, ?_, ?_⟩
      · rw [hroutes, hroute]
        simp
      · exact List.Forall₂.cons (hbuilt.of_extends hext1) hall

theorem startErrorController_out {RF PF H S : Type} [GoRuntime] (w0 : World RF PF H S)
    (state state1 : World RF PF H S × Router H S) (handler : Option Nat)
    (useFilt : serverExtras → Bool) (slot : Slot)
    (hcfg : state.1.SameConfig w0)
    (hg : w0.outs.Grown (w0.outs.read w0.srv.outFilters) state.1.outs)
    (htight : ∀ c ∈ w0.errorSpecs, w0.outs.Tight c.out)
    (hglobal : w0.outs.InBounds w0.srv.outFilters)
    (hbuild : server.startErrorController state handler useFilt slot = .ok state1) :
    state1.1.SameConfig w0 ∧ w0.outs.Grown (w0.outs.read w0.srv.outFilters) state1.1.outs ∧
      state.1.outs.Extends state1.1.outs ∧ state1.2.routes = state.2.routes := by
  unfold server.startErrorController at hbuild
  cases handler with
  | none =>
    simp only [Except.ok.injEq] at hbuild
    subst hbuild
    exact ⟨hcfg, hg, Heap.Extends.refl _, rfl⟩
  | some spec =>
    simp only at hbuild
    rcases hex : state.1.srv.extras with _ | e
    · rw [hex] at hbuild
      cases hbuild
    · rw [hex] at hbuild
      simp only at hbuild
      unfold server.buildErrorController at hbuild
      rcases hc : state.1.errorSpecs.get? spec with _ | c
      · rw [hc] at hbuild
        cases hbuild
      · rw [hc] at hbuild
        simp only [Except.ok.injEq] at hbuild
        subst hbuild
        have hc0 : w0.errorSpecs.get? spec = some c := by
          rw [← hcfg.2.1]
          exact hc
        have hmem : c ∈ w0.errorSpecs := List.get?_mem hc0
        have hG : state.1.outs.read state.1.srv.outFilters =
            w0.outs.read w0.srv.outFilters := by
          rw [hcfg.2.2]
          exact Heap.read_of_extends _ (Heap.extends_of_grown hg) hglobal
        have hstep := Heap.append_grown (w0.outs.read w0.srv.outFilters) c.out hg
          (htight c hmem)
        have hroutes : ∀ (built : controller Slice Slice H S),
            (match slot with
              | Slot.NotFoundHandler => { state.2 with NotFoundHandler := some built }
              | Slot.MethodNotAllowedHandler =>
                { state.2 with MethodNotAllowedHandler := some built }).routes =
              state.2.routes := by
          intro built
          cases slot <;> rfl
        refine ⟨⟨hcfg.1, hcfg.2.1, hcfg.2.2⟩, ?_, ?_, hroutes _⟩
        · simp only
          split
          · rw [hG]
            exact hstep.1
          · exact hg
        · simp only
          split
          · rw [hG]
            exact hstep.2.1
          · exact Heap.Extends.refl _

theorem Start_out {RF PF H S : Type} [GoRuntime] (w : World RF PF H S)
    (router : Option (Router H S)) (s : Serving RF PF H S)
    (htight : ∀ c ∈ w.specs, w.outs.Tight c.out)
    (htightE : ∀ c ∈ w.errorSpecs, w.outs.Tight c.out)
    (hglobal : w.outs.InBounds w.srv.outFilters)
    (hstart : server.Start w router = .ok s) :
    ∃ routes, s.Handler.routes = (router.getD NewRouter).routes ++ routes ∧
      List.Forall₂ (BuiltFor w s.world.outs) w.srv.controllers routes := by
  unfold server.Start at hstart
  rcases hb : server.build w (router.getD NewRouter) with e | built
  · rw [hb] at hstart
    cases hstart
  rw [hb] at hstart
  simp only at hstart
  rcases h404 : server.startErrorController built built.1.srv.handler404
      serverExtras.useFilt404 Slot.NotFoundHandler with e | built404
  · rw [h404] at hstart
    cases hstart
  rw [h404] at hstart
  simp only at hstart
  rcases h405 : server.startErrorController built404 built404.1.srv.handler405
      serverExtras.useFilt405 Slot.MethodNotAllowedHandler with e | built405
  · rw [h405] at hstart
    cases hstart
  rw [h405] at hstart
  simp only at hstart
  rcases hex : built405.1.srv.extras with _ | e
  · rw [hex] at hstart
    cases hstart
  rw [hex] at hstart
  simp only [Except.ok.injEq] at hstart
  subst hstart
  unfold server.build at hb
  split at hb
  · cases hb
  have hgrown0 : w.outs.Grown (w.outs.read w.srv.outFilters) w.outs :=
    ⟨le_refl _, fun _ _ => Or.inl rfl⟩
  obtain ⟨hcfg1, hg1, _, _, _, routes, hroutes, hall⟩ :=
    buildAll_out w w.srv.controllers w built.1 (router.getD NewRouter) built.2
      ⟨rfl, rfl, rfl⟩ hgrown0 htight hglobal hb
  obtain ⟨hcfg2, hg2, hext2, hr2⟩ :=
    startErrorController_out w built built404 _ _ _ hcfg1 hg1 htightE hglobal h404
  obtain ⟨_, _, hext3, hr3⟩ :=
    startErrorController_out w built404 built405 _ _ _ hcfg2 hg2 htightE hglobal h405
  refine ⟨routes, ?_, ?_⟩
  · simp only
    rw [hr3, hr2, hroutes]
  · exact hall.imp (fun _ _ hbuilt =>
      (hbuilt.of_extends hext2).of_extends hext3)

/-! ## Setting up a server: the response-filter slices -/

theorem Heap.append_nil {α : Type} [GoRuntime] (h : Heap α) (s : Slice)
    (hle : s.len ≤ s.cap) : h.append s [] = (h, s) := by
  unfold Heap.append
  rw [if_pos (by simpa using hle)]
  simp only [List.append_nil, List.length_nil, Nat.add_zero, List.take_append_drop]
  rw [Heap.set_getD_self]

theorem Heap.append_tight {α : Type} [GoRuntime] (h : Heap α) (s : Slice) (xs : List α)
    (hs : h.Tight s) :
    (h.append s xs).1.Tight (h.append s xs).2 ∧
      (h.append s xs).1.read (h.append s xs).2 = h.read s ++ xs ∧
      ∀ t, h.Tight t → s.Apart t →
        (h.append s xs).1.Tight t ∧ (h.append s xs).1.read t = h.read t ∧
          (h.append s xs).2.Apart t := by
  have hlen : (h.read s).length = s.len := Heap.read_length_of_tight s hs
  by_cases hnil : xs = [] ∧ s.len ≤ s.cap
  · obtain ⟨hxs, hle⟩ := hnil
    subst hxs
    rw [Heap.append_nil h s hle]
    rw [List.append_nil]
    exact ⟨hs, rfl, fun t ht hap => ⟨ht, rfl, hap⟩⟩
  unfold Heap.append
  split
  · rename_i hle
    by_cases hxs : xs = []
    · subst hxs
      exact absurd ⟨rfl, by simpa using hle⟩ hnil
    · have hpos : 0 < xs.length := List.length_pos.mpr hxs
      rcases hs with ⟨hcap, _⟩ | ⟨harr, hfull⟩
      · omega
      · have hnew : List.take s.len (h.getD s.arr []) ++ xs ++
            List.drop (s.len + xs.length) (h.getD s.arr []) = h.getD s.arr [] ++ xs := by
          rw [← hfull, List.take_length, List.drop_of_length_le (by omega)]
          simp
        simp only [hnew]
        refine ⟨Or.inr ⟨?_, ?_⟩, ?_, ?_⟩
        · rw [List.length_set]
          exact harr
        · rw [Heap.getD_set_same h s.arr _ harr, List.length_append, hfull]
        · unfold Heap.read
          simp only
          rw [Heap.getD_set_same h s.arr _ harr, ← hfull, ← List.length_append,
            List.take_length, List.take_length]
        · intro t ht hap
          rcases hap with ⟨hcap, _⟩ | ⟨htcap, htlen⟩ | hne
          · omega
          · refine ⟨Or.inl ⟨htcap, htlen⟩, ?_, Or.inr (Or.inl ⟨htcap, htlen⟩)⟩
            unfold Heap.read
            rw [htlen]
            simp
          · have hget : (h.set s.arr (h.getD s.arr [] ++ xs)).getD t.arr [] =
                h.getD t.arr [] := Heap.getD_set_ne h s.arr t.arr _ hne
            refine ⟨?_, ?_, Or.inr (Or.inr hne)⟩
            · rcases ht with ht | ⟨htarr, htfull⟩
              · exact Or.inl ht
              · right
                rw [List.length_set, hget]
                exact ⟨htarr, htfull⟩
            · unfold Heap.read
              rw [hget]
  · refine ⟨Or.inr ⟨?_, ?_⟩, ?_, ?_⟩
    · simp
    · simp only
      rw [Heap.getD_append_length, List.length_append, hlen]
    · unfold Heap.read at hlen ⊢
      simp only
      rw [Heap.getD_append_length]
      have : s.len + xs.length = (List.take s.len (h.getD s.arr []) ++ xs).length := by
        rw [List.length_append, hlen]
      rw [this, List.take_length]
    · intro t ht hap
      rcases ht with ⟨htcap, htlen⟩ | ⟨htarr, htfull⟩
      · refine ⟨Or.inl ⟨htcap, htlen⟩, ?_, Or.inr (Or.inl ⟨htcap, htlen⟩)⟩
        unfold Heap.read
        rw [htlen]
        simp
      · have hget : ∀ a, (h ++ [a]).getD t.arr [] = h.getD t.arr [] :=
          fun a => Heap.getD_append_left h _ t.arr htarr
        refine ⟨Or.inr ⟨?_, ?_⟩, ?_, Or.inr (Or.inr ?_)⟩
        · rw [List.length_append]
          omega
        · rw [hget]
          exact htfull
        · unfold Heap.read
          simp only
          rw [hget]
        · simp only
          omega

theorem get?_set_of_get? {α : Type} {l : List α} {p q : Nat} {c d : α}
    (h : l.get? p = some c) : (l.set p d).get? q = if q = p then some d else l.get? q := by
  have hp : p < l.length := by
    rw [List.get?_eq_getElem?] at h
    exact (List.getElem?_eq_some_iff.mp h).1
  simp only [List.get?_eq_getElem?, List.getElem?_set, hp, if_true]
  by_cases hpq : p = q
  · subst hpq
    simp
  · rw [if_neg hpq, if_neg (fun e => hpq e.symm)]

theorem OutInv.same {RF PF H S : Type} {w w1 : World RF PF H S} {c c1 : Owner → List PF}
    (hinv : OutInv w c) (houts : w1.outs = w.outs)
    (hsl : ∀ o, w1.outSlice o = w.outSlice o) (hc : ∀ o, c1 o = c o) : OutInv w1 c1 := by
  refine ⟨?_, ?_, ?_⟩
  · intro o s hs
    rw [hsl] at hs
    rw [houts, hc]
    exact hinv.1 o s hs
  · intro o1 o2 s1 s2 hne h1 h2
    rw [hsl] at h1 h2
    exact hinv.2.1 o1 o2 s1 s2 hne h1 h2
  · intro o hs
    rw [hsl] at hs
    rw [hc]
    exact hinv.2.2 o hs

theorem Slice.Apart.symm {s t : Slice} (h : s.Apart t) : t.Apart s := by
  rcases h with h | h | h
  · exact Or.inr (Or.inl h)
  · exact Or.inl h
  · exact Or.inr (Or.inr (fun e => h e.symm))

theorem OutInv.append {RF PF H S : Type} [GoRuntime] {w w1 : World RF PF H S}
    {c c1 : Owner → List PF} (o : Owner) (s : Slice) (xs : List PF)
    (hinv : OutInv w c) (hs : w.outSlice o = some s)
    (houts : w1.outs = (w.outs.append s xs).1)
    (hsl : ∀ o1, w1.outSlice o1 = if o1 = o then some (w.outs.append s xs).2 else w.outSlice o1)
    (hc : ∀ o1, c1 o1 = if o1 = o then c o ++ xs else c o1) : OutInv w1 c1 := by
  have hstep := Heap.append_tight w.outs s xs (hinv.1 o s hs).1
  have hother : ∀ o1 t, o1 ≠ o → w.outSlice o1 = some t →
      w1.outs.Tight t ∧ w1.outs.read t = c o1 ∧ (w.outs.append s xs).2.Apart t := by
    intro o1 t hne ht
    have h1 := hstep.2.2 t (hinv.1 o1 t ht).1 (hinv.2.1 o o1 s t (fun e => hne e.symm) hs ht)
    rw [houts]
    exact ⟨h1.1, h1.2.1.trans (hinv.1 o1 t ht).2, h1.2.2⟩
  refine ⟨?_, ?_, ?_⟩
  · intro o1 t ht
    rw [hsl] at ht
    rw [hc]
    by_cases ho : o1 = o
    · rw [if_pos ho] at ht ⊢
      simp only [Option.some.injEq] at ht
      subst ht
      rw [houts]
      exact ⟨hstep.1, hstep.2.1.trans (by rw [(hinv.1 o s hs).2])⟩
    · rw [if_neg ho] at ht ⊢
      exact ⟨(hother o1 t ho ht).1, (hother o1 t ho ht).2.1⟩
  · intro o1 o2 s1 s2 hne h1 h2
    rw [hsl] at h1 h2
    by_cases ho1 : o1 = o
    · rw [if_pos ho1] at h1
      simp only [Option.some.injEq] at h1
      subst h1
      have ho2 : o2 ≠ o := fun e => hne (ho1.trans e.symm)
      rw [if_neg ho2] at h2
      exact (hother o2 s2 ho2 h2).2.2
    · rw [if_neg ho1] at h1
      by_cases ho2 : o2 = o
      · rw [if_pos ho2] at h2
        simp only [Option.some.injEq] at h2
        subst h2
        exact (hother o1 s1 ho1 h1).2.2.symm
      · rw [if_neg ho2] at h2
        exact hinv.2.1 o1 o2 s1 s2 hne h1 h2
  · intro o1 hnone
    rw [hsl] at hnone
    by_cases ho : o1 = o
    · rw [if_pos ho] at hnone
      cases hnone
    · rw [if_neg ho] at hnone
      rw [hc, if_neg ho]
      exact hinv.2.2 o1 hnone

theorem OutInv.new {RF PF H S : Type} {w w1 : World RF PF H S} {c c1 : Owner → List PF}
    (o : Owner) (hinv : OutInv w c) (hnone : w.outSlice o = none)
    (houts : w1.outs = w.outs)
    (hsl : ∀ o1, w1.outSlice o1 = if o1 = o then some Slice.nil else w.outSlice o1)
    (hc : ∀ o1, c1 o1 = c o1) : OutInv w1 c1 := by
  have hnil : ∀ (h : Heap PF), h.Tight Slice.nil := fun _ => Or.inl ⟨rfl, rfl⟩
  refine ⟨?_, ?_, ?_⟩
  · intro o1 t ht
    rw [hsl] at ht
    rw [hc, houts]
    by_cases ho : o1 = o
    · rw [if_pos ho] at ht
      simp only [Option.some.injEq] at ht
      subst ht
      refine ⟨hnil _, ?_⟩
      rw [ho, hinv.2.2 o hnone]
      simp [Heap.read, Slice.nil]
    · rw [if_neg ho] at ht
      exact hinv.1 o1 t ht
  · intro o1 o2 s1 s2 hne h1 h2
    rw [hsl] at h1 h2
    by_cases ho1 : o1 = o
    · rw [if_pos ho1] at h1
      simp only [Option.some.injEq] at h1
      subst h1
      exact Or.inl ⟨rfl, rfl⟩
    · rw [if_neg ho1] at h1
      by_cases ho2 : o2 = o
      · rw [if_pos ho2] at h2
        simp only [Option.some.injEq] at h2
        subst h2
        exact Or.inr (Or.inl ⟨rfl, rfl⟩)
      · rw [if_neg ho2] at h2
        exact hinv.2.1 o1 o2 s1 s2 hne h1 h2
  · intro o1 hn
    rw [hsl] at hn
    by_cases ho : o1 = o
    · rw [if_pos ho] at hn
      cases hn
    · rw [if_neg ho] at hn
      rw [hc]
      exact hinv.2.2 o1 hn

theorem outSlice_set_spec {RF PF H S : Type} (w w1 : World RF PF H S) (p : Nat)
    (c d : controllerSpec H) (s : Slice) (hget : w.specs.get? p = some c)
    (hspecs : w1.specs = w.specs.set p d) (herr : w1.errorSpecs = w.errorSpecs)
    (hsrv : w1.srv.outFilters = w.srv.outFilters) (hout : d.out = s) :
    ∀ o, w1.outSlice o = if o = Owner.spec p then some s else w.outSlice o := by
  intro o
  subst hout
  cases o with
  | server => simp [World.outSlice, hsrv]
  | spec q =>
    simp only [World.outSlice, hspecs, get?_set_of_get? hget, Owner.spec.injEq]
    by_cases hq : q = p
    · simp [hq]
    · simp [hq]
  | errorSpec q => simp [World.outSlice, herr]

theorem outSlice_set_errorSpec {RF PF H S : Type} (w w1 : World RF PF H S) (p : Nat)
    (c d : errorControllerSpec H) (s : Slice) (hget : w.errorSpecs.get? p = some c)
    (hspecs : w1.specs = w.specs) (herr : w1.errorSpecs = w.errorSpecs.set p d)
    (hsrv : w1.srv.outFilters = w.srv.outFilters) (hout : d.out = s) :
    ∀ o, w1.outSlice o = if o = Owner.errorSpec p then some s else w.outSlice o := by
  intro o
  subst hout
  cases o with
  | server => simp [World.outSlice, hsrv]
  | spec q => simp [World.outSlice, hspecs]
  | errorSpec q =>
    simp only [World.outSlice, herr, get?_set_of_get? hget, Owner.errorSpec.injEq]
    by_cases hq : q = p
    · simp [hq]
    · simp [hq]

theorem outSlice_same_of_set {RF PF H S : Type} (w w1 : World RF PF H S) (o1 : Owner)
    (s : Slice) (hs : w.outSlice o1 = some s)
    (h : ∀ o, w1.outSlice o = if o = o1 then some s else w.outSlice o) :
    ∀ o, w1.outSlice o = w.outSlice o := by
  intro o
  rw [h]
  by_cases ho : o = o1
  · rw [if_pos ho, ho, hs]
  · rw [if_neg ho]

theorem outSlice_of_srv {RF PF H S : Type} (w w1 : World RF PF H S)
    (hspecs : w1.specs = w.specs) (herr : w1.errorSpecs = w.errorSpecs)
    (hsrv : w1.srv.outFilters = w.srv.outFilters) : ∀ o, w1.outSlice o = w.outSlice o := by
  intro o
  cases o <;> simp [World.outSlice, hspecs, herr, hsrv]

theorem Action.run_outInv {RF PF H S : Type} [GoRuntime] (w w1 : World RF PF H S)
    (c : Owner → List PF) (a : Action RF PF H S) (hinv : OutInv w c)
    (hrun : a.run w = .ok w1) : OutInv w1 (fun o => c o ++ a.responseFilters o) := by
  cases a with
  | NewController path handler =>
    simp only [Action.run, Except.ok.injEq] at hrun
    subst hrun
    refine OutInv.new (Owner.spec w.specs.length) hinv ?_ rfl ?_ ?_
    · simp [World.outSlice]
    · intro o
      cases o with
      | server => simp [World.outSlice, Swrv.NewController]
      | spec q =>
        simp only [World.outSlice, Swrv.NewController, Owner.spec.injEq,
          List.get?_eq_getElem?]
        by_cases hq : q = w.specs.length
        · subst hq
          simp [Slice.nil]
        · rw [if_neg hq]
          by_cases hlt : q < w.specs.length
          · rw [List.getElem?_append_left hlt]
          · rw [List.getElem?_eq_none (by simp; omega), List.getElem?_eq_none (by omega)]
      | errorSpec q => simp [World.outSlice, Swrv.NewController]
    · intro o
      cases o <;> simp [Action.responseFilters]
  | NewErrorController handler =>
    simp only [Action.run, Except.ok.injEq] at hrun
    subst hrun
    refine OutInv.new (Owner.errorSpec w.errorSpecs.length) hinv ?_ rfl ?_ ?_
    · simp [World.outSlice]
    · intro o
      cases o with
      | server => simp [World.outSlice, Swrv.NewErrorController]
      | spec q => simp [World.outSlice, Swrv.NewErrorController]
      | errorSpec q =>
        simp only [World.outSlice, Swrv.NewErrorController, Owner.errorSpec.injEq,
          List.get?_eq_getElem?]
        by_cases hq : q = w.errorSpecs.length
        · subst hq
          simp [Slice.nil]
        · rw [if_neg hq]
          by_cases hlt : q < w.errorSpecs.length
          · rw [List.getElem?_append_left hlt]
          · rw [List.getElem?_eq_none (by simp; omega), List.getElem?_eq_none (by omega)]
    · intro o
      cases o <;> simp [Action.responseFilters]
  | SpecWithRequestFilters spec filters =>
    simp only [Action.run, memoryAfter, controllerSpec.WithRequestFilters] at hrun
    rcases hc : w.specs.get? spec with _ | d
    · rw [hc] at hrun
      cases hrun
    · rw [hc] at hrun
      simp only [Except.ok.injEq] at hrun
      subst hrun
      have hd : w.outSlice (Owner.spec spec) = some d.out := by
        simp only [World.outSlice, hc, Option.map_some']
      refine OutInv.same hinv rfl ?_ ?_
      · refine outSlice_same_of_set w _ (Owner.spec spec) d.out hd ?_
        exact outSlice_set_spec w _ spec d _ d.out hc rfl rfl rfl rfl
      · intro o
        cases o <;> simp [Action.responseFilters]
  | SpecWithResponseFilters spec filters =>
    simp only [Action.run, memoryAfter, controllerSpec.WithResponseFilters] at hrun
    rcases hc : w.specs.get? spec with _ | d
    · rw [hc] at hrun
      cases hrun
    · rw [hc] at hrun
      simp only [Except.ok.injEq] at hrun
      subst hrun
      have hd : w.outSlice (Owner.spec spec) = some d.out := by
        simp only [World.outSlice, hc, Option.map_some']
      refine OutInv.append (Owner.spec spec) d.out filters hinv hd rfl ?_ ?_
      · exact outSlice_set_spec w _ spec d _ _ hc rfl rfl rfl rfl
      intro o
      cases o with
      | server => simp [Action.responseFilters]
      | errorSpec q => simp [Action.responseFilters]
      | spec q =>
        simp only [Action.responseFilters, Owner.spec.injEq]
        by_cases hq : spec = q
        · subst hq
          simp
        · rw [if_neg hq, if_neg (fun e => hq e.symm)]
          simp
  | ForMethods spec methods =>
    simp only [Action.run, memoryAfter, controllerSpec.ForMethods] at hrun
    rcases hc : w.specs.get? spec with _ | d
    · rw [hc] at hrun
      cases hrun
    · rw [hc] at hrun
      simp only [Except.ok.injEq] at hrun
      subst hrun
      have hd : w.outSlice (Owner.spec spec) = some d.out := by
        simp only [World.outSlice, hc, Option.map_some']
      refine OutInv.same hinv rfl ?_ ?_
      · refine outSlice_same_of_set w _ (Owner.spec spec) d.out hd ?_
        exact outSlice_set_spec w _ spec d _ d.out hc rfl rfl rfl rfl
      · intro o
        cases o <;> simp [Action.responseFilters]
  | WithRequiredHeader spec header value =>
    simp only [Action.run, memoryAfter, controllerSpec.WithRequiredHeader] at hrun
    rcases hc : w.specs.get? spec with _ | d
    · rw [hc] at hrun
      cases hrun
    · rw [hc] at hrun
      simp only [Except.ok.injEq] at hrun
      subst hrun
      have hd : w.outSlice (Owner.spec spec) = some d.out := by
        simp only [World.outSlice, hc, Option.map_some']
      refine OutInv.same hinv rfl ?_ ?_
      · refine outSlice_same_of_set w _ (Owner.spec spec) d.out hd ?_
        exact outSlice_set_spec w _ spec d _ d.out hc rfl rfl rfl rfl
      · intro o
        cases o <;> simp [Action.responseFilters]
  | ErrorWithRequestFilters spec filters =>
    simp only [Action.run, memoryAfter, errorControllerSpec.WithRequestFilters] at hrun
    rcases hc : w.errorSpecs.get? spec with _ | d
    · rw [hc] at hrun
      cases hrun
    · rw [hc] at hrun
      simp only [Except.ok.injEq] at hrun
      subst hrun
      have hd : w.outSlice (Owner.errorSpec spec) = some d.out := by
        simp only [World.outSlice, hc, Option.map_some']
      refine OutInv.same hinv rfl ?_ ?_
      · refine outSlice_same_of_set w _ (Owner.errorSpec spec) d.out hd ?_
        exact outSlice_set_errorSpec w _ spec d _ d.out hc rfl rfl rfl rfl
      · intro o
        cases o <;> simp [Action.responseFilters]
  | ErrorWithResponseFilters spec filters =>
    simp only [Action.run, memoryAfter, errorControllerSpec.WithResponseFilters] at hrun
    rcases hc : w.errorSpecs.get? spec with _ | d
    · rw [hc] at hrun
      cases hrun
    · rw [hc] at hrun
      simp only [Except.ok.injEq] at hrun
      subst hrun
      have hd : w.outSlice (Owner.errorSpec spec) = some d.out := by
        simp only [World.outSlice, hc, Option.map_some']
      refine OutInv.append (Owner.errorSpec spec) d.out filters hinv hd rfl ?_ ?_
      · exact outSlice_set_errorSpec w _ spec d _ _ hc rfl rfl rfl rfl
      intro o
      cases o with
      | server => simp [Action.responseFilters]
      | spec q => simp [Action.responseFilters]
      | errorSpec q =>
        simp only [Action.responseFilters, Owner.errorSpec.injEq]
        by_cases hq : spec = q
        · subst hq
          simp
        · rw [if_neg hq, if_neg (fun e => hq e.symm)]
          simp
  | WithControllers spec =>
    simp only [Action.run, server.WithControllers] at hrun
    split at hrun
    · cases hrun
    · simp only [Except.ok.injEq] at hrun
      subst hrun
      refine OutInv.same hinv rfl (outSlice_of_srv w _ rfl rfl rfl) ?_
      intro o
      cases o <;> simp [Action.responseFilters]
  | WithRequestFilters filters =>
    simp only [Action.run, server.WithRequestFilters] at hrun
    split at hrun
    · cases hrun
    · simp only [Except.ok.injEq] at hrun
      subst hrun
      refine OutInv.same hinv rfl (outSlice_of_srv w _ rfl rfl rfl) ?_
      intro o
      cases o <;> simp [Action.responseFilters]
  | WithResponseFilters filters =>
    simp only [Action.run, server.WithResponseFilters] at hrun
    split at hrun
    · cases hrun
    · simp only [Except.ok.injEq] at hrun
      subst hrun
      refine OutInv.append Owner.server w.srv.outFilters filters hinv rfl rfl ?_ ?_
      · intro o
        cases o <;> simp [World.outSlice]
      · intro o
        cases o <;> simp [Action.responseFilters]
  | WithObjectSerializers serializers =>
    simp only [Action.run, server.WithObjectSerializers] at hrun
    split at hrun
    · cases hrun
    · simp only [Except.ok.injEq] at hrun
      subst hrun
      refine OutInv.same hinv rfl (outSlice_of_srv w _ rfl rfl rfl) ?_
      intro o
      cases o <;> simp [Action.responseFilters]
  | WithReadTimeout timeout =>
    simp only [Action.run, server.WithReadTimeout] at hrun
    split at hrun
    · cases hrun
    · simp only [Except.ok.injEq] at hrun
      subst hrun
      refine OutInv.same hinv rfl (outSlice_of_srv w _ rfl rfl rfl) ?_
      intro o
      cases o <;> simp [Action.responseFilters]
  | WithWriteTimeout timeout =>
    simp only [Action.run, server.WithWriteTimeout] at hrun
    split at hrun
    · cases hrun
    · simp only [Except.ok.injEq] at hrun
      subst hrun
      refine OutInv.same hinv rfl (outSlice_of_srv w _ rfl rfl rfl) ?_
      intro o
      cases o <;> simp [Action.responseFilters]
  | With404Controller useGlobalFilters spec =>
    simp only [Action.run, server.With404Controller] at hrun
    split at hrun
    · cases hrun
    · simp only [Except.ok.injEq] at hrun
      subst hrun
      refine OutInv.same hinv rfl (outSlice_of_srv w _ rfl rfl rfl) ?_
      intro o
      cases o <;> simp [Action.responseFilters]
  | With405Controller useGlobalFilters spec =>
    simp only [Action.run, server.With405Controller] at hrun
    split at hrun
    · cases hrun
    · simp only [Except.ok.injEq] at hrun
      subst hrun
      refine OutInv.same hinv rfl (outSlice_of_srv w _ rfl rfl rfl) ?_
      intro o
      cases o <;> simp [Action.responseFilters]

theorem NewServer_outInv {RF PF H S : Type} (host : String) (port : Nat) :
    OutInv (NewServer host port : World RF PF H S) (fun _ => []) := by
  refine ⟨?_, ?_, ?_⟩
  · intro o s hs
    cases o with
    | server =>
      simp only [World.outSlice, NewServer, Option.some.injEq] at hs
      subst hs
      exact ⟨Or.inl ⟨rfl, rfl⟩, rfl⟩
    | spec q => simp [World.outSlice, NewServer] at hs
    | errorSpec q => simp [World.outSlice, NewServer] at hs
  · intro o1 o2 s1 s2 hne h1 h2
    cases o1 with
    | server =>
      cases o2 with
      | server => exact absurd rfl hne
      | spec q => simp [World.outSlice, NewServer] at h2
      | errorSpec q => simp [World.outSlice, NewServer] at h2
    | spec q => simp [World.outSlice, NewServer] at h1
    | errorSpec q => simp [World.outSlice, NewServer] at h1
  · intro o _
    rfl

theorem setup_outInv {RF PF H S : Type} [GoRuntime] (actions : List (Action RF PF H S))
    (w w1 : World RF PF H S) (c : Owner → List PF) (hinv : OutInv w c)
    (hsetup : setup w actions = .ok w1) :
    OutInv w1 (fun o => c o ++ responseFiltersOf actions o) := by
  induction actions generalizing w c with
  | nil =>
    simp only [setup, Except.ok.injEq] at hsetup
    subst hsetup
    exact OutInv.same hinv rfl (fun _ => rfl) (fun o => by simp [responseFiltersOf])
  | cons a rest ih =>
    simp only [setup] at hsetup
    rcases hrun : a.run w with e | w2
    · rw [hrun] at hsetup
      cases hsetup
    · rw [hrun] at hsetup
      simp only at hsetup
      have h2 := ih w2 _ (Action.run_outInv w w2 c a hinv hrun) hsetup
      exact OutInv.same h2 rfl (fun _ => rfl)
        (fun o => by simp [responseFiltersOf, List.append_assoc])

/-- As long as a program sets up one server: in a server set up by any sequence
of configuration calls and started,
the routes registered by `Start` are one per registered controller, in
registration order; the response-filter chain of each is the response filters
handed to the controller's specification, in the order of the calls, followed
by those handed to the server, in the order of the calls; and `handleResponse`
of the route calls the filters of the chain once each in that order. -/
theorem Start_response_chains {V Rq : Type} [GoValue V] [GoRuntime] (host : String)
    (port : Nat) (actions : List (Runnable V Rq))
    (w : World (RequestFilter V Rq) (ResponseFilter V Rq) (Option (RequestHandler V Rq))
      (ObjectSerializer V))
    (router : Option (Router (Option (RequestHandler V Rq)) (ObjectSerializer V)))
    (s : Serving (RequestFilter V Rq) (ResponseFilter V Rq) (Option (RequestHandler V Rq))
      (ObjectSerializer V))
    (hsetup : setup (NewServer host port) actions = .ok w)
    (hstart : server.Start w router = .ok s) :
    ∃ routes, s.Handler.routes = (router.getD NewRouter).routes ++ routes ∧
      List.Forall₂
        (fun spec route =>
          s.world.outs.read route.handler.outFilters =
              responseFiltersOf actions (Owner.spec spec) ++
                responseFiltersOf actions Owner.server ∧
            ∀ (writer : ResponseWriter) (request : Rq) (response : Response V),
              ((route.handler.load s.world.ins s.world.outs).handleResponse writer request
                  response).calls.filterMap Call.filterResponseIndex =
                List.range (responseFiltersOf actions (Owner.spec spec) ++
                  responseFiltersOf actions Owner.server).length)
        w.srv.controllers routes := by
  have hinv := setup_outInv actions _ w _ (NewServer_outInv host port) hsetup
  simp only [List.nil_append] at hinv
  have htight : ∀ c ∈ w.specs, w.outs.Tight c.out := by
    intro c hc
    obtain ⟨n, hn⟩ := List.mem_iff_get?.mp hc
    exact (hinv.1 (Owner.spec n) c.out (by simp only [World.outSlice, hn, Option.map_some'])).1
  have htightE : ∀ c ∈ w.errorSpecs, w.outs.Tight c.out := by
    intro c hc
    obtain ⟨n, hn⟩ := List.mem_iff_get?.mp hc
    exact (hinv.1 (Owner.errorSpec n) c.out
      (by simp only [World.outSlice, hn, Option.map_some'])).1
  have hglobal : w.outs.InBounds w.srv.outFilters :=
    Heap.inBounds_of_tight _ (hinv.1 Owner.server _ rfl).1
  obtain ⟨routes, hroutes, hall⟩ := Start_out w router s htight htightE hglobal hstart
  refine ⟨routes, hroutes, hall.imp ?_⟩
  intro spec route hbuilt
  obtain ⟨c, hc, _, hread⟩ := hbuilt
  have hown : w.outs.read c.out = responseFiltersOf actions (Owner.spec spec) :=
    (hinv.1 (Owner.spec spec) c.out (by simp only [World.outSlice, hc, Option.map_some'])).2
  have hglob : w.outs.read w.srv.outFilters = responseFiltersOf actions Owner.server :=
    (hinv.1 Owner.server _ rfl).2
  rw [hown, hglob] at hread
  refine ⟨hread, ?_⟩
  intro writer request response
  rw [handleResponse_filter_order]
  simp only [controller.load, hread]

theorem Start_response_chains_witness :
    ∃ routes, stampingServing.Handler.routes = [] ++ routes ∧
      List.Forall₂
        (fun spec route =>
          stampingServing.world.outs.read route.handler.outFilters =
              responseFiltersOf stampingActions (Owner.spec spec) ++
                responseFiltersOf stampingActions Owner.server ∧
            ∀ (writer : ResponseWriter) (request : Nat) (response : Response String),
              ((route.handler.load stampingServing.world.ins
                  stampingServing.world.outs).handleResponse writer request
                  response).calls.filterMap Call.filterResponseIndex =
                List.range (responseFiltersOf stampingActions (Owner.spec spec) ++
                  responseFiltersOf stampingActions Owner.server).length)
        [0] routes :=
  Start_response_chains "localhost" 8080 stampingActions stampingWorld none stampingServing
    rfl rfl

/-! ## Building the pipelines: the request-filter chains -/

/-- C2 fails on the code: with three global request filters registered by three
calls, the slice of global filters has length 3 and capacity 4, so the two
`append` calls of `buildController` write the controllers' own filters into
the same slot, and the pipeline of the first controller ends up with the
request filter of the second one. -/
theorem Start_request_chains_aliased :
    (program "localhost" 8080 twoControllers).toOption.map Serving.requestChains =
        some [["global1", "global2", "global3", "authB"],
          ["global1", "global2", "global3", "authB"]] ∧
      (program "localhost" 8080 twoControllers).toOption.map Serving.requestChains ≠
        some [["global1", "global2", "global3", "authA"],
          ["global1", "global2", "global3", "authB"]] := by
  have h : (program "localhost" 8080 twoControllers).toOption.map Serving.requestChains =
      some [["global1", "global2", "global3", "authB"],
        ["global1", "global2", "global3", "authB"]] := by
    decide
  rw [h]
  exact ⟨rfl, by decide⟩

/-! ## Serialization failure -/

theorem setSerializerType_status (set : Bool) (writer : ResponseWriter) (contentType : String) :
    (setSerializerType set writer contentType).status = writer.status := by
  unfold setSerializerType
  split <;> rfl

theorem setSerializerType_body (set : Bool) (writer : ResponseWriter) (contentType : String) :
    (setSerializerType set writer contentType).body = writer.body := by
  unfold setSerializerType
  split <;> rfl

/-- On a transport that takes the status, a response whose body is neither nil
nor a stream and for which `Serialize` of the chosen serializer returns an
error is written as follows: `handleResponse` makes two `WriteHeader` calls,
first with the code of the response and then with 500, leaves the transport
with the single content-type value `text/plain`, and hands the text "response
body serialization failed!" to a transport that is an `io.ReaderFrom`, and
nothing to another one; the reader that came with the error is neither copied
nor closed. -/
theorem handleResponse_serialize_error {V Rq : Type} [GoValue V] (c : Pipeline V Rq)
    (writer : ResponseWriter) (request request1 : Rq) (response final : Response V)
    (calls : List (Call V)) (body : V) (e : String)
    (hfinal : filterResponses c.outFilters 0 request response = (final, request1, calls))
    (hbody : final.body = Body.value body)
    (herr : ((orDefault (lookupSerializer c.serializers 0 body).1).Serialize body).2 =
      some e)
    (hvalid : writer.wroteHeader = true ∨ (100 ≤ final.code ∧ final.code ≤ 999)) :
    (c.handleResponse writer request response).writer.status =
        writer.status ++ [final.code, 500] ∧
      (c.handleResponse writer request response).writer.header.get HeaderContentType =
        some [ContentTypeTextPlain] ∧
      (c.handleResponse writer request response).writer.body =
        writer.body ++
          (if writer.readerFrom then "response body serialization failed!" else "") ∧
      (c.handleResponse writer request response).panicked = false ∧
      Call.Close ∉ (c.handleResponse writer request response).calls := by
  have hval := handleResponse_value c writer request request1 response final calls body
    hfinal hbody
  have hshape := filterResponses_shape c.outFilters 0 request response
  rw [hfinal] at hshape
  have hlook := lookupSerializer_shape c.serializers 0 body
  rw [hval]
  unfold serializeBody
  obtain ⟨hs, hh, hb, hp, hc⟩ := serializeWith_error
    (orDefault (lookupSerializer c.serializers 0 body).1)
    ((lookupSerializer c.serializers 0 body).1.map Prod.fst)
    (applyHeaders final.headers.head (false, writer.header)).1
    { writer with header := (applyHeaders final.headers.head (false, writer.header)).2 }
    request1 final.code body (calls ++ (lookupSerializer c.serializers 0 body).2) e hvalid herr
  refine ⟨hs, ?_, hb, hp, ?_⟩
  · rw [hh]
    unfold Header.Set
    rw [canonical_HeaderContentType]
    exact Header.get_put_same _ _ _
  · rw [hc]
    intro hmem
    simp only [List.mem_append, List.mem_singleton] at hmem
    rcases hmem with (hm | hm) | hm | hm
    · obtain ⟨j, r, hj⟩ := hshape _ hm
      cases hj
    · obtain ⟨j, hj⟩ := hlook _ hm
      cases hj
    · unfold typeCalls at hm
      split at hm
      · cases hm
      · simp at hm
    · cases hm

/-- C11 fails on the code: the text that replaces the body is copied with
`bufio.NewWriter(writer).ReadFrom(serialized)` and the buffered writer is never
flushed. On a transport that is not an `io.ReaderFrom` the pipeline whose JSON
serializer fails on `+Inf` makes the `WriteHeader` calls with 200 and 500, sets
the content type `text/plain` and hands no byte of the text to the transport;
on one that is, the text arrives. -/
theorem handleResponse_serialize_error_unflushed :
    (infPipeline.handleResponse recorderWriter 0
        (NewResponse.WithBody (Body.value PosInf.value))).writer.status = [200, 500] ∧
      (infPipeline.handleResponse recorderWriter 0
        (NewResponse.WithBody (Body.value PosInf.value))).writer.header.get "Content-Type" =
        some ["text/plain"] ∧
      (infPipeline.handleResponse recorderWriter 0
        (NewResponse.WithBody (Body.value PosInf.value))).writer.body = "" ∧
      (infPipeline.handleResponse recorderWriter 0
        (NewResponse.WithBody (Body.value PosInf.value))).panicked = false ∧
      (infPipeline.handleResponse freshWriter 0
        (NewResponse.WithBody (Body.value PosInf.value))).writer.body =
        "response body serialization failed!" := by
  refine ⟨?_, ?_, ?_, ?_, ?_⟩ <;> decide

/-! ## The transport headers -/

theorem Header.ne_of_get_none (h : Header) (key : String) (hnone : h.get key = none) :
    ∀ kv ∈ h, kv.1 ≠ key := by
  induction h with
  | nil =>
    intro kv hkv
    cases hkv
  | cons x rest ih =>
    rcases x with ⟨k, old⟩
    simp only [Header.get] at hnone
    split at hnone
    · cases hnone
    · rename_i hk
      intro kv hkv
      rcases List.mem_cons.mp hkv with heq | hin
      · rw [heq]
        exact hk
      · exact ih hnone kv hin

theorem handleResponse_header_plain {V Rq : Type} [GoValue V] (c : Pipeline V Rq)
    (writer : ResponseWriter) (request request1 : Rq) (response final : Response V)
    (calls : List (Call V))
    (hfinal : filterResponses c.outFilters 0 request response = (final, request1, calls))
    (hbody : ∀ body, final.body ≠ Body.value body) :
    (c.handleResponse writer request response).writer.header =
      (applyHeaders final.headers.head (false, writer.header)).2 := by
  unfold controller.handleResponse
  rw [hfinal]
  simp only
  split
  · exact afterWriteHeader_header _ _ _ _ _ _ rfl (fun w hw => hw)
  · exact afterWriteHeader_header _ _ _ _ _ _ rfl (fun w hw => hw)
  · exact afterWriteHeader_header _ _ _ _ _ _ rfl (fun w hw => hw)
  · rename_i body hb
    exact absurd hb (hbody body)

theorem handleResponse_header_value {V Rq : Type} [GoValue V] (c : Pipeline V Rq)
    (writer : ResponseWriter) (request request1 : Rq) (response final : Response V)
    (calls : List (Call V)) (body : V)
    (hfinal : filterResponses c.outFilters 0 request response = (final, request1, calls))
    (hbody : final.body = Body.value body)
    (hok : ((orDefault (lookupSerializer c.serializers 0 body).1).Serialize body).2 = none) :
    (c.handleResponse writer request response).writer.header =
      (setSerializerType (applyHeaders final.headers.head (false, writer.header)).1
        { writer with header := (applyHeaders final.headers.head (false, writer.header)).2 }
        (orDefault (lookupSerializer c.serializers 0 body).1).ContentType).header := by
  rw [handleResponse_value c writer request request1 response final calls body hfinal hbody]
  unfold serializeBody
  rw [serializeWith_header _ _ _ _ _ _ _ _ hok]

/-- C19: when the headers of the response left by the response filters were
made by `WithHeader`, `Set` and `Append` calls (and are iterated in any order)
and its body is nil, a stream, or a value whose serializer returns no error,
then after `handleResponse` the transport holds, for every header of the
response, the values it held before followed by the values of the response;
every other header except `Content-Type` is as it was; and when the response
has no `Content-Type` header, the transport's `Content-Type` is as it was for
a nil or stream body and is the single content type of the chosen serializer
for any other body. -/
theorem handleResponse_headers_added {V Rq : Type} [GoValue V] (c : Pipeline V Rq)
    (writer : ResponseWriter) (request request1 : Rq) (response final : Response V)
    (calls : List (Call V)) (ops : List HeaderOp)
    (hfinal : filterResponses c.outFilters 0 request response = (final, request1, calls))
    (hops : final.headers.head.Perm (headersAfter ops).head)
    (hok : ∀ body, final.body = Body.value body →
      ((orDefault (lookupSerializer c.serializers 0 body).1).Serialize body).2 = none) :
    (∀ key vs, final.headers.head.get key = some vs →
        (c.handleResponse writer request response).writer.header.get key =
          some ((writer.header.get key).getD [] ++ vs)) ∧
      (∀ key, final.headers.head.get key = none → key ≠ HeaderContentType →
        (c.handleResponse writer request response).writer.header.get key =
          writer.header.get key) ∧
      (final.headers.head.get HeaderContentType = none →
        ((∀ body, final.body ≠ Body.value body) →
          (c.handleResponse writer request response).writer.header.get HeaderContentType =
            writer.header.get HeaderContentType) ∧
        ∀ body, final.body = Body.value body →
          (c.handleResponse writer request response).writer.header.get HeaderContentType =
            some [(orDefault (lookupSerializer c.serializers 0 body).1).ContentType]) := by
  have hcanon : final.headers.head.Canonical :=
    Header.canonical_of_perm hops.symm (canonical_headersAfter ops)
  have hget := fun key =>
    applyHeaders_get final.headers.head (false, writer.header) key hcanon
  have hheader : (∀ body, final.body ≠ Body.value body) ∨ ∃ body, final.body = Body.value body := by
    cases hb : final.body with
    | nil => exact Or.inl (fun _ h => by cases h)
    | stream s => exact Or.inl (fun _ h => by cases h)
    | value v => exact Or.inr ⟨v, rfl⟩
  have hset : ∀ ct, final.headers.head.get HeaderContentType = none →
      (setSerializerType (applyHeaders final.headers.head (false, writer.header)).1
        { writer with header := (applyHeaders final.headers.head (false, writer.header)).2 }
        ct).header =
      (applyHeaders final.headers.head (false, writer.header)).2.put HeaderContentType [ct] := by
    intro ct hnone
    have hflag := applyHeaders_flag final.headers.head (false, writer.header)
      (Header.ne_of_get_none _ _ hnone)
    simp only at hflag
    unfold setSerializerType
    rw [hflag]
    simp only [Bool.false_eq_true, if_false, ResponseWriter.SetHeader, Header.Set,
      canonical_HeaderContentType]
  have hkeep : ∀ ct vs, final.headers.head.get HeaderContentType = some vs →
      (setSerializerType (applyHeaders final.headers.head (false, writer.header)).1
        { writer with header := (applyHeaders final.headers.head (false, writer.header)).2 }
        ct).header =
      (applyHeaders final.headers.head (false, writer.header)).2 := by
    intro ct vs hsome
    have hne : vs ≠ [] := (hcanon.2 _ (Header.mem_of_get _ _ _ hsome)).2
    have hflag := applyHeaders_flag_set final.headers.head (false, writer.header) vs hsome hne
    unfold setSerializerType
    rw [hflag]
    simp
  refine ⟨?_, ?_, ?_⟩
  · intro key vs hkey
    have hk := hget key
    rw [hkey] at hk
    simp only at hk
    rcases hheader with hplain | ⟨body, hbody⟩
    · rw [handleResponse_header_plain c writer request request1 response final calls hfinal
        hplain]
      exact hk
    · rw [handleResponse_header_value c writer request request1 response final calls body
        hfinal hbody (hok body hbody)]
      rcases hct : final.headers.head.get HeaderContentType with _ | cts
      · rw [hset _ hct]
        have hne : key ≠ HeaderContentType := by
          intro e
          rw [e, hct] at hkey
          cases hkey
        rw [Header.get_put_other _ _ _ _ hne]
        exact hk
      · rw [hkeep _ cts hct]
        exact hk
  · intro key hnone hne
    have hk := hget key
    rw [hnone] at hk
    simp only at hk
    rcases hheader with hplain | ⟨body, hbody⟩
    · rw [handleResponse_header_plain c writer request request1 response final calls hfinal
        hplain]
      exact hk
    · rw [handleResponse_header_value c writer request request1 response final calls body
        hfinal hbody (hok body hbody)]
      rcases hct : final.headers.head.get HeaderContentType with _ | cts
      · rw [hset _ hct, Header.get_put_other _ _ _ _ hne]
        exact hk
      · rw [hkeep _ cts hct]
        exact hk
  · intro hnone
    constructor
    · intro hplain
      rw [handleResponse_header_plain c writer request request1 response final calls hfinal
        hplain]
      have hk := hget HeaderContentType
      rw [hnone] at hk
      exact hk
    · intro body hbody
      rw [handleResponse_header_value c writer request request1 response final calls body
        hfinal hbody (hok body hbody), hset _ hnone]
      exact Header.get_put_same _ _ _

theorem handleResponse_headers_added_witness :
    (pingPipeline.handleResponse stampedWriter 0 stampedResponse).writer.header.get
        "X-Stamp" = some ["0", "1", "2"] ∧
      (pingPipeline.handleResponse stampedWriter 0 stampedResponse).writer.header.get
        "Content-Type" = some ["text/css"] := by
  have h := handleResponse_headers_added pingPipeline stampedWriter 0 0 stampedResponse
    stampedResponse [] [HeaderOp.Set "x-stamp" "1" ["2"]] rfl (List.Perm.refl _)
    (fun body hb => by cases hb)
  exact ⟨h.1 "X-Stamp" ["1", "2"] rfl, (h.2.2 rfl).1 (fun body hb => by cases hb)⟩

/-! ## The header container -/

/-- C16 fails on the code: `Set` stores the values under the canonical form of
the header name, the getters index the map with the name as given. After
`Set("content-type", "text/html", "charset")` the values are found under
`Content-Type` and not under `content-type`. -/
theorem Set_then_get_lower_case :
    lowerCaseHeaders.GetAll "content-type" = ([], false) ∧
      lowerCaseHeaders.GetFirst "content-type" = ("", false) ∧
      lowerCaseHeaders.GetAll "Content-Type" = (["text/html", "charset"], true) ∧
      lowerCaseHeaders.GetFirst "Content-Type" = ("text/html", true) := by
  decide

/-- C17 fails on the code: the guard of `GetNth` has no lower bound, so a
negative `n` on a header that is present reaches the index expression and
panics. -/
theorem GetNth_negative_panics :
    countHeaders.GetNth "X-Count" (-1) = Except.error Exit.panic ∧
      countHeaders.GetNth "X-Count" 0 = Except.ok ("one", true) ∧
      countHeaders.GetNth "X-Count" 1 = Except.ok ("", false) ∧
      countHeaders.GetNth "X-Other" (-1) = Except.ok ("", false) := by
  refine ⟨rfl, rfl, rfl, rfl⟩

/-! ## `Start`: the routes and the server afterwards -/

theorem buildController_route {RF PF H S : Type} [GoRuntime] (w w1 : World RF PF H S)
    (spec : Nat) (router router1 : Router H S)
    (hbuild : server.buildController w spec router = .ok (w1, router1)) :
    w1.SameConfig w ∧ router1.NotFoundHandler = router.NotFoundHandler ∧
      router1.MethodNotAllowedHandler = router.MethodNotAllowedHandler ∧
      ∃ route, router1.routes = router.routes ++ [route] ∧ RouteOf w spec route := by
  unfold server.buildController at hbuild
  rcases hc : w.specs.get? spec with _ | c
  · rw [hc] at hbuild
    cases hbuild
  · rw [hc] at hbuild
    simp only at hbuild
    split at hbuild
    · cases hbuild
    · rename_i hpath
      simp only [Except.ok.injEq, Prod.mk.injEq] at hbuild
      obtain ⟨hw1, hr1⟩ := hbuild
      subst hw1 hr1
      refine ⟨⟨rfl, rfl, rfl⟩, rfl, rfl, _, rfl, c, hc, ?_, rfl, ?_, ?_, rfl, rfl⟩
      · intro hempty
        apply hpath
        rw [hempty]
        rfl
      · simp only
        split
        · rfl
        · rename_i hlen
          have : c.methods.length = 0 := by omega
          exact (List.eq_nil_of_length_eq_zero this).symm
      · simp only
        split
        · rfl
        · rename_i hlen
          have : c.headers.length = 0 := by omega
          rw [List.eq_nil_of_length_eq_zero this]
          rfl

theorem RouteOf.of_sameConfig {RF PF H S : Type} {w w0 : World RF PF H S} {spec : Nat}
    {route : Route H S} (hr : RouteOf w spec route) (hcfg : w.SameConfig w0) :
    RouteOf w0 spec route := by
  obtain ⟨c, hc, hrest⟩ := hr
  refine ⟨c, ?_, ?_⟩
  · rw [← hcfg.1]
    exact hc
  · rw [← hcfg.2.2]
    exact hrest

theorem World.SameConfig.compose {RF PF H S : Type} {w1 w2 w3 : World RF PF H S}
    (h12 : w1.SameConfig w2) (h23 : w2.SameConfig w3) : w1.SameConfig w3 :=
  ⟨h12.1.trans h23.1, h12.2.1.trans h23.2.1, h12.2.2.trans h23.2.2⟩

theorem buildAll_routes {RF PF H S : Type} [GoRuntime] (controllers : List Nat)
    (w w1 : World RF PF H S) (router router1 : Router H S)
    (hbuild : server.buildAll w controllers router = .ok (w1, router1)) :
    w1.SameConfig w ∧ router1.NotFoundHandler = router.NotFoundHandler ∧
      router1.MethodNotAllowedHandler = router.MethodNotAllowedHandler ∧
      ∃ routes, router1.routes = router.routes ++ routes ∧
        List.Forall₂ (RouteOf w) controllers routes := by
  induction controllers generalizing w router with
  | nil =>
    simp only [server.buildAll, Except.ok.injEq, Prod.mk.injEq] at hbuild
    obtain ⟨hw, hr⟩ := hbuild
    subst hw hr
    exact ⟨⟨rfl, rfl, rfl⟩, rfl, rfl, [], by simp, List.Forall₂.nil⟩
  | cons spec rest ih =>
    simp only [server.buildAll] at hbuild
    rcases hone : server.buildController w spec router with e | ⟨w2, router2⟩
    · rw [hone] at hbuild
      cases hbuild
    · rw [hone] at hbuild
      simp only at hbuild
      obtain ⟨hcfg2, hnf2, hmna2, route, hroute, hbuilt⟩ :=
        buildController_route w w2 spec router router2 hone
      obtain ⟨hcfg1, hnf1, hmna1, routes, hroutes, hall⟩ := ih w2 router2 hbuild
      refine ⟨hcfg1.compose hcfg2, hnf1.trans hnf2, hmna1.trans hmna2, route :: routes, ?_, ?_⟩
      · rw [hroutes, hroute]
        simp
      · exact List.Forall₂.cons hbuilt (hall.imp (fun _ _ h => h.of_sameConfig hcfg2))

theorem startErrorController_config {RF PF H S : Type} [GoRuntime]
    (state state1 : World RF PF H S × Router H S) (handler : Option Nat)
    (useFilt : serverExtras → Bool) (slot : Slot)
    (hbuild : server.startErrorController state handler useFilt slot = .ok state1) :
    state1.1.SameConfig state.1 ∧ state1.2.routes = state.2.routes := by
  unfold server.startErrorController at hbuild
  cases handler with
  | none =>
    simp only [Except.ok.injEq] at hbuild
    subst hbuild
    exact ⟨⟨rfl, rfl, rfl⟩, rfl⟩
  | some spec =>
    simp only at hbuild
    rcases hex : state.1.srv.extras with _ | e
    · rw [hex] at hbuild
      cases hbuild
    · rw [hex] at hbuild
      simp only at hbuild
      unfold server.buildErrorController at hbuild
      rcases hc : state.1.errorSpecs.get? spec with _ | c
      · rw [hc] at hbuild
        cases hbuild
      · rw [hc] at hbuild
        simp only [Except.ok.injEq] at hbuild
        subst hbuild
        refine ⟨⟨rfl, rfl, rfl⟩, ?_⟩
        cases slot <;> rfl

theorem Start_routes {RF PF H S : Type} [GoRuntime] (w : World RF PF H S)
    (router : Option (Router H S)) (s : Serving RF PF H S)
    (hstart : server.Start w router = .ok s) :
    (∃ w3 : World RF PF H S, w3.SameConfig w ∧ s.world = server.clear w3) ∧
      w.srv.controllers ≠ [] ∧
      ∃ routes, s.Handler.routes = (router.getD NewRouter).routes ++ routes ∧
        List.Forall₂ (RouteOf w) w.srv.controllers routes := by
  unfold server.Start at hstart
  rcases hb : server.build w (router.getD NewRouter) with e | built
  · rw [hb] at hstart
    cases hstart
  rw [hb] at hstart
  simp only at hstart
  rcases h404 : server.startErrorController built built.1.srv.handler404
      serverExtras.useFilt404 Slot.NotFoundHandler with e | built404
  · rw [h404] at hstart
    cases hstart
  rw [h404] at hstart
  simp only at hstart
  rcases h405 : server.startErrorController built404 built404.1.srv.handler405
      serverExtras.useFilt405 Slot.MethodNotAllowedHandler with e | built405
  · rw [h405] at hstart
    cases hstart
  rw [h405] at hstart
  simp only at hstart
  rcases hex : built405.1.srv.extras with _ | e
  · rw [hex] at hstart
    cases hstart
  rw [hex] at hstart
  simp only [Except.ok.injEq] at hstart
  subst hstart
  unfold server.build at hb
  split at hb
  · cases hb
  rename_i hlen
  obtain ⟨hcfg1, _, _, routes, hroutes, hall⟩ :=
    buildAll_routes w.srv.controllers w built.1 (router.getD NewRouter) built.2 hb
  obtain ⟨hcfg2, hr2⟩ := startErrorController_config built built404 _ _ _ h404
  obtain ⟨hcfg3, hr3⟩ := startErrorController_config built404 built405 _ _ _ h405
  refine ⟨⟨built405.1, (hcfg3.compose hcfg2).compose hcfg1, rfl⟩, ?_, routes, ?_, hall⟩
  · intro hnil
    apply hlen
    rw [hnil]
    rfl
  · simp only
    rw [hr3, hr2, hroutes]

theorem Start_again_fatal {RF PF H S : Type} [GoRuntime] (w : World RF PF H S)
    (router router2 : Option (Router H S)) (s : Serving RF PF H S)
    (hstart : server.Start w router = .ok s) :
    server.Start s.world router2 =
      .error (Exit.fatal "attempted to start a server with no controllers registered") := by
  obtain ⟨⟨w3, _, hworld⟩, _, _⟩ := Start_routes w router s hstart
  rw [hworld]
  unfold server.Start server.build
  simp [server.clear]

theorem Start_started {RF PF H S : Type} [GoRuntime] (w : World RF PF H S)
    (router : Option (Router H S)) (s : Serving RF PF H S)
    (hstart : server.Start w router = .ok s) :
    s.world.srv.started = w.srv.started := by
  obtain ⟨⟨w3, hcfg, hworld⟩, _, _⟩ := Start_routes w router s hstart
  rw [hworld, ← hcfg.2.2]
  rfl

/-- C12 fails on the code: `Start` goes on after the warning and never sets
the flag. A second `Start` on the server of a program that serves exits
fatally, because the first has emptied the controller list; and a `Start` on a
server whose flag is set, with the router of the first, registers the route a
second time. -/
theorem Start_twice_is_not_ignored :
    server.Start stampingServing.world none =
        .error (Exit.fatal "attempted to start a server with no controllers registered") ∧
      (server.Start stampingWorld.markStarted (some stampingServing.Handler)).toOption.map
          (fun s => s.Handler.routes.map Route.path) =
        some ["/ping", "/ping"] :=
  ⟨Start_again_fatal stampingWorld none none stampingServing rfl, by decide⟩

/-- C13 fails on the code: `Start` leaves the flag `started` false, so on the
server of a program that serves each of the four registration calls takes the
branch that appends. -/
theorem registration_after_Start_accepted :
    stampingServing.world.srv.started = false ∧
      (server.WithControllers stampingServing.world 0).toOption.map
          (fun w => w.srv.controllers) = some [0] ∧
      (server.WithRequestFilters stampingServing.world [passFilter]).toOption.map
          (fun w => w.ins.read w.srv.inFilters) = some [passFilter] ∧
      (server.WithResponseFilters stampingServing.world [stampFilter]).toOption.map
          (fun w => w.outs.read w.srv.outFilters) = some [stampFilter] ∧
      (server.WithObjectSerializers stampingServing.world [matchAllSerializer]).toOption.map
          (fun w => w.srv.serializers) = some [matchAllSerializer] :=
  ⟨(Start_started stampingWorld none stampingServing rfl).trans rfl, rfl, rfl, rfl, rfl⟩

/-! ## `Start`: configuration faults -/

theorem ServeHTTP_no_handler {V Rq : Type} [GoValue V] (c : Pipeline V Rq)
    (writer : ResponseWriter) (request request1 : Rq)
    (hpass : passesAll c.inFilters request = some request1) (hh : c.handler = none) :
    c.ServeHTTP writer request =
      { writer := writer, request := request1
        calls := (List.range c.inFilters.length).map Call.FilterRequest
        panicked := true } := by
  have hloop := filterRequests_pass c.inFilters 0 request request1 hpass
  unfold controller.ServeHTTP
  rw [hloop, hh, List.range_eq_range']

/-- C14, as the claim states it, fails for `NewController("/nil", nil)`: the
program reaches serving, the route is registered with the nil handler, and
serving a request on it panics. -/
theorem Start_nil_handler_counterexample :
    program "localhost" 8080 nilHandlerActions = .ok nilHandlerServing ∧
      nilHandlerServing.Handler.routes.map (fun route => route.handler.handler.isNone) =
        [true] ∧
      nilHandlerServing.Handler.routes.map
          (fun route =>
            ((route.handler.load nilHandlerServing.world.ins
              nilHandlerServing.world.outs).ServeHTTP freshWriter 0).panicked) =
        [true] :=
  ⟨rfl, rfl, rfl⟩

/-- C14, amended: `Start` does not look at the handler. When it reaches
serving, the pipeline registered for each controller has the handler of the
controller's specification, nil included; and on a pipeline whose handler is
nil, serving a request that every request filter lets pass panics after the
calls on the request filters, with nothing written to the transport. -/
theorem Start_keeps_handler {V Rq : Type} [GoValue V] [GoRuntime]
    (w : World (RequestFilter V Rq) (ResponseFilter V Rq) (Option (RequestHandler V Rq))
      (ObjectSerializer V))
    (router : Option (Router (Option (RequestHandler V Rq)) (ObjectSerializer V)))
    (s : Serving (RequestFilter V Rq) (ResponseFilter V Rq) (Option (RequestHandler V Rq))
      (ObjectSerializer V))
    (hstart : server.Start w router = .ok s) :
    ∃ routes, s.Handler.routes = (router.getD NewRouter).routes ++ routes ∧
      List.Forall₂
        (fun spec route =>
          ∃ c, w.specs.get? spec = some c ∧
            (route.handler.load s.world.ins s.world.outs).handler = c.handler ∧
            (c.handler = none →
              ∀ (writer : ResponseWriter) (request request1 : Rq),
                passesAll (route.handler.load s.world.ins s.world.outs).inFilters request =
                  some request1 →
                (route.handler.load s.world.ins s.world.outs).ServeHTTP writer request =
                  { writer := writer, request := request1
                    calls :=
                      (List.range
                        (route.handler.load s.world.ins
                          s.world.outs).inFilters.length).map Call.FilterRequest
                    panicked := true }))
        w.srv.controllers routes := by
  obtain ⟨_, _, routes, hroutes, hall⟩ := Start_routes w router s hstart
  refine ⟨routes, hroutes, hall.imp ?_⟩
  intro spec route hroute
  obtain ⟨c, hc, _, _, _, _, hhandler, _⟩ := hroute
  refine ⟨c, hc, hhandler, ?_⟩
  intro hnil writer request request1 hpass
  exact ServeHTTP_no_handler _ writer request request1 hpass (hhandler.trans hnil)

theorem Start_keeps_handler_witness :
    ∃ routes, nilHandlerServing.Handler.routes = [] ++ routes ∧
      List.Forall₂
        (fun spec route =>
          ∃ c, nilHandlerWorld.specs.get? spec = some c ∧
            (route.handler.load nilHandlerServing.world.ins
              nilHandlerServing.world.outs).handler = c.handler ∧
            (c.handler = none →
              ∀ (writer : ResponseWriter) (request request1 : Nat),
                passesAll (route.handler.load nilHandlerServing.world.ins
                    nilHandlerServing.world.outs).inFilters request = some request1 →
                (route.handler.load nilHandlerServing.world.ins
                    nilHandlerServing.world.outs).ServeHTTP writer request =
                  { writer := writer, request := request1
                    calls :=
                      (List.range
                        (route.handler.load nilHandlerServing.world.ins
                          nilHandlerServing.world.outs).inFilters.length).map
                        Call.FilterRequest
                    panicked := true }))
        [0] routes :=
  Start_keeps_handler nilHandlerWorld none nilHandlerServing rfl

theorem String.eq_empty_of_length (s : String) (h : s.length = 0) : s = "" := by
  cases s with
  | mk data =>
    have : data = [] := List.eq_nil_of_length_eq_zero h
    rw [this]

theorem buildController_empty_path {RF PF H S : Type} [GoRuntime] (w : World RF PF H S)
    (spec : Nat) (router : Router H S) (c : controllerSpec H)
    (hc : w.specs.get? spec = some c) (hpath : c.path = "") :
    server.buildController w spec router =
      .error (Exit.fatal "controller has an empty path") := by
  unfold server.buildController
  rw [hc]
  simp only
  rw [if_pos]
  rw [hpath]
  rfl

theorem buildController_ok {RF PF H S : Type} [GoRuntime] (w : World RF PF H S)
    (spec : Nat) (router : Router H S) (c : controllerSpec H)
    (hc : w.specs.get? spec = some c) (hpath : c.path ≠ "") :
    ∃ built, server.buildController w spec router = .ok built := by
  unfold server.buildController
  rw [hc]
  simp only
  rw [if_neg]
  · exact ⟨_, rfl⟩
  · intro hlen
    exact hpath (String.eq_empty_of_length _ hlen)

theorem buildAll_empty_path {RF PF H S : Type} [GoRuntime] (controllers : List Nat)
    (w : World RF PF H S) (router : Router H S)
    (hvalid : ∀ spec ∈ controllers, ∃ c, w.specs.get? spec = some c)
    (hempty : ∃ spec ∈ controllers, ∃ c, w.specs.get? spec = some c ∧ c.path = "") :
    server.buildAll w controllers router =
      .error (Exit.fatal "controller has an empty path") := by
  induction controllers generalizing w router with
  | nil =>
    obtain ⟨_, hmem, _⟩ := hempty
    cases hmem
  | cons spec rest ih =>
    obtain ⟨c, hc⟩ := hvalid spec (List.mem_cons_self _ _)
    simp only [server.buildAll]
    by_cases hpath : c.path = ""
    · rw [buildController_empty_path w spec router c hc hpath]
    · obtain ⟨built, hbuilt⟩ := buildController_ok w spec router c hc hpath
      obtain ⟨w1, router1⟩ := built
      rw [hbuilt]
      simp only
      obtain ⟨hcfg, _⟩ := buildController_route w w1 spec router router1 hbuilt
      apply ih
      · intro p hp
        rw [hcfg.1]
        exact hvalid p (List.mem_cons_of_mem _ hp)
      · obtain ⟨p, hp, d, hd, hdpath⟩ := hempty
        rcases List.mem_cons.mp hp with heq | hrest
        · subst heq
          rw [hc] at hd
          cases hd
          exact absurd hdpath hpath
        · refine ⟨p, hrest, d, ?_, hdpath⟩
          rw [hcfg.1]
          exact hd

theorem buildAll_ok {RF PF H S : Type} [GoRuntime] (controllers : List Nat)
    (w : World RF PF H S) (router : Router H S)
    (hvalid : ∀ spec ∈ controllers, ∃ c, w.specs.get? spec = some c ∧ c.path ≠ "") :
    ∃ built, server.buildAll w controllers router = .ok built := by
  induction controllers generalizing w router with
  | nil => exact ⟨_, rfl⟩
  | cons spec rest ih =>
    obtain ⟨c, hc, hpath⟩ := hvalid spec (List.mem_cons_self _ _)
    obtain ⟨built, hbuilt⟩ := buildController_ok w spec router c hc hpath
    obtain ⟨w1, router1⟩ := built
    simp only [server.buildAll]
    rw [hbuilt]
    simp only
    obtain ⟨hcfg, _⟩ := buildController_route w w1 spec router router1 hbuilt
    apply ih
    intro p hp
    rw [hcfg.1]
    exact hvalid p (List.mem_cons_of_mem _ hp)

theorem startErrorController_ok {RF PF H S : Type} [GoRuntime]
    (state : World RF PF H S × Router H S) (handler : Option Nat)
    (useFilt : serverExtras → Bool) (slot : Slot)
    (hextras : state.1.srv.extras.isSome = true)
    (hvalid : ∀ spec, handler = some spec → spec < state.1.errorSpecs.length) :
    ∃ state1, server.startErrorController state handler useFilt slot = .ok state1 := by
  unfold server.startErrorController
  cases handler with
  | none => exact ⟨_, rfl⟩
  | some spec =>
    simp only
    rcases hex : state.1.srv.extras with _ | e
    · rw [hex] at hextras
      cases hextras
    · simp only
      unfold server.buildErrorController
      have hlt := hvalid spec rfl
      rw [List.get?_eq_get hlt]
      exact ⟨_, rfl⟩

theorem Start_ok {RF PF H S : Type} [GoRuntime] (w : World RF PF H S)
    (router : Option (Router H S)) (hsome : w.srv.controllers ≠ [])
    (hvalid : ∀ spec ∈ w.srv.controllers, ∃ c, w.specs.get? spec = some c ∧ c.path ≠ "")
    (hextras : w.srv.extras.isSome = true)
    (h404 : ∀ spec, w.srv.handler404 = some spec → spec < w.errorSpecs.length)
    (h405 : ∀ spec, w.srv.handler405 = some spec → spec < w.errorSpecs.length) :
    ∃ s, server.Start w router = .ok s := by
  obtain ⟨built, hbuilt⟩ := buildAll_ok w.srv.controllers w (router.getD NewRouter) hvalid
  have hcfg1 := (buildAll_routes w.srv.controllers w built.1 (router.getD NewRouter) built.2
    hbuilt).1
  have hbuild : server.build w (router.getD NewRouter) = .ok built := by
    unfold server.build
    rw [if_neg]
    · exact hbuilt
    · intro hlen
      exact hsome (List.eq_nil_of_length_eq_zero hlen)
  obtain ⟨built404, hb404⟩ := startErrorController_ok built built.1.srv.handler404
    serverExtras.useFilt404 Slot.NotFoundHandler (by rw [hcfg1.2.2]; exact hextras)
    (by rw [hcfg1.2.2, hcfg1.2.1]; exact h404)
  have hcfg2 := (startErrorController_config built built404 _ _ _ hb404).1
  obtain ⟨built405, hb405⟩ := startErrorController_ok built404 built404.1.srv.handler405
    serverExtras.useFilt405 Slot.MethodNotAllowedHandler
    (by rw [hcfg2.2.2, hcfg1.2.2]; exact hextras)
    (by rw [hcfg2.2.2, hcfg2.2.1, hcfg1.2.2, hcfg1.2.1]; exact h405)
  have hcfg3 := (startErrorController_config built404 built405 _ _ _ hb405).1
  have hex : built405.1.srv.extras.isSome = true := by
    rw [hcfg3.2.2, hcfg2.2.2, hcfg1.2.2]
    exact hextras
  unfold server.Start
  rw [hbuild]
  simp only
  rw [hb404]
  simp only
  rw [hb405]
  simp only
  rcases he : built405.1.srv.extras with _ | e
  · rw [he] at hex
    cases hex
  · exact ⟨_, rfl⟩

/-- C15: on a server whose registered controllers are specifications in memory,
`Start` exits fatally, before it reaches the call that binds the transport, when
no controller is registered and when a registered controller has an empty path;
whenever it reaches that call, the routes it has added to the router are one per
registered controller, in registration order, each with the non-empty path of
its controller; and it does reach that call when controllers are registered,
all with a non-empty path, and the error controllers set are specifications in
memory. -/
theorem Start_configuration_faults {RF PF H S : Type} [GoRuntime] (w : World RF PF H S)
    (router : Option (Router H S))
    (hvalid : ∀ spec ∈ w.srv.controllers, ∃ c, w.specs.get? spec = some c) :
    (w.srv.controllers = [] →
        server.Start w router =
          .error (Exit.fatal "attempted to start a server with no controllers registered")) ∧
      ((∃ spec ∈ w.srv.controllers, ∃ c, w.specs.get? spec = some c ∧ c.path = "") →
        server.Start w router = .error (Exit.fatal "controller has an empty path")) ∧
      (∀ s, server.Start w router = .ok s →
        ∃ routes, s.Handler.routes = (router.getD NewRouter).routes ++ routes ∧
          List.Forall₂
            (fun spec route =>
              ∃ c, w.specs.get? spec = some c ∧ c.path ≠ "" ∧ route.path = c.path)
            w.srv.controllers routes) ∧
      (w.srv.controllers ≠ [] →
        (∀ spec ∈ w.srv.controllers, ∀ c, w.specs.get? spec = some c → c.path ≠ "") →
        w.srv.extras.isSome = true →
        (∀ spec, w.srv.handler404 = some spec → spec < w.errorSpecs.length) →
        (∀ spec, w.srv.handler405 = some spec → spec < w.errorSpecs.length) →
        ∃ s, server.Start w router = .ok s) := by
  refine ⟨?_, ?_, ?_, ?_⟩
  · intro hnone
    unfold server.Start server.build
    rw [hnone]
    rfl
  · intro hempty
    have hsome : ¬ w.srv.controllers.length = 0 := by
      obtain ⟨spec, hmem, _⟩ := hempty
      intro hlen
      rw [List.eq_nil_of_length_eq_zero hlen] at hmem
      cases hmem
    unfold server.Start server.build
    rw [if_neg hsome, buildAll_empty_path w.srv.controllers w _ hvalid hempty]
  · intro s hstart
    obtain ⟨_, _, routes, hroutes, hall⟩ := Start_routes w router s hstart
    refine ⟨routes, hroutes, hall.imp ?_⟩
    intro spec route hroute
    obtain ⟨c, hc, hpath, hrp, _⟩ := hroute
    exact ⟨c, hc, hpath, hrp⟩
  · intro hsome hpaths hextras h404 h405
    refine Start_ok w router hsome ?_ hextras h404 h405
    intro spec hmem
    obtain ⟨c, hc⟩ := hvalid spec hmem
    exact ⟨c, hc, hpaths spec hmem c hc⟩

theorem Start_configuration_faults_witness :
    (∀ spec ∈ emptyPathWorld.srv.controllers, ∃ c, emptyPathWorld.specs.get? spec = some c) ∧
      (∃ spec ∈ emptyPathWorld.srv.controllers,
        ∃ c, emptyPathWorld.specs.get? spec = some c ∧ c.path = "") ∧
      server.Start emptyPathWorld none = .error (Exit.fatal "controller has an empty path") :=
  have hvalid : ∀ spec ∈ emptyPathWorld.srv.controllers,
      ∃ c, emptyPathWorld.specs.get? spec = some c := by
    intro spec hmem
    have hmem2 : spec ∈ [0, 1] := hmem
    simp only [List.mem_cons, List.mem_singleton, List.not_mem_nil, or_false] at hmem2
    rcases hmem2 with h | h <;> subst h <;> exact ⟨_, rfl⟩
  have hempty : ∃ spec ∈ emptyPathWorld.srv.controllers,
      ∃ c, emptyPathWorld.specs.get? spec = some c ∧ c.path = "" :=
    ⟨1, List.mem_cons_of_mem _ (List.mem_cons_self _ _), _, rfl, rfl⟩
  ⟨hvalid, hempty, (Start_configuration_faults emptyPathWorld none hvalid).2.1 hempty⟩

/-! ## `Start`: the error controllers -/

/-- C20 fails on the code: with three global request filters registered by
three calls, the slice of global filters has length 3 and capacity 4, so the
`append` of `buildErrorController` for the 405 controller writes its request
filter into the slot that the 404 controller's chain reads, and the 404
pipeline ends up with the request filter of the 405 specification. -/
theorem Start_error_request_chains_aliased :
    (program "localhost" 8080 twoErrorControllers).toOption.map
        Serving.notFoundRequestChain =
      some (some ["global1", "global2", "global3", "log405"]) ∧
    (program "localhost" 8080 twoErrorControllers).toOption.map
        Serving.methodNotAllowedRequestChain =
      some (some ["global1", "global2", "global3", "log405"]) ∧
    (setup (NewServer "localhost" 8080) twoErrorControllers).toOption.map
        (fun w => (w.errorSpecs.get? 0).map (fun e => w.ins.read e.in_)) =
      some (some ["log404"]) := by
  refine ⟨?_, ?_, ?_⟩ <;> decide

/-! ## The builders of the specifications -/

theorem get?_map_of_get? {α β : Type} (f : α → β) {l : List α} {p : Nat} {c : α}
    (h : l.get? p = some c) : (l.map f).get? p = some (f c) := by
  rw [List.get?_eq_getElem?, List.getElem?_map, ← List.get?_eq_getElem?, h]
  rfl

theorem Action.run_mirror {RF PF H S : Type} [GoRuntime] (w w1 : World RF PF H S)
    (a : Action RF PF H S) (hrun : a.run w = .ok w1) : a.mirror.run w.mirror = .ok w1.mirror := by
  cases a with
  | NewController path handler =>
    simp only [Action.run, Except.ok.injEq] at hrun
    subst hrun
    simp [Action.run, Action.mirror, World.mirror, Swrv.NewController, controllerSpec.mirror]
  | NewErrorController handler =>
    simp only [Action.run, Except.ok.injEq] at hrun
    subst hrun
    simp [Action.run, Action.mirror, World.mirror, Swrv.NewErrorController,
      errorControllerSpec.mirror]
  | SpecWithRequestFilters spec filters =>
    simp only [Action.run, memoryAfter, controllerSpec.WithRequestFilters] at hrun
    rcases hc : w.specs.get? spec with _ | d
    · rw [hc] at hrun
      cases hrun
    · rw [hc] at hrun
      simp only [Except.ok.injEq] at hrun
      subst hrun
      have hm : w.mirror.specs.get? spec = some d.mirror := get?_map_of_get? _ hc
      simp only [Action.run, memoryAfter, Action.mirror, controllerSpec.WithResponseFilters]
      rw [hm]
      simp [World.mirror, List.map_set, controllerSpec.mirror]
  | SpecWithResponseFilters spec filters =>
    simp only [Action.run, memoryAfter, controllerSpec.WithResponseFilters] at hrun
    rcases hc : w.specs.get? spec with _ | d
    · rw [hc] at hrun
      cases hrun
    · rw [hc] at hrun
      simp only [Except.ok.injEq] at hrun
      subst hrun
      have hm : w.mirror.specs.get? spec = some d.mirror := get?_map_of_get? _ hc
      simp only [Action.run, memoryAfter, Action.mirror, controllerSpec.WithRequestFilters]
      rw [hm]
      simp [World.mirror, List.map_set, controllerSpec.mirror]
  | ForMethods spec methods =>
    simp only [Action.run, memoryAfter, controllerSpec.ForMethods] at hrun
    rcases hc : w.specs.get? spec with _ | d
    · rw [hc] at hrun
      cases hrun
    · rw [hc] at hrun
      simp only [Except.ok.injEq] at hrun
      subst hrun
      have hm : w.mirror.specs.get? spec = some d.mirror := get?_map_of_get? _ hc
      simp only [Action.run, memoryAfter, Action.mirror, controllerSpec.ForMethods]
      rw [hm]
      simp [World.mirror, List.map_set, controllerSpec.mirror]
  | WithRequiredHeader spec header value =>
    simp only [Action.run, memoryAfter, controllerSpec.WithRequiredHeader] at hrun
    rcases hc : w.specs.get? spec with _ | d
    · rw [hc] at hrun
      cases hrun
    · rw [hc] at hrun
      simp only [Except.ok.injEq] at hrun
      subst hrun
      have hm : w.mirror.specs.get? spec = some d.mirror := get?_map_of_get? _ hc
      simp only [Action.run, memoryAfter, Action.mirror, controllerSpec.WithRequiredHeader]
      rw [hm]
      simp [World.mirror, List.map_set, controllerSpec.mirror]
  | ErrorWithRequestFilters spec filters =>
    simp only [Action.run, memoryAfter, errorControllerSpec.WithRequestFilters] at hrun
    rcases hc : w.errorSpecs.get? spec with _ | d
    · rw [hc] at hrun
      cases hrun
    · rw [hc] at hrun
      simp only [Except.ok.injEq] at hrun
      subst hrun
      have hm : w.mirror.errorSpecs.get? spec = some d.mirror := get?_map_of_get? _ hc
      simp only [Action.run, memoryAfter, Action.mirror, errorControllerSpec.WithResponseFilters]
      rw [hm]
      simp [World.mirror, List.map_set, errorControllerSpec.mirror]
  | ErrorWithResponseFilters spec filters =>
    simp only [Action.run, memoryAfter, errorControllerSpec.WithResponseFilters] at hrun
    rcases hc : w.errorSpecs.get? spec with _ | d
    · rw [hc] at hrun
      cases hrun
    · rw [hc] at hrun
      simp only [Except.ok.injEq] at hrun
      subst hrun
      have hm : w.mirror.errorSpecs.get? spec = some d.mirror := get?_map_of_get? _ hc
      simp only [Action.run, memoryAfter, Action.mirror, errorControllerSpec.WithRequestFilters]
      rw [hm]
      simp [World.mirror, List.map_set, errorControllerSpec.mirror]
  | WithControllers spec =>
    simp only [Action.run, server.WithControllers] at hrun
    split at hrun
    · cases hrun
    · rename_i hs
      simp only [Except.ok.injEq] at hrun
      subst hrun
      simp [Action.run, Action.mirror, World.mirror, server.WithControllers, hs]
  | WithRequestFilters filters =>
    simp only [Action.run, server.WithRequestFilters] at hrun
    split at hrun
    · cases hrun
    · rename_i hs
      simp only [Except.ok.injEq] at hrun
      subst hrun
      simp [Action.run, Action.mirror, World.mirror, server.WithResponseFilters, hs]
  | WithResponseFilters filters =>
    simp only [Action.run, server.WithResponseFilters] at hrun
    split at hrun
    · cases hrun
    · rename_i hs
      simp only [Except.ok.injEq] at hrun
      subst hrun
      simp [Action.run, Action.mirror, World.mirror, server.WithRequestFilters, hs]
  | WithObjectSerializers serializers =>
    simp only [Action.run, server.WithObjectSerializers] at hrun
    split at hrun
    · cases hrun
    · rename_i hs
      simp only [Except.ok.injEq] at hrun
      subst hrun
      simp [Action.run, Action.mirror, World.mirror, server.WithObjectSerializers, hs]
  | WithReadTimeout timeout =>
    simp only [Action.run, server.WithReadTimeout] at hrun
    rcases hex : w.srv.extras with _ | e
    · rw [hex] at hrun
      cases hrun
    · rw [hex] at hrun
      simp only [Except.ok.injEq] at hrun
      subst hrun
      simp [Action.run, Action.mirror, World.mirror, server.WithReadTimeout, hex]
  | WithWriteTimeout timeout =>
    simp only [Action.run, server.WithWriteTimeout] at hrun
    rcases hex : w.srv.extras with _ | e
    · rw [hex] at hrun
      cases hrun
    · rw [hex] at hrun
      simp only [Except.ok.injEq] at hrun
      subst hrun
      simp [Action.run, Action.mirror, World.mirror, server.WithWriteTimeout, hex]
  | With404Controller useGlobalFilters spec =>
    simp only [Action.run, server.With404Controller] at hrun
    rcases hex : w.srv.extras with _ | e
    · rw [hex] at hrun
      cases hrun
    · rw [hex] at hrun
      simp only [Except.ok.injEq] at hrun
      subst hrun
      simp [Action.run, Action.mirror, World.mirror, server.With404Controller, hex]
  | With405Controller useGlobalFilters spec =>
    simp only [Action.run, server.With405Controller] at hrun
    rcases hex : w.srv.extras with _ | e
    · rw [hex] at hrun
      cases hrun
    · rw [hex] at hrun
      simp only [Except.ok.injEq] at hrun
      subst hrun
      simp [Action.run, Action.mirror, World.mirror, server.With405Controller, hex]

theorem setup_mirror {RF PF H S : Type} [GoRuntime] (actions : List (Action RF PF H S))
    (w w1 : World RF PF H S) (hsetup : setup w actions = .ok w1) :
    setup w.mirror (actions.map Action.mirror) = .ok w1.mirror := by
  induction actions generalizing w with
  | nil =>
    simp only [setup, Except.ok.injEq] at hsetup
    subst hsetup
    rfl
  | cons a rest ih =>
    simp only [setup] at hsetup
    rcases hrun : a.run w with e | w2
    · rw [hrun] at hsetup
      cases hsetup
    · rw [hrun] at hsetup
      simp only at hsetup
      simp only [List.map_cons, setup, Action.run_mirror w w2 a hrun]
      exact ih w2 hsetup

theorem responseFiltersOf_mirror {RF PF H S : Type} (actions : List (Action RF PF H S))
    (o : Owner) : responseFiltersOf (actions.map Action.mirror) o = requestFiltersOf actions o := by
  induction actions with
  | nil => rfl
  | cons a rest ih =>
    simp only [List.map_cons, responseFiltersOf, requestFiltersOf, ih]
    congr 1
    cases a <;> cases o <;> rfl

theorem outSlice_mirror {RF PF H S : Type} (w : World RF PF H S) (o : Owner) :
    w.mirror.outSlice o = w.inSlice o := by
  cases o with
  | server => rfl
  | spec p =>
    simp only [World.outSlice, World.inSlice, World.mirror, List.get?_eq_getElem?,
      List.getElem?_map, Option.map_map]
    rfl
  | errorSpec p =>
    simp only [World.outSlice, World.inSlice, World.mirror, List.get?_eq_getElem?,
      List.getElem?_map, Option.map_map]
    rfl

theorem setup_inSlice {RF PF H S : Type} [GoRuntime] (host : String) (port : Nat)
    (actions : List (Action RF PF H S)) (w : World RF PF H S)
    (hsetup : setup (NewServer host port) actions = .ok w) (o : Owner) (s : Slice)
    (hs : w.inSlice o = some s) : w.ins.read s = requestFiltersOf actions o := by
  have hm := setup_mirror actions (NewServer host port) w hsetup
  have hinv := setup_outInv (actions.map Action.mirror) _ w.mirror _
    (NewServer_outInv host port) hm
  have h := (hinv.1 o s (by rw [outSlice_mirror]; exact hs)).2
  simp only [List.nil_append, responseFiltersOf_mirror] at h
  exact h

theorem setup_outSlice {RF PF H S : Type} [GoRuntime] (host : String) (port : Nat)
    (actions : List (Action RF PF H S)) (w : World RF PF H S)
    (hsetup : setup (NewServer host port) actions = .ok w) (o : Owner) (s : Slice)
    (hs : w.outSlice o = some s) : w.outs.read s = responseFiltersOf actions o := by
  have hinv := setup_outInv actions _ w _ (NewServer_outInv host port) hsetup
  have h := (hinv.1 o s hs).2
  simp only [List.nil_append] at h
  exact h

theorem getString_putString (m : List (String × String)) (key value name : String) :
    getString (putString m key value) name =
      if key = name then some value else getString m name := by
  induction m with
  | nil => simp [putString, getString]
  | cons entry rest ih =>
    obtain ⟨k, v⟩ := entry
    simp only [putString]
    by_cases hk : k = key
    · rw [if_pos hk]
      simp only [getString]
      subst hk
      by_cases hn : k = name
      · simp [hn]
      · simp [hn]
    · rw [if_neg hk]
      simp only [getString, ih]
      by_cases hn : k = name
      · have hkn : ¬ key = name := fun e => hk (hn.trans e.symm)
        simp [hn, hkn]
      · simp [hn]

theorem set_of_get? {α : Type} {l : List α} {p : Nat} {c : α} (h : l.get? p = some c) :
    l.set p c = l := by
  apply List.ext_get?
  intro q
  rw [get?_set_of_get? h]
  by_cases hq : q = p
  · rw [if_pos hq, hq, h]
  · rw [if_neg hq]

theorem map_set_of_get? {α β : Type} (f : α → β) {l : List α} {p : Nat} {c d : α}
    (h : l.get? p = some c) (hf : f d = f c) : (l.set p d).map f = l.map f := by
  rw [List.map_set, hf]
  exact set_of_get? (get?_map_of_get? f h)

theorem SpecInv.of_specs {RF PF H S : Type} {w w1 : World RF PF H S} {made : List (String × H)}
    {madeError : List H} {m m1 : Nat → List String} {r r1 : Nat → String → Option String}
    (hinv : SpecInv w made madeError m r) (hspecs : w1.specs = w.specs)
    (herr : w1.errorSpecs.map (fun e => e.handler) = w.errorSpecs.map (fun e => e.handler))
    (hm : ∀ p, m1 p = m p) (hr : ∀ p name, r1 p name = r p name) :
    SpecInv w1 made madeError m1 r1 := by
  refine ⟨?_, ?_, ?_, ?_⟩
  · rw [hspecs]
    exact hinv.1
  · rw [herr]
    exact hinv.2.1
  · intro p c hc
    rw [hspecs] at hc
    rw [hm]
    refine ⟨(hinv.2.2.1 p c hc).1, fun name => ?_⟩
    rw [hr]
    exact (hinv.2.2.1 p c hc).2 name
  · intro p hc
    rw [hspecs] at hc
    rw [hm]
    refine ⟨(hinv.2.2.2 p hc).1, fun name => ?_⟩
    rw [hr]
    exact (hinv.2.2.2 p hc).2 name

theorem SpecInv.set {RF PF H S : Type} {w w1 : World RF PF H S} {made : List (String × H)}
    {madeError : List H} {m m1 : Nat → List String} {r r1 : Nat → String → Option String}
    (p : Nat) (c d : controllerSpec H)
    (hinv : SpecInv w made madeError m r) (hget : w.specs.get? p = some c)
    (hspecs : w1.specs = w.specs.set p d) (herr : w1.errorSpecs = w.errorSpecs)
    (hpath : d.path = c.path) (hhandler : d.handler = c.handler)
    (hm : ∀ q, m1 q = if q = p then d.methods else m q)
    (hr : ∀ q name, r1 q name = if q = p then getString d.headers name else r q name) :
    SpecInv w1 made madeError m1 r1 := by
  refine ⟨?_, ?_, ?_, ?_⟩
  · rw [hspecs, map_set_of_get? _ hget (by rw [hpath, hhandler])]
    exact hinv.1
  · rw [herr]
    exact hinv.2.1
  · intro q e he
    rw [hspecs, get?_set_of_get? hget] at he
    by_cases hq : q = p
    · rw [if_pos hq] at he
      cases he
      rw [hm, if_pos hq]
      refine ⟨rfl, fun name => ?_⟩
      rw [hr, if_pos hq]
    · rw [if_neg hq] at he
      rw [hm, if_neg hq]
      refine ⟨(hinv.2.2.1 q e he).1, fun name => ?_⟩
      rw [hr, if_neg hq]
      exact (hinv.2.2.1 q e he).2 name
  · intro q hnone
    rw [hspecs, get?_set_of_get? hget] at hnone
    by_cases hq : q = p
    · rw [if_pos hq] at hnone
      cases hnone
    · rw [if_neg hq] at hnone
      rw [hm, if_neg hq]
      refine ⟨(hinv.2.2.2 q hnone).1, fun name => ?_⟩
      rw [hr, if_neg hq]
      exact (hinv.2.2.2 q hnone).2 name

theorem Action.run_specInv {RF PF H S : Type} [GoRuntime] (w w1 : World RF PF H S)
    (made : List (String × H)) (madeError : List H) (m : Nat → List String)
    (r : Nat → String → Option String) (a : Action RF PF H S)
    (hinv : SpecInv w made madeError m r) (hrun : a.run w = .ok w1) :
    SpecInv w1 (made ++ a.made.toList) (madeError ++ a.madeError.toList)
      (fun p => m p ++ a.methods p) (fun p name => (a.requiredHeader p name).or (r p name)) := by
  cases a with
  | NewController path handler =>
    simp only [Action.run, Except.ok.injEq] at hrun
    subst hrun
    have hlen : ∀ q, w.specs.length ≤ q → w.specs.get? q = none := by
      intro q hq
      rw [List.get?_eq_getElem?]
      exact List.getElem?_eq_none hq
    refine ⟨?_, ?_, ?_, ?_⟩
    · simp [Swrv.NewController, Action.made, hinv.1]
    · simp [Swrv.NewController, Action.madeError, hinv.2.1]
    · intro q e he
      simp only [Swrv.NewController, List.get?_eq_getElem?] at he
      by_cases hlt : q < w.specs.length
      · rw [List.getElem?_append_left hlt, ← List.get?_eq_getElem?] at he
        simp only [Action.methods, List.append_nil, Action.requiredHeader, Option.none_or]
        exact hinv.2.2.1 q e he
      · have hq : q = w.specs.length := by
          by_contra hne
          rw [List.getElem?_eq_none (by simp; omega)] at he
          cases he
        subst hq
        simp only [List.getElem?_concat_length, Option.some.injEq] at he
        subst he
        simp only [Action.methods, List.append_nil, Action.requiredHeader, Option.none_or]
        refine ⟨((hinv.2.2.2 _ (hlen _ (Nat.le_refl _))).1).symm, fun name => ?_⟩
        rw [(hinv.2.2.2 _ (hlen _ (Nat.le_refl _))).2 name]
        rfl
    · intro q hnone
      simp only [Swrv.NewController, List.get?_eq_getElem?] at hnone
      have hq : w.specs.length ≤ q := by
        by_contra hlt
        rw [List.getElem?_append_left (by omega)] at hnone
        rw [List.getElem?_eq_none_iff] at hnone
        omega
      simp only [Action.methods, List.append_nil, Action.requiredHeader, Option.none_or]
      exact hinv.2.2.2 q (hlen q hq)
  | NewErrorController handler =>
    simp only [Action.run, Except.ok.injEq] at hrun
    subst hrun
    refine ⟨?_, ?_, ?_, ?_⟩
    · simp [Swrv.NewErrorController, Action.made, hinv.1]
    · simp [Swrv.NewErrorController, Action.madeError, hinv.2.1]
    · intro q e he
      simp only [Action.methods, List.append_nil, Action.requiredHeader, Option.none_or]
      exact hinv.2.2.1 q e he
    · intro q hnone
      simp only [Action.methods, List.append_nil, Action.requiredHeader, Option.none_or]
      exact hinv.2.2.2 q hnone
  | SpecWithRequestFilters spec filters =>
    simp only [Action.run, memoryAfter, controllerSpec.WithRequestFilters] at hrun
    rcases hc : w.specs.get? spec with _ | d
    · rw [hc] at hrun
      cases hrun
    · rw [hc] at hrun
      simp only [Except.ok.injEq] at hrun
      subst hrun
      show SpecInv _ (made ++ []) (madeError ++ []) _ _
      rw [List.append_nil, List.append_nil]
      refine SpecInv.set spec d _ hinv hc rfl rfl rfl rfl ?_ ?_
      · intro q
        by_cases hq : q = spec
        · subst hq
          simp [Action.methods, (hinv.2.2.1 q d hc).1]
        · have hq2 : ¬ spec = q := fun e => hq e.symm
          simp [Action.methods, hq, hq2]
      · intro q name
        by_cases hq : q = spec
        · subst hq
          simp [Action.requiredHeader, getString_putString, (hinv.2.2.1 q d hc).2 name]
        · have hq2 : ¬ spec = q := fun e => hq e.symm
          simp [Action.requiredHeader, hq, hq2]
  | SpecWithResponseFilters spec filters =>
    simp only [Action.run, memoryAfter, controllerSpec.WithResponseFilters] at hrun
    rcases hc : w.specs.get? spec with _ | d
    · rw [hc] at hrun
      cases hrun
    · rw [hc] at hrun
      simp only [Except.ok.injEq] at hrun
      subst hrun
      show SpecInv _ (made ++ []) (madeError ++ []) _ _
      rw [List.append_nil, List.append_nil]
      refine SpecInv.set spec d _ hinv hc rfl rfl rfl rfl ?_ ?_
      · intro q
        by_cases hq : q = spec
        · subst hq
          simp [Action.methods, (hinv.2.2.1 q d hc).1]
        · have hq2 : ¬ spec = q := fun e => hq e.symm
          simp [Action.methods, hq, hq2]
      · intro q name
        by_cases hq : q = spec
        · subst hq
          simp [Action.requiredHeader, getString_putString, (hinv.2.2.1 q d hc).2 name]
        · have hq2 : ¬ spec = q := fun e => hq e.symm
          simp [Action.requiredHeader, hq, hq2]
  | ForMethods spec methods =>
    simp only [Action.run, memoryAfter, controllerSpec.ForMethods] at hrun
    rcases hc : w.specs.get? spec with _ | d
    · rw [hc] at hrun
      cases hrun
    · rw [hc] at hrun
      simp only [Except.ok.injEq] at hrun
      subst hrun
      show SpecInv _ (made ++ []) (madeError ++ []) _ _
      rw [List.append_nil, List.append_nil]
      refine SpecInv.set spec d _ hinv hc rfl rfl rfl rfl ?_ ?_
      · intro q
        by_cases hq : q = spec
        · subst hq
          simp [Action.methods, (hinv.2.2.1 q d hc).1]
        · have hq2 : ¬ spec = q := fun e => hq e.symm
          simp [Action.methods, hq, hq2]
      · intro q name
        by_cases hq : q = spec
        · subst hq
          simp [Action.requiredHeader, getString_putString, (hinv.2.2.1 q d hc).2 name]
        · have hq2 : ¬ spec = q := fun e => hq e.symm
          simp [Action.requiredHeader, hq, hq2]
  | WithRequiredHeader spec header value =>
    simp only [Action.run, memoryAfter, controllerSpec.WithRequiredHeader] at hrun
    rcases hc : w.specs.get? spec with _ | d
    · rw [hc] at hrun
      cases hrun
    · rw [hc] at hrun
      simp only [Except.ok.injEq] at hrun
      subst hrun
      show SpecInv _ (made ++ []) (madeError ++ []) _ _
      rw [List.append_nil, List.append_nil]
      refine SpecInv.set spec d _ hinv hc rfl rfl rfl rfl ?_ ?_
      · intro q
        by_cases hq : q = spec
        · subst hq
          simp [Action.methods, (hinv.2.2.1 q d hc).1]
        · have hq2 : ¬ spec = q := fun e => hq e.symm
          simp [Action.methods, hq, hq2]
      · intro q name
        by_cases hq : q = spec
        · subst hq
          simp [Action.requiredHeader, getString_putString, (hinv.2.2.1 q d hc).2 name]
          all_goals (split <;> simp)
        · have hq2 : ¬ spec = q := fun e => hq e.symm
          simp [Action.requiredHeader, hq, hq2]
  | ErrorWithRequestFilters spec filters =>
    simp only [Action.run, memoryAfter, errorControllerSpec.WithRequestFilters] at hrun
    rcases hc : w.errorSpecs.get? spec with _ | d
    · rw [hc] at hrun
      cases hrun
    · rw [hc] at hrun
      simp only [Except.ok.injEq] at hrun
      subst hrun
      show SpecInv _ (made ++ []) (madeError ++ []) _ _
      rw [List.append_nil, List.append_nil]
      refine SpecInv.of_specs hinv rfl (map_set_of_get? _ hc rfl) ?_ ?_
      · intro q
        simp [Action.methods]
      · intro q name
        simp [Action.requiredHeader]
  | ErrorWithResponseFilters spec filters =>
    simp only [Action.run, memoryAfter, errorControllerSpec.WithResponseFilters] at hrun
    rcases hc : w.errorSpecs.get? spec with _ | d
    · rw [hc] at hrun
      cases hrun
    · rw [hc] at hrun
      simp only [Except.ok.injEq] at hrun
      subst hrun
      show SpecInv _ (made ++ []) (madeError ++ []) _ _
      rw [List.append_nil, List.append_nil]
      refine SpecInv.of_specs hinv rfl (map_set_of_get? _ hc rfl) ?_ ?_
      · intro q
        simp [Action.methods]
      · intro q name
        simp [Action.requiredHeader]
  | WithControllers spec =>
    simp only [Action.run, server.WithControllers] at hrun
    split at hrun
    · cases hrun
    · simp only [Except.ok.injEq] at hrun
      subst hrun
      show SpecInv _ (made ++ []) (madeError ++ []) _ _
      rw [List.append_nil, List.append_nil]
      refine SpecInv.of_specs hinv rfl rfl ?_ ?_
      · intro q
        simp [Action.methods]
      · intro q name
        simp [Action.requiredHeader]
  | WithRequestFilters filters =>
    simp only [Action.run, server.WithRequestFilters] at hrun
    split at hrun
    · cases hrun
    · simp only [Except.ok.injEq] at hrun
      subst hrun
      show SpecInv _ (made ++ []) (madeError ++ []) _ _
      rw [List.append_nil, List.append_nil]
      refine SpecInv.of_specs hinv rfl rfl ?_ ?_
      · intro q
        simp [Action.methods]
      · intro q name
        simp [Action.requiredHeader]
  | WithResponseFilters filters =>
    simp only [Action.run, server.WithResponseFilters] at hrun
    split at hrun
    · cases hrun
    · simp only [Except.ok.injEq] at hrun
      subst hrun
      show SpecInv _ (made ++ []) (madeError ++ []) _ _
      rw [List.append_nil, List.append_nil]
      refine SpecInv.of_specs hinv rfl rfl ?_ ?_
      · intro q
        simp [Action.methods]
      · intro q name
        simp [Action.requiredHeader]
  | WithObjectSerializers serializers =>
    simp only [Action.run, server.WithObjectSerializers] at hrun
    split at hrun
    · cases hrun
    · simp only [Except.ok.injEq] at hrun
      subst hrun
      show SpecInv _ (made ++ []) (madeError ++ []) _ _
      rw [List.append_nil, List.append_nil]
      refine SpecInv.of_specs hinv rfl rfl ?_ ?_
      · intro q
        simp [Action.methods]
      · intro q name
        simp [Action.requiredHeader]
  | WithReadTimeout timeout =>
    simp only [Action.run, server.WithReadTimeout] at hrun
    split at hrun
    · cases hrun
    · simp only [Except.ok.injEq] at hrun
      subst hrun
      show SpecInv _ (made ++ []) (madeError ++ []) _ _
      rw [List.append_nil, List.append_nil]
      refine SpecInv.of_specs hinv rfl rfl ?_ ?_
      · intro q
        simp [Action.methods]
      · intro q name
        simp [Action.requiredHeader]
  | WithWriteTimeout timeout =>
    simp only [Action.run, server.WithWriteTimeout] at hrun
    split at hrun
    · cases hrun
    · simp only [Except.ok.injEq] at hrun
      subst hrun
      show SpecInv _ (made ++ []) (madeError ++ []) _ _
      rw [List.append_nil, List.append_nil]
      refine SpecInv.of_specs hinv rfl rfl ?_ ?_
      · intro q
        simp [Action.methods]
      · intro q name
        simp [Action.requiredHeader]
  | With404Controller useGlobalFilters spec =>
    simp only [Action.run, server.With404Controller] at hrun
    split at hrun
    · cases hrun
    · simp only [Except.ok.injEq] at hrun
      subst hrun
      show SpecInv _ (made ++ []) (madeError ++ []) _ _
      rw [List.append_nil, List.append_nil]
      refine SpecInv.of_specs hinv rfl rfl ?_ ?_
      · intro q
        simp [Action.methods]
      · intro q name
        simp [Action.requiredHeader]
  | With405Controller useGlobalFilters spec =>
    simp only [Action.run, server.With405Controller] at hrun
    split at hrun
    · cases hrun
    · simp only [Except.ok.injEq] at hrun
      subst hrun
      show SpecInv _ (made ++ []) (madeError ++ []) _ _
      rw [List.append_nil, List.append_nil]
      refine SpecInv.of_specs hinv rfl rfl ?_ ?_
      · intro q
        simp [Action.methods]
      · intro q name
        simp [Action.requiredHeader]

theorem SpecInv.congr {RF PF H S : Type} {w : World RF PF H S} {made made1 : List (String × H)}
    {madeError madeError1 : List H} {m m1 : Nat → List String}
    {r r1 : Nat → String → Option String} (hinv : SpecInv w made madeError m r)
    (hmade : made1 = made) (hmadeError : madeError1 = madeError) (hm : ∀ p, m1 p = m p)
    (hr : ∀ p name, r1 p name = r p name) : SpecInv w made1 madeError1 m1 r1 := by
  subst hmade hmadeError
  exact SpecInv.of_specs hinv rfl rfl hm hr

theorem filterMap_cons_toList {α β : Type} (f : α → Option β) (a : α) (rest : List α) :
    (a :: rest).filterMap f = (f a).toList ++ rest.filterMap f := by
  rw [List.filterMap_cons]
  cases f a <;> rfl

theorem NewServer_specInv {RF PF H S : Type} (host : String) (port : Nat) :
    SpecInv (NewServer host port : World RF PF H S) [] [] (fun _ => []) (fun _ _ => none) := by
  refine ⟨rfl, rfl, ?_, ?_⟩
  · intro p c hc
    simp [NewServer] at hc
  · intro p _
    exact ⟨rfl, fun _ => rfl⟩

theorem setup_specInv {RF PF H S : Type} [GoRuntime] (actions : List (Action RF PF H S))
    (w w1 : World RF PF H S) (made : List (String × H)) (madeError : List H)
    (m : Nat → List String) (r : Nat → String → Option String)
    (hinv : SpecInv w made madeError m r) (hsetup : setup w actions = .ok w1) :
    SpecInv w1 (made ++ actions.filterMap Action.made)
      (madeError ++ actions.filterMap Action.madeError)
      (fun p => m p ++ methodsOf actions p)
      (fun p name => (requiredHeaderOf actions p name).or (r p name)) := by
  induction actions generalizing w made madeError m r with
  | nil =>
    simp only [setup, Except.ok.injEq] at hsetup
    subst hsetup
    exact hinv.congr (by simp) (by simp) (fun p => by simp [methodsOf])
      (fun p name => by simp [requiredHeaderOf])
  | cons a rest ih =>
    simp only [setup] at hsetup
    rcases hrun : a.run w with e | w2
    · rw [hrun] at hsetup
      cases hsetup
    · rw [hrun] at hsetup
      simp only at hsetup
      have h2 := ih w2 _ _ _ _ (Action.run_specInv w w2 made madeError m r a hinv hrun) hsetup
      refine h2.congr ?_ ?_ ?_ ?_
      · rw [filterMap_cons_toList, List.append_assoc]
      · rw [filterMap_cons_toList, List.append_assoc]
      · intro p
        simp [methodsOf, List.append_assoc]
      · intro p name
        simp [requiredHeaderOf, Option.or_assoc]

/-- C18, as the claim states it, fails for the required headers: after
`WithRequiredHeader("X-Auth", "alpha")` and `WithRequiredHeader("X-Auth",
"beta")` on one specification, `GetRequiredHeaders` holds the second
requirement only. -/
theorem WithRequiredHeader_counterexample :
    setup (NewServer "localhost" 8080) twoRequirements = .ok twoRequirementsWorld ∧
      (twoRequirementsWorld.specs.get? 0).map controllerSpec.GetRequiredHeaders =
        some [("X-Auth", "beta")] ∧
      (twoRequirementsWorld.specs.get? 0).map
          (fun c => getString c.GetRequiredHeaders "X-Auth") =
        some (some "beta") :=
  ⟨rfl, rfl, rfl⟩

/-- C18, amended: after every sequence of configuration calls on a new server,
the specifications in memory are those the `NewController` and
`NewErrorController` calls made, in order, each with the path and handler it was
made with, so every builder call has acted on the specification it was called
on; `GetMethods` of a specification is the concatenation of the arguments of
the `ForMethods` calls on it in call order; `GetRequestFilters` and
`GetResponseFilters` hold the concatenations of the arguments of the
`WithRequestFilters` and `WithResponseFilters` calls on it, also for an error
specification; `GetRequiredHeaders` maps each header name to the value of
the last `WithRequiredHeader` call on the specification that names it, and
holds no header that no call names; and in every memory each of the six
builder methods, when it returns, returns the pointer to the specification it
was called on and leaves the memory that the corresponding configuration call
leaves. -/
theorem builders_accumulate {RF PF H S : Type} [GoRuntime] (host : String) (port : Nat)
    (actions : List (Action RF PF H S)) (w : World RF PF H S)
    (hsetup : setup (NewServer host port) actions = .ok w) :
    w.specs.map (fun c => (c.path, c.handler)) = actions.filterMap Action.made ∧
      w.errorSpecs.map (fun e => e.handler) = actions.filterMap Action.madeError ∧
      (∀ spec c, w.specs.get? spec = some c →
        c.GetMethods = methodsOf actions spec ∧
          w.ins.read c.GetRequestFilters = requestFiltersOf actions (Owner.spec spec) ∧
          w.outs.read c.GetResponseFilters = responseFiltersOf actions (Owner.spec spec) ∧
          ∀ name, getString c.GetRequiredHeaders name = requiredHeaderOf actions spec name) ∧
      (∀ spec e, w.errorSpecs.get? spec = some e →
        w.ins.read e.GetRequestFilters = requestFiltersOf actions (Owner.errorSpec spec) ∧
          w.outs.read e.GetResponseFilters =
            responseFiltersOf actions (Owner.errorSpec spec)) ∧
      ∀ (w0 w1 : World RF PF H S) (spec returned : Nat),
        (∀ filters, controllerSpec.WithRequestFilters w0 spec filters = .ok (w1, returned) →
          returned = spec ∧ (Action.SpecWithRequestFilters spec filters).run w0 = .ok w1) ∧
        (∀ filters, controllerSpec.WithResponseFilters w0 spec filters = .ok (w1, returned) →
          returned = spec ∧ (Action.SpecWithResponseFilters spec filters).run w0 = .ok w1) ∧
        (∀ methods, controllerSpec.ForMethods w0 spec methods = .ok (w1, returned) →
          returned = spec ∧ (Action.ForMethods spec methods).run w0 = .ok w1) ∧
        (∀ header value,
          controllerSpec.WithRequiredHeader w0 spec header value = .ok (w1, returned) →
          returned = spec ∧ (Action.WithRequiredHeader spec header value).run w0 = .ok w1) ∧
        (∀ filters,
          errorControllerSpec.WithRequestFilters w0 spec filters = .ok (w1, returned) →
          returned = spec ∧ (Action.ErrorWithRequestFilters spec filters).run w0 = .ok w1) ∧
        (∀ filters,
          errorControllerSpec.WithResponseFilters w0 spec filters = .ok (w1, returned) →
          returned = spec ∧ (Action.ErrorWithResponseFilters spec filters).run w0 = .ok w1) := by
  have hinv := setup_specInv actions _ w _ _ _ _ (NewServer_specInv host port) hsetup
  refine ⟨?_, ?_, ?_, ?_, ?_⟩
  · simpa using hinv.1
  · simpa using hinv.2.1
  · intro spec c hc
    have h := hinv.2.2.1 spec c hc
    refine ⟨?_, ?_, ?_, ?_⟩
    · simpa [controllerSpec.GetMethods] using h.1
    · exact setup_inSlice host port actions w hsetup (Owner.spec spec) _
        (by rw [World.inSlice, hc]; rfl)
    · exact setup_outSlice host port actions w hsetup (Owner.spec spec) _
        (by rw [World.outSlice, hc]; rfl)
    · intro name
      simpa [controllerSpec.GetRequiredHeaders] using h.2 name
  · intro spec e he
    refine ⟨?_, ?_⟩
    · exact setup_inSlice host port actions w hsetup (Owner.errorSpec spec) _
        (by rw [World.inSlice, he]; rfl)
    · exact setup_outSlice host port actions w hsetup (Owner.errorSpec spec) _
        (by rw [World.outSlice, he]; rfl)
  · intro w0 w1 spec returned
    refine ⟨?_, ?_, ?_, ?_, ?_, ?_⟩
    · intro filters h
      have hrun : (Action.SpecWithRequestFilters spec filters).run w0 = .ok w1 := by
        simp only [Action.run, h, memoryAfter]
      refine ⟨?_, hrun⟩
      unfold controllerSpec.WithRequestFilters at h
      split at h
      · cases h
      · cases h
        rfl
    · intro filters h
      have hrun : (Action.SpecWithResponseFilters spec filters).run w0 = .ok w1 := by
        simp only [Action.run, h, memoryAfter]
      refine ⟨?_, hrun⟩
      unfold controllerSpec.WithResponseFilters at h
      split at h
      · cases h
      · cases h
        rfl
    · intro methods h
      have hrun : (Action.ForMethods spec methods).run w0 = .ok w1 := by
        simp only [Action.run, h, memoryAfter]
      refine ⟨?_, hrun⟩
      unfold controllerSpec.ForMethods at h
      split at h
      · cases h
      · cases h
        rfl
    · intro header value h
      have hrun : (Action.WithRequiredHeader spec header value).run w0 = .ok w1 := by
        simp only [Action.run, h, memoryAfter]
      refine ⟨?_, hrun⟩
      unfold controllerSpec.WithRequiredHeader at h
      split at h
      · cases h
      · cases h
        rfl
    · intro filters h
      have hrun : (Action.ErrorWithRequestFilters spec filters).run w0 = .ok w1 := by
        simp only [Action.run, h, memoryAfter]
      refine ⟨?_, hrun⟩
      unfold errorControllerSpec.WithRequestFilters at h
      split at h
      · cases h
      · cases h
        rfl
    · intro filters h
      have hrun : (Action.ErrorWithResponseFilters spec filters).run w0 = .ok w1 := by
        simp only [Action.run, h, memoryAfter]
      refine ⟨?_, hrun⟩
      unfold errorControllerSpec.WithResponseFilters at h
      split at h
      · cases h
      · cases h
        rfl

theorem builders_accumulate_witness :
    twoRequirementsWorld.specs.map (fun c => (c.path, c.handler)) =
        twoRequirements.filterMap Action.made ∧
      twoRequirementsWorld.errorSpecs.map (fun e => e.handler) =
        twoRequirements.filterMap Action.madeError ∧
      (∀ spec c, twoRequirementsWorld.specs.get? spec = some c →
        c.GetMethods = methodsOf twoRequirements spec ∧
          twoRequirementsWorld.ins.read c.GetRequestFilters =
            requestFiltersOf twoRequirements (Owner.spec spec) ∧
          twoRequirementsWorld.outs.read c.GetResponseFilters =
            responseFiltersOf twoRequirements (Owner.spec spec) ∧
          ∀ name, getString c.GetRequiredHeaders name =
            requiredHeaderOf twoRequirements spec name) ∧
      (∀ spec e, twoRequirementsWorld.errorSpecs.get? spec = some e →
        twoRequirementsWorld.ins.read e.GetRequestFilters =
            requestFiltersOf twoRequirements (Owner.errorSpec spec) ∧
          twoRequirementsWorld.outs.read e.GetResponseFilters =
            responseFiltersOf twoRequirements (Owner.errorSpec spec)) ∧
      (controllerSpec.WithRequiredHeader twoRequirementsWorld 0 "X-Auth" "gamma").toOption.map
          Prod.snd = some 0 :=
  have h := builders_accumulate "localhost" 8080 twoRequirements twoRequirementsWorld rfl
  ⟨h.1, h.2.1, h.2.2.1, h.2.2.2.1, rfl⟩

/-! ## Building the pipelines: a specification shared by two servers -/

/-- C3 fails on the code: `buildController` appends the global response
filters to the specification's own slice without copying it. With three
response filters given by three calls the slice has length 3 and capacity 4, so
the first server writes its global filter into the spare slot of the
specification's backing array, and a second server that registers the same
specification writes its own global filter into the same slot: the pipeline of
the first server then runs the global filter of the second. -/
theorem Start_response_chains_shared :
    sharedFirstServing.toOption.map Serving.responseChains = some [["f1", "f2", "f3", "g1"]] ∧
      sharedSecondServing.toOption.map Serving.responseChains =
        some [["f1", "f2", "f3", "g2"]] ∧
      sharedFirstServing.toOption.bind
          (fun first =>
            sharedSecondServing.toOption.map
              (fun second => first.responseChainsIn second.world.outs)) =
        some [["f1", "f2", "f3", "g2"]] := by
  refine ⟨?_, ?_, ?_⟩ <;> decide

end Swrv
